import Mathlib

/-! Security+ PBQ practice app: answer checking and scoring.

A shallow embedding of `src/SecurityPlusPBQApp.jsx`.  Every question widget
(`PBQ1` … `PBQ18`) is a namespace holding the widget's constants, its React
state as a structure, its event handlers as functions on that state, and
`check`, which returns the next state together with the pair handed to
`onScore`.  The application shell is the pair `updateTotals` / `resetTotals`
on `Totals`.  The flashcard browser is the namespace `FLASH_Acronyms`; its
random draws are arguments of `shuffle`.

Modelling conventions.

* A JavaScript string is a list of characters (`Str`).
* `trim` and the regex class `\s` use the ECMAScript white-space and
  line-terminator code points (`jsWhiteSpace`).
* `toUpperCase` / `toLowerCase` convert the ASCII letters and the characters
  outside ASCII whose case form reaches into ASCII (`upperSpecial`,
  `lowerSpecial`), such as the dotless ı, whose upper-case form is I, and the
  Kelvin sign, whose lower-case form is k.  The other characters outside ASCII
  are left as they are: their case forms stay outside ASCII, and the program
  compares case forms only with ASCII constants and with the card texts, so
  every verdict of the program is the one JavaScript gives.
* A JavaScript array of strings is a list of `Option Str` (`Arr`), where
  `none` stands for `undefined`, which is also what a hole reads as.
* Scores are integers held in JavaScript Numbers, which are doubles: the sum
  of two of them is the exact sum rounded to the nearest double, ties going to
  the even significand (`jsAdd`).  Every integer of magnitude up to 2^53 is a
  double, so sums within that range are exact.
* A regex literal is a `RegularExpression Char`; `RegExp.test` searches for a
  matching substring, as `test` does for a pattern without anchors.
-/

/-! ## Strings -/

/-- JavaScript strings. -/
abbrev Str := List Char

/-- The code points that `String.prototype.trim` strips and `\s` matches:
WhiteSpace (TAB, VT, FF, SP, NBSP, ZWNBSP and the space separators) and
LineTerminator (LF, CR, LS, PS). -/
def jsWhiteSpace : List Char :=
  [Char.ofNat 0x0009, Char.ofNat 0x000A, Char.ofNat 0x000B, Char.ofNat 0x000C,
   Char.ofNat 0x000D, Char.ofNat 0x0020, Char.ofNat 0x00A0, Char.ofNat 0x1680,
   Char.ofNat 0x2000, Char.ofNat 0x2001, Char.ofNat 0x2002, Char.ofNat 0x2003,
   Char.ofNat 0x2004, Char.ofNat 0x2005, Char.ofNat 0x2006, Char.ofNat 0x2007,
   Char.ofNat 0x2008, Char.ofNat 0x2009, Char.ofNat 0x200A, Char.ofNat 0x2028,
   Char.ofNat 0x2029, Char.ofNat 0x202F, Char.ofNat 0x205F, Char.ofNat 0x3000,
   Char.ofNat 0xFEFF]

/-- Membership in `jsWhiteSpace`. -/
def isWhiteSpace (c : Char) : Bool := decide (c ∈ jsWhiteSpace)

/-- `s.trim()`: strip white space from both ends. -/
def trim (s : Str) : Str := (s.dropWhile isWhiteSpace).rdropWhile isWhiteSpace

/-- The characters outside ASCII whose upper-case form in the Unicode case
mappings, which `toUpperCase` follows, has an ASCII character in it, each with
that form: the sharp s, the dotless ı, the apostrophe n, the long s, the
letters j, h, t, w, y with a mark that has no capital, the a with right half
ring, and the ligatures ff, fi, fl, ffi, ffl, long-s-t and st. -/
def upperSpecial : List (Char × List Char) :=
  [(Char.ofNat 0x00DF, ['S', 'S']),
   (Char.ofNat 0x0131, ['I']),
   (Char.ofNat 0x0149, [Char.ofNat 0x02BC, 'N']),
   (Char.ofNat 0x017F, ['S']),
   (Char.ofNat 0x01F0, ['J', Char.ofNat 0x030C]),
   (Char.ofNat 0x1E96, ['H', Char.ofNat 0x0331]),
   (Char.ofNat 0x1E97, ['T', Char.ofNat 0x0308]),
   (Char.ofNat 0x1E98, ['W', Char.ofNat 0x030A]),
   (Char.ofNat 0x1E99, ['Y', Char.ofNat 0x030A]),
   (Char.ofNat 0x1E9A, ['A', Char.ofNat 0x02BE]),
   (Char.ofNat 0xFB00, ['F', 'F']),
   (Char.ofNat 0xFB01, ['F', 'I']),
   (Char.ofNat 0xFB02, ['F', 'L']),
   (Char.ofNat 0xFB03, ['F', 'F', 'I']),
   (Char.ofNat 0xFB04, ['F', 'F', 'L']),
   (Char.ofNat 0xFB05, ['S', 'T']),
   (Char.ofNat 0xFB06, ['S', 'T'])]

/-- The characters outside ASCII whose lower-case form in the Unicode case
mappings, which `toLowerCase` follows, has an ASCII character in it, each with
that form: the dotted capital İ and the Kelvin sign. -/
def lowerSpecial : List (Char × List Char) :=
  [(Char.ofNat 0x0130, ['i', Char.ofNat 0x0307]),
   (Char.ofNat 0x212A, ['k'])]

/-- The upper-case form of one character.  An ASCII letter gives its capital
and a character of `upperSpecial` the text listed for it.  Every other
character outside ASCII is kept as it is: its upper-case form in JavaScript is
made of characters outside ASCII, and the program compares upper-case forms
with ASCII constants only, so each comparison comes out as in JavaScript. -/
def jsUpperChar (c : Char) : List Char :=
  match upperSpecial.lookup c with
  | some img => img
  | none => [c.toUpper]

/-- The lower-case form of one character.  An ASCII letter gives its small
letter and a character of `lowerSpecial` the text listed for it.  Every other
character outside ASCII is kept as it is: its lower-case form in JavaScript is
made of characters outside ASCII, and the program compares lower-case forms
only with that of an ASCII constant (PBQ16) and searches them only in the card
texts, whose one character outside ASCII, the en dash, is the lower-case form
of no other character, so each comparison and each search comes out as in
JavaScript. -/
def jsLowerChar (c : Char) : List Char :=
  match lowerSpecial.lookup c with
  | some img => img
  | none => [c.toLower]

/-- `s.toUpperCase()`: the upper-case forms of the characters, joined. -/
def toUpperCase (s : Str) : Str := s.flatMap jsUpperChar

/-- `s.toLowerCase()`: the lower-case forms of the characters, joined. -/
def toLowerCase (s : Str) : Str := s.flatMap jsLowerChar

/-- `s.includes(q)`: `q` occurs in `s` as a substring. -/
def includes (s q : Str) : Bool := s.tails.any (fun u => q.isPrefixOf u)

/-- The remainder operator `a % b`, which truncates toward zero. -/
def jsRem (a b : Int) : Int := Int.tmod a b

/-! ## Arrays -/

/-- JavaScript arrays of strings; `none` is `undefined`. -/
abbrev Arr := List (Option Str)

namespace Arr

/-- The array literal of the given strings. -/
def ofStrings (xs : List String) : Arr := xs.map (fun x => some x.toList)

/-- `a[i]`: `undefined` outside `0 … a.length - 1`. -/
def get (a : Arr) (i : Int) : Option Str :=
  if 0 ≤ i then (a.get? i.toNat).join else none

/-- `a[i] = v`.  An index inside the array overwrites the element; an index at
or past the end grows the array, leaving holes in between; a negative index
names an ordinary property and leaves the elements alone. -/
def set (a : Arr) (i : Int) (v : Option Str) : Arr :=
  if i < 0 then a
  else if i.toNat < a.length then List.set a i.toNat v
  else a ++ List.replicate (i.toNat - a.length) none ++ [v]

/-- `a.join(sep)`: `undefined` elements are written as the empty string. -/
def join : Arr → Str → Str
  | [], _ => []
  | [x], _ => x.getD []
  | x :: y :: rest, sep => x.getD [] ++ sep ++ join (y :: rest) sep

end Arr

/-! ## Regular expressions -/

namespace RegExp

open RegularExpression

/-- A literal run of characters. -/
def lit : Str → RegularExpression Char
  | [] => 1
  | c :: cs => char c * lit cs

/-- One pattern character under the `i` flag: an ASCII letter matches in
either case, any other character matches itself. -/
def ciChar (c : Char) : RegularExpression Char :=
  if c.toLower = c.toUpper then char c else char c.toLower + char c.toUpper

/-- A literal run of characters under the `i` flag. -/
def ciLit : Str → RegularExpression Char
  | [] => 1
  | c :: cs => ciChar c * ciLit cs

/-- The class `\s`. -/
def ws : RegularExpression Char := jsWhiteSpace.foldr (fun c r => char c + r) 0

/-- The quantifier `r+`. -/
def oneOrMore (r : RegularExpression Char) : RegularExpression Char := r * star r

/-- The quantifier `r?`. -/
def optional (r : RegularExpression Char) : RegularExpression Char := r + 1

/-- `/r/.test(s)` for a pattern without anchors: some substring of `s`
matches `r`. -/
def test (r : RegularExpression Char) (s : Str) : Bool :=
  s.tails.any (fun t => t.inits.any (fun m => r.rmatch m))

/-- `/^r$/.test(s)`: the whole of `s` matches `r`. -/
def testWhole (r : RegularExpression Char) (s : Str) : Bool := r.rmatch s

end RegExp

/-! ## Question widgets -/

/-- A row of a matching table: the key shown on the left and the one correct
value for it. -/
structure Row where
  k : Str
  v : Str

/-- A plain object used as a string-keyed answer map; `none` is `undefined`. -/
abbrev Answers := Str → Option Str

/-- The object `{...ans, [k]: v}`. -/
def Answers.assign (ans : Answers) (k v : Str) : Answers :=
  fun x => if x = k then some v else ans x

/-- The empty object `{}`. -/
def Answers.empty : Answers := fun _ => none

/-! ### PBQ 1: match control to scenario -/

namespace PBQ1

/-- An entry of `items`; the scenario text is display only. -/
structure Item where
  id : Nat
  answer : Str

def items : List Item :=
  [⟨1, "DLP".toList⟩, ⟨2, "SIEM".toList⟩, ⟨3, "IPS".toList⟩, ⟨4, "MFA".toList⟩,
   ⟨5, "VPN".toList⟩]

structure State where
  choices : Nat → Option Str
  checked : Bool

/-- The initial state: every item id is mapped to the empty string. -/
def init : State :=
  ⟨fun k => if k ∈ items.map Item.id then some [] else none, false⟩

/-- The `onChange` handler of the select of item `id`. -/
def setChoice (st : State) (id : Nat) (v : Str) : State :=
  { st with choices := fun k => if k = id then some v else st.choices k }

def score (st : State) : Int :=
  items.foldl (fun s it => s + (if st.choices it.id = some it.answer then 1 else 0)) 0

def check (st : State) : State × (Int × Int) :=
  ({ st with checked := true }, (score st, items.length))

end PBQ1

/-! ### PBQ 2: firewall rule configuration -/

namespace PBQ2

structure Rule where
  action : Str
  proto : Str
  port : Str
  src : Str
  dst : Str

structure State where
  rule1 : Rule
  rule2 : Rule
  checked : Bool

def init : State := ⟨⟨[], [], [], [], []⟩, ⟨[], [], [], [], []⟩, false⟩

def isRule1Correct (rule1 : Rule) : Bool :=
  let okAction := decide (toUpperCase rule1.action = "ALLOW".toList)
  let okProto := decide (toUpperCase rule1.proto = "TCP".toList)
  let okPort := decide (rule1.port = "443".toList)
  let okSrc := decide (toUpperCase (trim rule1.src) ∈
    ["ANY".toList, "*".toList, "INTERNET".toList])
  let okDst := decide (trim rule1.dst = "10.10.5.25".toList)
  okAction && okProto && okPort && okSrc && okDst

def isRule2Correct (rule2 : Rule) : Bool :=
  let okAction := decide (toUpperCase rule2.action = "DENY".toList)
  let okProto := decide (toUpperCase rule2.proto ∈ ["".toList, "TCP".toList, "UDP".toList])
  let okPort := decide (trim rule2.port = "".toList)
  let okSrc := decide (toUpperCase (trim rule2.src) ∈
    ["ANY".toList, "*".toList, "INTERNET".toList, "0.0.0.0/0".toList])
  let okDst := decide (toUpperCase (trim rule2.dst) ∈
    ["ANY".toList, "*".toList, "10.10.5.25".toList, "0.0.0.0/0".toList])
  okAction && okProto && okPort && okSrc && okDst

def setRule1 (st : State) (r : Rule) : State := { st with rule1 := r }

def setRule2 (st : State) (r : Rule) : State := { st with rule2 := r }

def check (st : State) : State × (Int × Int) :=
  let sc : Int := (if isRule1Correct st.rule1 then 1 else 0) +
    (if isRule2Correct st.rule2 then 1 else 0)
  ({ st with checked := true }, (sc, 2))

end PBQ2

/-! ### PBQ 3: network diagram troubleshooting -/

namespace PBQ3

open RegExp RegularExpression

structure State where
  device : Str
  rule : Str
  checked : Bool

def init : State := ⟨[], [], false⟩

/-- The pattern `/allow\s+https|tcp\/?443|dmz/i`. -/
def rulePattern1 : RegularExpression Char :=
  ciLit "allow".toList * oneOrMore ws * ciLit "https".toList
    + ciLit "tcp".toList * optional (ciChar '/') * ciLit "443".toList
    + ciLit "dmz".toList

/-- The pattern `/from\s+internet|any/i`. -/
def rulePattern2 : RegularExpression Char :=
  ciLit "from".toList * oneOrMore ws * ciLit "internet".toList + ciLit "any".toList

def correctDevice (st : State) : Bool := decide (st.device = "Firewall".toList)

def correctRule (st : State) : Bool :=
  test rulePattern1 st.rule && test rulePattern2 st.rule

def setDevice (st : State) (v : Str) : State := { st with device := v }

def setRule (st : State) (v : Str) : State := { st with rule := v }

def check (st : State) : State × (Int × Int) :=
  let sc : Int := (if correctDevice st then 1 else 0) + (if correctRule st then 1 else 0)
  ({ st with checked := true }, (sc, 2))

end PBQ3

/-! ### PBQ 4: order of the incident response steps -/

namespace PBQ4

def correct : Arr :=
  Arr.ofStrings ["Identification", "Containment", "Eradication", "Recovery", "Lessons Learned"]

structure State where
  steps : Arr
  checked : Bool

def init : State :=
  ⟨Arr.ofStrings ["Containment", "Eradication", "Lessons Learned", "Identification",
    "Recovery"], false⟩

def move (st : State) (idx dir : Int) : State :=
  let next := st.steps
  let j := idx + dir
  if j < 0 ∨ j ≥ next.length then st
  else
    let rhs := (Arr.get next j, Arr.get next idx)
    let next := Arr.set next idx rhs.1
    let next := Arr.set next j rhs.2
    { st with steps := next }

def isCorrect (st : State) : Bool :=
  decide (Arr.join st.steps "|".toList = Arr.join correct "|".toList)

def check (st : State) : State × (Int × Int) :=
  ({ st with checked := true }, (if isCorrect st then 1 else 0, 1))

end PBQ4

/-! ### PBQ 5: log analysis -/

namespace PBQ5

open RegExp RegularExpression

structure State where
  a1 : Str
  a2 : Str
  a3 : Str
  checked : Bool

def init : State := ⟨[], [], [], false⟩

/-- The pattern `/sql\s*injection|sqli/i`. -/
def pattern1 : RegularExpression Char :=
  ciLit "sql".toList * star ws * ciLit "injection".toList + ciLit "sqli".toList

/-- The pattern `/waf|web\s*application\s*firewall/i`. -/
def pattern2 : RegularExpression Char :=
  ciLit "waf".toList
    + ciLit "web".toList * star ws * ciLit "application".toList * star ws
      * ciLit "firewall".toList

/-- The pattern `/injection/i`. -/
def pattern3 : RegularExpression Char := ciLit "injection".toList

def ok1 (st : State) : Bool := test pattern1 st.a1

def ok2 (st : State) : Bool := test pattern2 st.a2

def ok3 (st : State) : Bool := test pattern3 st.a3

def setA1 (st : State) (v : Str) : State := { st with a1 := v }

def setA2 (st : State) (v : Str) : State := { st with a2 := v }

def setA3 (st : State) (v : Str) : State := { st with a3 := v }

def check (st : State) : State × (Int × Int) :=
  let sc : Int := (if ok1 st then 1 else 0) + (if ok2 st then 1 else 0) +
    (if ok3 st then 1 else 0)
  ({ st with checked := true }, (sc, 3))

end PBQ5

/-! ### PBQ 6: ACL order -/

namespace PBQ6

structure State where
  rules : Arr
  checked : Bool

def init : State :=
  ⟨Arr.ofStrings ["deny any", "permit tcp any 10.0.10.50 eq 22",
    "permit tcp any 10.0.10.50 eq 443", "permit icmp any 10.0.10.0/24"], false⟩

def target : Arr :=
  Arr.ofStrings ["permit tcp any 10.0.10.50 eq 443", "permit tcp any 10.0.10.50 eq 22",
    "permit icmp any 10.0.10.0/24", "deny any"]

def move (st : State) (i dir : Int) : State :=
  let j := i + dir
  if j < 0 ∨ j ≥ st.rules.length then st
  else
    let next := st.rules
    let rhs := (Arr.get next j, Arr.get next i)
    let next := Arr.set next i rhs.1
    let next := Arr.set next j rhs.2
    { st with rules := next }

def isCorrect (st : State) : Bool :=
  decide (Arr.join st.rules "|".toList = Arr.join target "|".toList)

def check (st : State) : State × (Int × Int) :=
  ({ st with checked := true }, (if isCorrect st then 1 else 0, 1))

end PBQ6

/-! ### PBQ 7: enterprise Wi-Fi -/

namespace PBQ7

structure State where
  auth : Str
  enc : Str
  checked : Bool

def init : State := ⟨[], [], false⟩

def okAuth (st : State) : Bool := decide (st.auth = "802.1X/EAP-TLS".toList)

def okEnc (st : State) : Bool :=
  decide (st.enc = "AES-CCMP (WPA2-Enterprise)".toList) ||
    decide (st.enc = "AES-GCMP (WPA3-Enterprise)".toList)

def setAuth (st : State) (v : Str) : State := { st with auth := v }

def setEnc (st : State) (v : Str) : State := { st with enc := v }

def check (st : State) : State × (Int × Int) :=
  ({ st with checked := true },
    ((if okAuth st then 1 else 0) + (if okEnc st then 1 else 0), 2))

end PBQ7

/-! ### PBQ 8: PKI matching -/

namespace PBQ8

def left : List Row :=
  [⟨"Root CA".toList, "Self-signed, top of trust chain".toList⟩,
   ⟨"Intermediate CA".toList, "Issues server/user certs on behalf of root".toList⟩,
   ⟨"OCSP".toList, "Online status check of a certificate".toList⟩,
   ⟨"CRL".toList, "List of revoked certificates".toList⟩]

structure State where
  ans : Answers
  checked : Bool

def init : State := ⟨Answers.empty, false⟩

def setAns (st : State) (k v : Str) : State := { st with ans := st.ans.assign k v }

def score (st : State) : Int :=
  left.foldl (fun s row => s + (if st.ans row.k = some row.v then 1 else 0)) 0

def check (st : State) : State × (Int × Int) :=
  ({ st with checked := true }, (score st, left.length))

end PBQ8

/-! ### PBQ 9: subnetting -/

namespace PBQ9

open RegExp

structure State where
  cidr : Str
  hosts : Str
  bcast : Str
  checked : Bool

def init : State := ⟨"192.168.50.0/26".toList, [], [], false⟩

/-- The test `/^62$/.test(hosts.trim())`. -/
def okHosts (st : State) : Bool := testWhole (lit "62".toList) (trim st.hosts)

/-- The test `/192\.168\.50\.63/.test(bcast.trim())`. -/
def okBcast (st : State) : Bool := test (lit "192.168.50.63".toList) (trim st.bcast)

def setCidr (st : State) (v : Str) : State := { st with cidr := v }

def setHosts (st : State) (v : Str) : State := { st with hosts := v }

def setBcast (st : State) (v : Str) : State := { st with bcast := v }

def check (st : State) : State × (Int × Int) :=
  ({ st with checked := true },
    ((if okHosts st then 1 else 0) + (if okBcast st then 1 else 0), 2))

end PBQ9

/-! ### PBQ 10: NAT and port forwarding -/

namespace PBQ10

open RegExp

structure State where
  extPort : Str
  intIP : Str
  proto : Str
  checked : Bool

def init : State := ⟨[], [], [], false⟩

def ok (st : State) : Bool :=
  decide (st.extPort = "8443".toList) && test (lit "10.0.20.50:443".toList) st.intIP &&
    decide (toUpperCase st.proto = "TCP".toList)

def setExtPort (st : State) (v : Str) : State := { st with extPort := v }

def setIntIP (st : State) (v : Str) : State := { st with intIP := v }

def setProto (st : State) (v : Str) : State := { st with proto := v }

def check (st : State) : State × (Int × Int) :=
  ({ st with checked := true }, (if ok st then 1 else 0, 1))

end PBQ10

/-! ### PBQ 11: VLAN trunk or access -/

namespace PBQ11

structure State where
  portMode : Str
  vlan : Str
  checked : Bool

def init : State := ⟨[], [], false⟩

def okMode (st : State) : Bool := decide (st.portMode = "Trunk".toList)

def okVlan (st : State) : Bool := decide (st.vlan = "10,20,30".toList)

def setPortMode (st : State) (v : Str) : State := { st with portMode := v }

def setVlan (st : State) (v : Str) : State := { st with vlan := v }

def check (st : State) : State × (Int × Int) :=
  ({ st with checked := true },
    ((if okMode st then 1 else 0) + (if okVlan st then 1 else 0), 2))

end PBQ11

/-! ### PBQ 12: crypto matching -/

namespace PBQ12

def rows : List Row :=
  [⟨"Hash".toList, "One-way integrity (e.g., SHA-256)".toList⟩,
   ⟨"HMAC".toList, "Integrity + authentication via shared key".toList⟩,
   ⟨"Digital Signature".toList, "Integrity + non-repudiation with private key".toList⟩,
   ⟨"Encryption".toList, "Confidentiality (symmetric or asymmetric)".toList⟩]

structure State where
  ans : Answers
  checked : Bool

def init : State := ⟨Answers.empty, false⟩

def setAns (st : State) (k v : Str) : State := { st with ans := st.ans.assign k v }

def score (st : State) : Int :=
  rows.foldl (fun s r => s + (if st.ans r.k = some r.v then 1 else 0)) 0

def check (st : State) : State × (Int × Int) :=
  ({ st with checked := true }, (score st, rows.length))

end PBQ12

/-! ### PBQ 13: access control models -/

namespace PBQ13

def rows : List Row :=
  [⟨"DAC".toList, "Owner controls access via ACLs".toList⟩,
   ⟨"MAC".toList, "Labels & clearances; enforced by policy".toList⟩,
   ⟨"RBAC".toList, "Roles grant permissions".toList⟩,
   ⟨"ABAC".toList, "Attributes (user, resource, context) decide".toList⟩]

structure State where
  ans : Answers
  checked : Bool

def init : State := ⟨Answers.empty, false⟩

def setAns (st : State) (k v : Str) : State := { st with ans := st.ans.assign k v }

def score (st : State) : Int :=
  rows.foldl (fun s r => s + (if st.ans r.k = some r.v then 1 else 0)) 0

def check (st : State) : State × (Int × Int) :=
  ({ st with checked := true }, (score st, rows.length))

end PBQ13

/-! ### PBQ 14: cloud shared responsibility -/

namespace PBQ14

def rows : List Row :=
  [⟨"IaaS – OS patching".toList, "Customer".toList⟩,
   ⟨"PaaS – OS patching".toList, "Provider".toList⟩,
   ⟨"SaaS – App security & platform".toList, "Provider".toList⟩,
   ⟨"Customer data protection (all models)".toList, "Customer".toList⟩]

structure State where
  ans : Answers
  checked : Bool

def init : State := ⟨Answers.empty, false⟩

def setAns (st : State) (k v : Str) : State := { st with ans := st.ans.assign k v }

def score (st : State) : Int :=
  rows.foldl (fun s r => s + (if st.ans r.k = some r.v then 1 else 0)) 0

def check (st : State) : State × (Int × Int) :=
  ({ st with checked := true }, (score st, rows.length))

end PBQ14

/-! ### PBQ 15: risk metrics and DR sites -/

namespace PBQ15

def rows : List Row :=
  [⟨"RPO".toList, "Max acceptable data loss time window".toList⟩,
   ⟨"RTO".toList, "Max acceptable downtime to restore service".toList⟩,
   ⟨"MTBF".toList, "Average time between failures".toList⟩,
   ⟨"MTTR".toList, "Average time to repair".toList⟩,
   ⟨"Hot site".toList, "Near-immediate failover, fully equipped".toList⟩,
   ⟨"Warm site".toList, "Some equipment; moderate spin-up time".toList⟩,
   ⟨"Cold site".toList, "Space only; long spin-up time".toList⟩]

structure State where
  ans : Answers
  checked : Bool

def init : State := ⟨Answers.empty, false⟩

def setAns (st : State) (k v : Str) : State := { st with ans := st.ans.assign k v }

def score (st : State) : Int :=
  rows.foldl (fun s r => s + (if st.ans r.k = some r.v then 1 else 0)) 0

def check (st : State) : State × (Int × Int) :=
  ({ st with checked := true }, (score st, rows.length))

end PBQ15

/-! ### PBQ 16: SIEM query builder -/

namespace PBQ16

structure State where
  query : Str
  result : Str

def init : State := ⟨[], []⟩

def correct : Str := "failed_logins > 5 AND source_ip = \"192.168.1.50\"".toList

def setQuery (st : State) (v : Str) : State := { st with query := v }

/-- The `onClick` handler of the Check button. -/
def check (st : State) : State × (Int × Int) :=
  if toLowerCase (trim st.query) = toLowerCase correct then
    ({ st with result := "✅ Correct".toList }, (1, 1))
  else
    ({ st with result := "❌ Try again".toList }, (0, 1))

end PBQ16

/-! ### PBQ 17: backup strategies -/

namespace PBQ17

structure State where
  choice : Str
  result : Str

def init : State := ⟨[], []⟩

def correct : Str := "Full + Incremental".toList

def setChoice (st : State) (v : Str) : State := { st with choice := v }

/-- The `onClick` handler of the Check button. -/
def check (st : State) : State × (Int × Int) :=
  if st.choice = correct then
    ({ st with result := "✅ Correct".toList }, (1, 1))
  else
    ({ st with result :=
        "❌ Not quite. Remember: daily speed → incrementals; fastest restore → differentials.".toList },
      (0, 1))

end PBQ17

/-! ### PBQ 18: TLS handshake order -/

namespace PBQ18

def correctOrder : Arr :=
  Arr.ofStrings ["ClientHello", "ServerHello", "Server Certificate", "Key Exchange", "Finished"]

structure State where
  order : Arr
  checked : Bool

/-- The initial state.  The initial order is `correctOrder` sorted with a
random comparator, so it is given from outside. -/
def init (shuffled : Arr) : State := ⟨shuffled, false⟩

def move (st : State) (i dir : Int) : State :=
  let j := i + dir
  if j < 0 ∨ j ≥ st.order.length then st
  else
    let next := st.order
    let rhs := (Arr.get next j, Arr.get next i)
    let next := Arr.set next i rhs.1
    let next := Arr.set next j rhs.2
    { st with order := next }

def isCorrect (st : State) : Bool :=
  decide (Arr.join st.order "|".toList = Arr.join correctOrder "|".toList)

def check (st : State) : State × (Int × Int) :=
  ({ st with checked := true }, (if isCorrect st then 1 else 0, 1))

end PBQ18

/-! ## Application shell -/

/-- The running total kept by `SecurityPlusPBQApp`. -/
structure Totals where
  score : Int
  max : Int
deriving DecidableEq

namespace Totals

/-- The initial value `{ score: 0, max: 0 }`. -/
def init : Totals := ⟨0, 0⟩

end Totals

/-- The spacing of the doubles at the magnitude `a`, with `fuel` halvings in
hand: 1 below 2^53, and twice the spacing at half the magnitude from there on. -/
def ulpAux : Nat → Nat → Nat
  | 0, _ => 1
  | fuel + 1, a => if a < 2 ^ 53 then 1 else 2 * ulpAux fuel (a / 2)

/-- The spacing of the doubles at the magnitude `a`: a double has a
significand of 53 bits, so the doubles from 2^e up to 2^(e+1), for e from 52
on, are the multiples of 2^(e-52). -/
def ulp (a : Nat) : Nat := ulpAux a a

/-- The double nearest to the natural number `a`, ties going to the even
significand. -/
def roundNat (a : Nat) : Nat :=
  if 2 * (a % ulp a) < ulp a then a / ulp a * ulp a
  else if ulp a < 2 * (a % ulp a) then (a / ulp a + 1) * ulp a
  else if (a / ulp a) % 2 = 0 then a / ulp a * ulp a
  else (a / ulp a + 1) * ulp a

/-- The double nearest to the integer `x`; rounding is symmetric about 0. -/
def roundDouble (x : Int) : Int :=
  if 0 ≤ x then (roundNat x.toNat : Int) else -(roundNat (-x).toNat : Int)

/-- The operator `+` on two Numbers that hold integers: the exact sum, rounded
to the nearest double.  A sum beyond the largest double, of magnitude about
2^1024, which JavaScript gives as `Infinity`, is outside this model; the
totals that widget checks lead to stay below 2^57. -/
def jsAdd (a b : Int) : Int := roundDouble (a + b)

/-- The callback `updateTotals`, which is what every widget receives as
`onScore`. -/
def updateTotals (t : Totals) (s m : Int) : Totals := ⟨jsAdd t.score s, jsAdd t.max m⟩

def resetTotals (_t : Totals) : Totals := ⟨0, 0⟩

/-- A press of one widget's Check button, with the state the widget is in. -/
inductive Check
  | pbq1 (st : PBQ1.State)
  | pbq2 (st : PBQ2.State)
  | pbq3 (st : PBQ3.State)
  | pbq4 (st : PBQ4.State)
  | pbq5 (st : PBQ5.State)
  | pbq6 (st : PBQ6.State)
  | pbq7 (st : PBQ7.State)
  | pbq8 (st : PBQ8.State)
  | pbq9 (st : PBQ9.State)
  | pbq10 (st : PBQ10.State)
  | pbq11 (st : PBQ11.State)
  | pbq12 (st : PBQ12.State)
  | pbq13 (st : PBQ13.State)
  | pbq14 (st : PBQ14.State)
  | pbq15 (st : PBQ15.State)
  | pbq16 (st : PBQ16.State)
  | pbq17 (st : PBQ17.State)
  | pbq18 (st : PBQ18.State)

/-- The pair the widget passes to `onScore`. -/
def Check.report : Check → Int × Int
  | .pbq1 st => (PBQ1.check st).2
  | .pbq2 st => (PBQ2.check st).2
  | .pbq3 st => (PBQ3.check st).2
  | .pbq4 st => (PBQ4.check st).2
  | .pbq5 st => (PBQ5.check st).2
  | .pbq6 st => (PBQ6.check st).2
  | .pbq7 st => (PBQ7.check st).2
  | .pbq8 st => (PBQ8.check st).2
  | .pbq9 st => (PBQ9.check st).2
  | .pbq10 st => (PBQ10.check st).2
  | .pbq11 st => (PBQ11.check st).2
  | .pbq12 st => (PBQ12.check st).2
  | .pbq13 st => (PBQ13.check st).2
  | .pbq14 st => (PBQ14.check st).2
  | .pbq15 st => (PBQ15.check st).2
  | .pbq16 st => (PBQ16.check st).2
  | .pbq17 st => (PBQ17.check st).2
  | .pbq18 st => (PBQ18.check st).2

/-- What can happen to the running total: a widget reports through `onScore`,
which is `updateTotals`, or the Reset Score button is pressed. -/
inductive AppEvent
  | check (c : Check)
  | reset

/-- One step of the running total. -/
def Totals.step (t : Totals) : AppEvent → Totals
  | .check c => updateTotals t c.report.1 c.report.2
  | .reset => resetTotals t

/-- The running total after a sequence of actions, starting from `Totals.init`. -/
def Totals.run (acts : List AppEvent) : Totals := acts.foldl Totals.step Totals.init

/-- A call made on the aggregator itself. -/
inductive Call
  | update (s m : Int)
  | reset

/-- The effect of one call on the running total. -/
def Call.apply (t : Totals) : Call → Totals
  | .update s m => updateTotals t s m
  | .reset => resetTotals t

/-- The running total after a sequence of calls, starting from `t`. -/
def runCalls (t : Totals) (calls : List Call) : Totals := calls.foldl Call.apply t

/-- The widget as it is after the press of its Check button. -/
def Check.after : Check → Check
  | .pbq1 st => .pbq1 (PBQ1.check st).1
  | .pbq2 st => .pbq2 (PBQ2.check st).1
  | .pbq3 st => .pbq3 (PBQ3.check st).1
  | .pbq4 st => .pbq4 (PBQ4.check st).1
  | .pbq5 st => .pbq5 (PBQ5.check st).1
  | .pbq6 st => .pbq6 (PBQ6.check st).1
  | .pbq7 st => .pbq7 (PBQ7.check st).1
  | .pbq8 st => .pbq8 (PBQ8.check st).1
  | .pbq9 st => .pbq9 (PBQ9.check st).1
  | .pbq10 st => .pbq10 (PBQ10.check st).1
  | .pbq11 st => .pbq11 (PBQ11.check st).1
  | .pbq12 st => .pbq12 (PBQ12.check st).1
  | .pbq13 st => .pbq13 (PBQ13.check st).1
  | .pbq14 st => .pbq14 (PBQ14.check st).1
  | .pbq15 st => .pbq15 (PBQ15.check st).1
  | .pbq16 st => .pbq16 (PBQ16.check st).1
  | .pbq17 st => .pbq17 (PBQ17.check st).1
  | .pbq18 st => .pbq18 (PBQ18.check st).1

/-- The events of pressing the Check button of one widget `n` times in a row,
starting in the state carried by `c`. -/
def Check.repeated (c : Check) (n : Nat) : List AppEvent :=
  (List.iterate Check.after c n).map AppEvent.check

/-- The sum of the maxima of the 18 widgets. -/
def nominalMax : Int := 5 + 2 + 2 + 1 + 3 + 1 + 2 + 4 + 2 + 1 + 2 + 4 + 4 + 4 + 7 + 1 + 1 + 1

/-! ## Flashcard browser -/

namespace FLASH_Acronyms

structure Card where
  t : Str
  d : Str
deriving DecidableEq

/-- The card `{t: ..., d: ...}`. -/
def card (t d : String) : Card := ⟨t.toList, d.toList⟩

def DATA : List Card :=
  [
   card "AAA" "Authentication, Authorization, Accounting",
   card "ABAC" "Attribute-Based Access Control",
   card "RBAC" "Role-Based Access Control",
   card "DAC" "Discretionary Access Control",
   card "MAC" "Mandatory Access Control (labels/classifications)",
   card "SSO" "Single Sign-On",
   card "IdP" "Identity Provider",
   card "FIM" "File Integrity Monitoring",
   card "MFA" "Multi-Factor Authentication",
   card "PAM" "Privileged Access Management",
   card "PoLP" "Principle of Least Privilege",
   card "ACL" "Access Control List (network/FS permissions)",
   card "NAC" "Network Access Control",
   card "VPN" "Virtual Private Network",
   card "IPsec" "Internet Protocol Security",
   card "AH" "Authentication Header (integrity/auth; no encryption)",
   card "ESP" "Encapsulating Security Payload (encryption + integrity)",
   card "IKE" "Internet Key Exchange (IPsec SA negotiation)",
   card "RADIUS" "Remote Authentication Dial-In User Service (UDP 1812/1813)",
   card "TACACS+" "Terminal Access Controller Access-Control System Plus (TCP 49)",
   card "802.1X" "Port-based NAC (supplicant/authenticator/RADIUS)",
   card "SSID" "Service Set Identifier (Wi-Fi network name)",
   card "PSK" "Pre-Shared Key (WPA2-Personal)",
   card "SAE" "Simultaneous Authentication of Equals (WPA3-Personal)",
   card "PEAP" "Protected EAP (EAP inside TLS tunnel)",
   card "EAP-TTLS" "EAP Tunneled TLS (server cert; inner auth protected)",
   card "EAP-TLS" "EAP with mutual certificate authentication",
   card "WPA2" "AES-CCMP",
   card "WPA3" "SAE; AES-GCMP",
   card "WPAD" "Web Proxy Auto-Discovery (PAC)",
   card "PAC" "Proxy Auto-Config (proxy rules script)",
   card "AES" "Advanced Encryption Standard (symmetric)",
   card "CCMP" "Counter Mode with CBC-MAC (WPA2)",
   card "GCMP" "Galois/Counter Mode Protocol (WPA3)",
   card "RSA" "Rivest–Shamir–Adleman (asymmetric)",
   card "ECC" "Elliptic Curve Cryptography",
   card "DH" "Diffie–Hellman (key exchange)",
   card "PFS" "Perfect Forward Secrecy",
   card "HMAC" "Hash-Based Message Authentication Code",
   card "PBKDF2/bcrypt/scrypt/Argon2" "Password hashing/key stretching",
   card "PKI" "Public Key Infrastructure",
   card "CA" "Certificate Authority",
   card "CRL" "Certificate Revocation List",
   card "OCSP" "Online Certificate Status Protocol",
   card "CSR" "Certificate Signing Request",
   card "X.509" "Certificate standard",
   card "S/MIME" "Secure/Multipurpose Internet Mail Extensions",
   card "TLS" "Transport Layer Security",
   card "GDPR" "EU data protection law",
   card "HIPAA" "US health data law",
   card "PCI DSS" "Payment card security standard",
   card "PII" "Personally Identifiable Information",
   card "PHI" "Protected Health Information",
   card "BIA" "Business Impact Analysis",
   card "BCP" "Business Continuity Plan",
   card "COOP" "Continuity of Operations Plan",
   card "IR" "Incident Response",
   card "RPO" "Recovery Point Objective",
   card "RTO" "Recovery Time Objective",
   card "MTBF" "Mean Time Between Failures",
   card "MTTR" "Mean Time To Repair",
   card "SLA" "Service Level Agreement",
   card "SIEM" "Security Information & Event Management",
   card "SOAR" "Security Orchestration, Automation, and Response",
   card "EDR" "Endpoint Detection & Response",
   card "XDR" "Extended Detection & Response",
   card "UEBA" "User and Entity Behavior Analytics",
   card "IoC" "Indicator of Compromise",
   card "TTP" "Tactics, Techniques, and Procedures",
   card "STIX" "Structured Threat Information Expression",
   card "TAXII" "Trusted Automated eXchange of Indicator Information",
   card "AIS" "Automated Indicator Sharing (CISA)",
   card "CVE" "Common Vulnerabilities and Exposures (MITRE)",
   card "NVD" "National Vulnerability Database (NIST)",
   card "DLP" "Data Loss Prevention",
   card "FDE" "Full Disk Encryption",
   card "SED" "Self-Encrypting Drive",
   card "EFS" "Encrypting File System (Windows)",
   card "RAID" "0/1/5/6/10",
   card "IaaS" "Infrastructure as a Service",
   card "PaaS" "Platform as a Service",
   card "SaaS" "Software as a Service",
   card "SASE" "Secure Access Service Edge",
   card "CASB" "Cloud Access Security Broker",
   card "ZTNA" "Zero Trust Network Access",
   card "UTM" "Unified Threat Management",
   card "WAF" "Web Application Firewall",
   card "DMZ" "Demilitarized Zone"]

/-- Arrays of cards; `none` is `undefined`. -/
abbrev Cards := List (Option Card)

/-- `a[i]` on an array of cards. -/
def Cards.get (a : Cards) (i : Int) : Option Card :=
  if 0 ≤ i then (a.get? i.toNat).join else none

/-- `a[i] = v` on an array of cards, with the index rules of `Arr.set`. -/
def Cards.set (a : Cards) (i : Int) (v : Option Card) : Cards :=
  if i < 0 then a
  else if i.toNat < a.length then List.set a i.toNat v
  else a ++ List.replicate (i.toNat - a.length) none ++ [v]

/-- The callback of `useMemo`: the cards whose term, a space and definition,
in lower case, include the query in lower case. -/
def computeFiltered (q : Str) : List Card :=
  DATA.filter (fun x => includes (toLowerCase (x.t ++ " ".toList ++ x.d)) (toLowerCase q))

/-- The state of the browser.  `filtered` is the array memoised for `q`; it is
part of the state because `shuffle` reorders it in place.  `showDef` is the
state variable `show`. -/
structure State where
  q : Str
  i : Int
  showDef : Bool
  shuffled : Bool
  filtered : Cards

def init : State := ⟨[], 0, false, false, (computeFiltered []).map some⟩

/-- The card shown when nothing matches. -/
def noMatches : Card := ⟨"No matches".toList, "Try clearing the search.".toList⟩

def list (st : State) : Cards :=
  if st.filtered.length ≠ 0 then st.filtered else [some noMatches]

def cur (st : State) : Option Card :=
  Cards.get (list st) (jsRem st.i (list st).length)

/-- The `onChange` handler of the search box.  The memoised array is computed
anew when the query differs from the one it was computed for. -/
def setQ (st : State) (v : Str) : State :=
  { st with
    q := v, i := 0, showDef := false,
    filtered := if v = st.q then st.filtered else (computeFiltered v).map some }

/-- The Prev button. -/
def prev (st : State) : State :=
  { st with i := jsRem (st.i - 1 + (list st).length) (list st).length, showDef := false }

/-- The Next button. -/
def next (st : State) : State :=
  { st with i := jsRem (st.i + 1) (list st).length, showDef := false }

/-- The Show / Hide definition button. -/
def toggleShow (st : State) : State := { st with showDef := !st.showDef }

/-- The loop of `shuffle` from the value `j` of its variable on; `draw j` is
the value of `Math.floor(Math.random() * (j + 1))` in the step for `j`. -/
def shuffleLoop (draw : Nat → Int) : Nat → Cards → Cards
  | 0, list => list
  | j + 1, list =>
      let k := draw (j + 1)
      let rhs := (Cards.get list k, Cards.get list ((j + 1 : Nat) : Int))
      shuffleLoop draw j (Cards.set (Cards.set list ((j + 1 : Nat) : Int) rhs.1) k rhs.2)

/-- The Shuffle button.  The loop reorders `list` in place; that array is the
memoised one unless nothing matches, when it is a one-card array made for the
current render. -/
def shuffle (st : State) (draw : Nat → Int) : State :=
  let shuffledList := shuffleLoop draw ((list st).length - 1) (list st)
  { st with
    filtered := if st.filtered.length ≠ 0 then shuffledList else st.filtered,
    i := 0, showDef := false, shuffled := true }

end FLASH_Acronyms

/-! ## Operations on a widget

For each widget with a `checked` flag, `Op` lists what the user can do to it:
every field edit or move, and the check; `Op.apply` is the handler called. -/

namespace PBQ1

inductive Op
  | setChoice (id : Nat) (v : Str)
  | check

def Op.apply (st : State) : Op → State
  | .setChoice id v => PBQ1.setChoice st id v
  | .check => (PBQ1.check st).1

end PBQ1

namespace PBQ2

inductive Op
  | setRule1 (r : Rule)
  | setRule2 (r : Rule)
  | check

def Op.apply (st : State) : Op → State
  | .setRule1 r => PBQ2.setRule1 st r
  | .setRule2 r => PBQ2.setRule2 st r
  | .check => (PBQ2.check st).1

end PBQ2

namespace PBQ3

inductive Op
  | setDevice (v : Str)
  | setRule (v : Str)
  | check

def Op.apply (st : State) : Op → State
  | .setDevice v => PBQ3.setDevice st v
  | .setRule v => PBQ3.setRule st v
  | .check => (PBQ3.check st).1

end PBQ3

namespace PBQ4

inductive Op
  | move (idx dir : Int)
  | check

def Op.apply (st : State) : Op → State
  | .move idx dir => PBQ4.move st idx dir
  | .check => (PBQ4.check st).1

end PBQ4

namespace PBQ5

inductive Op
  | setA1 (v : Str)
  | setA2 (v : Str)
  | setA3 (v : Str)
  | check

def Op.apply (st : State) : Op → State
  | .setA1 v => PBQ5.setA1 st v
  | .setA2 v => PBQ5.setA2 st v
  | .setA3 v => PBQ5.setA3 st v
  | .check => (PBQ5.check st).1

end PBQ5

namespace PBQ6

inductive Op
  | move (i dir : Int)
  | check

def Op.apply (st : State) : Op → State
  | .move i dir => PBQ6.move st i dir
  | .check => (PBQ6.check st).1

end PBQ6

namespace PBQ7

inductive Op
  | setAuth (v : Str)
  | setEnc (v : Str)
  | check

def Op.apply (st : State) : Op → State
  | .setAuth v => PBQ7.setAuth st v
  | .setEnc v => PBQ7.setEnc st v
  | .check => (PBQ7.check st).1

end PBQ7

namespace PBQ8

inductive Op
  | setAns (k v : Str)
  | check

def Op.apply (st : State) : Op → State
  | .setAns k v => PBQ8.setAns st k v
  | .check => (PBQ8.check st).1

end PBQ8

namespace PBQ9

inductive Op
  | setCidr (v : Str)
  | setHosts (v : Str)
  | setBcast (v : Str)
  | check

def Op.apply (st : State) : Op → State
  | .setCidr v => PBQ9.setCidr st v
  | .setHosts v => PBQ9.setHosts st v
  | .setBcast v => PBQ9.setBcast st v
  | .check => (PBQ9.check st).1

end PBQ9

namespace PBQ10

inductive Op
  | setExtPort (v : Str)
  | setIntIP (v : Str)
  | setProto (v : Str)
  | check

def Op.apply (st : State) : Op → State
  | .setExtPort v => PBQ10.setExtPort st v
  | .setIntIP v => PBQ10.setIntIP st v
  | .setProto v => PBQ10.setProto st v
  | .check => (PBQ10.check st).1

end PBQ10

namespace PBQ11

inductive Op
  | setPortMode (v : Str)
  | setVlan (v : Str)
  | check

def Op.apply (st : State) : Op → State
  | .setPortMode v => PBQ11.setPortMode st v
  | .setVlan v => PBQ11.setVlan st v
  | .check => (PBQ11.check st).1

end PBQ11

namespace PBQ12

inductive Op
  | setAns (k v : Str)
  | check

def Op.apply (st : State) : Op → State
  | .setAns k v => PBQ12.setAns st k v
  | .check => (PBQ12.check st).1

end PBQ12

namespace PBQ13

inductive Op
  | setAns (k v : Str)
  | check

def Op.apply (st : State) : Op → State
  | .setAns k v => PBQ13.setAns st k v
  | .check => (PBQ13.check st).1

end PBQ13

namespace PBQ14

inductive Op
  | setAns (k v : Str)
  | check

def Op.apply (st : State) : Op → State
  | .setAns k v => PBQ14.setAns st k v
  | .check => (PBQ14.check st).1

end PBQ14

namespace PBQ15

inductive Op
  | setAns (k v : Str)
  | check

def Op.apply (st : State) : Op → State
  | .setAns k v => PBQ15.setAns st k v
  | .check => (PBQ15.check st).1

end PBQ15

namespace PBQ18

inductive Op
  | move (i dir : Int)
  | check

def Op.apply (st : State) : Op → State
  | .move i dir => PBQ18.move st i dir
  | .check => (PBQ18.check st).1

end PBQ18

/-! ## Auxiliary forms used in the proofs -/

/-- The text an array element contributes to `join`. -/
def Arr.text (x : Option Str) : Str := x.getD []

/-- The array that the three `move` handlers store: the input when the
neighbour index is outside it, the destructuring swap otherwise. -/
def moveArr (xs : Arr) (i dir : Int) : Arr :=
  if i + dir < 0 ∨ i + dir ≥ xs.length then xs
  else Arr.set (Arr.set xs i (Arr.get xs (i + dir))) (i + dir) (Arr.get xs i)

/-- A pattern is closed under change of letter case when, with a string, it
matches every string equal to it ignoring case. -/
def RegExp.CaseClosed (r : RegularExpression Char) : Prop :=
  ∀ s t : Str, List.Forall₂ (fun c d => c.toLower = d.toLower) s t →
    s ∈ r.matches' → t ∈ r.matches'

/-! ## Vocabulary of the specification -/

/-- Equality of strings ignoring case, read off the claims: the strings have
the same length and at every position the two characters are the same up to
the case of a letter. -/
def EqIgnoringCase (a b : Str) : Prop :=
  List.Forall₂ (fun c d => c.toLower = d.toLower) a b

/-- Rule 1 of the firewall widget as the claim words it. -/
def PBQ2.Rule1Spec (r : PBQ2.Rule) : Prop :=
  EqIgnoringCase r.action "ALLOW".toList ∧ EqIgnoringCase r.proto "TCP".toList ∧
  r.port = "443".toList ∧
  (∃ t ∈ ["ANY", "*", "INTERNET"], EqIgnoringCase (trim r.src) t.toList) ∧
  trim r.dst = "10.10.5.25".toList

/-- Rule 2 of the firewall widget as the claim words it. -/
def PBQ2.Rule2Spec (r : PBQ2.Rule) : Prop :=
  EqIgnoringCase r.action "DENY".toList ∧
  (r.proto = [] ∨ EqIgnoringCase r.proto "TCP".toList ∨ EqIgnoringCase r.proto "UDP".toList) ∧
  trim r.port = [] ∧
  (∃ t ∈ ["ANY", "*", "INTERNET", "0.0.0.0/0"], EqIgnoringCase (trim r.src) t.toList) ∧
  (∃ t ∈ ["ANY", "*", "10.10.5.25", "0.0.0.0/0"], EqIgnoringCase (trim r.dst) t.toList)

/-- Containment of a string ignoring case, read off the claims: some
substring of `s` equals `q` ignoring case. -/
def ContainsIgnoringCase (s q : Str) : Prop :=
  ∃ m, m <:+: s ∧ EqIgnoringCase q m

/-- Equality ignoring case in which, besides, a dotless ı (U+0131) of the
first string stands for the letter i. -/
def EqIgnoringCaseDotless (a b : Str) : Prop :=
  List.Forall₂
    (fun c d => c.toLower = d.toLower ∨ (c = Char.ofNat 0x0131 ∧ d.toLower = 'i')) a b

/-- Rule 1 of the firewall widget as the claim words it, the source compared
with the dotless ı accepted for an I. -/
def PBQ2.Rule1SpecDotless (r : PBQ2.Rule) : Prop :=
  EqIgnoringCase r.action "ALLOW".toList ∧ EqIgnoringCase r.proto "TCP".toList ∧
  r.port = "443".toList ∧
  (∃ t ∈ ["ANY", "*", "INTERNET"], EqIgnoringCaseDotless (trim r.src) t.toList) ∧
  trim r.dst = "10.10.5.25".toList

/-- Rule 2 of the firewall widget as the claim words it, the source compared
with the dotless ı accepted for an I. -/
def PBQ2.Rule2SpecDotless (r : PBQ2.Rule) : Prop :=
  EqIgnoringCase r.action "DENY".toList ∧
  (r.proto = [] ∨ EqIgnoringCase r.proto "TCP".toList ∨ EqIgnoringCase r.proto "UDP".toList) ∧
  trim r.port = [] ∧
  (∃ t ∈ ["ANY", "*", "INTERNET", "0.0.0.0/0"],
    EqIgnoringCaseDotless (trim r.src) t.toList) ∧
  (∃ t ∈ ["ANY", "*", "10.10.5.25", "0.0.0.0/0"], EqIgnoringCase (trim r.dst) t.toList)

/-- Equality ignoring case in which, besides, a Kelvin sign (U+212A) of the
first string stands for the letter k. -/
def EqIgnoringCaseKelvin (a b : Str) : Prop :=
  List.Forall₂
    (fun c d => c.toLower = d.toLower ∨ (c = Char.ofNat 0x212A ∧ d.toLower = 'k')) a b

/-- Containment of a string ignoring case, a Kelvin sign of `q` standing for
k: some substring of `s` equals `q` in that sense. -/
def ContainsIgnoringCaseKelvin (s q : Str) : Prop :=
  ∃ m, m <:+: s ∧ EqIgnoringCaseKelvin q m

/-- The integers of magnitude up to 2^53, the range in which the sum of two
integers held in Numbers is exact. -/
def InExactRange (x : Int) : Prop := -2 ^ 53 ≤ x ∧ x ≤ 2 ^ 53

/-- Every running sum of the list, from its first element on, is in the exact
range. -/
def SumsInExactRange (l : List Int) : Prop :=
  ∀ k ≤ l.length, InExactRange (l.take k).sum

/-- The test on the protocol field of the NAT widget, as used for its border. -/
def PBQ10.okProto (proto : Str) : Bool := decide (toUpperCase proto = "TCP".toList)

/-- The test on the external port field of the NAT widget, as used for its
border. -/
def PBQ10.okExtPort (extPort : Str) : Bool := decide (extPort = "8443".toList)

/-- The test on the internal host:port field of the NAT widget, as used for
its border. -/
def PBQ10.okIntIP (intIP : Str) : Bool :=
  RegExp.test (RegExp.lit "10.0.20.50:443".toList) intIP

/-- The number of fields of the NAT widget that are individually correct. -/
def PBQ10.correctFields (st : PBQ10.State) : Int :=
  (if PBQ10.okProto st.proto then 1 else 0) + (if PBQ10.okExtPort st.extPort then 1 else 0) +
    (if PBQ10.okIntIP st.intIP then 1 else 0)

/-- A press of an arrow button of PBQ4 on a list of `n` rows: `move i (-1)` or
`move i 1` for the index `i` of a row. -/
def PBQ4.IsArrow (n : Nat) (o : PBQ4.Op) : Prop :=
  ∃ i : Int, 0 ≤ i ∧ i < n ∧ (o = PBQ4.Op.move i (-1) ∨ o = PBQ4.Op.move i 1)

/-- A press of an arrow button of PBQ6 on a list of `n` rows. -/
def PBQ6.IsArrow (n : Nat) (o : PBQ6.Op) : Prop :=
  ∃ i : Int, 0 ≤ i ∧ i < n ∧ (o = PBQ6.Op.move i (-1) ∨ o = PBQ6.Op.move i 1)

/-- A press of an arrow button of PBQ18 on a list of `n` rows. -/
def PBQ18.IsArrow (n : Nat) (o : PBQ18.Op) : Prop :=
  ∃ i : Int, 0 ≤ i ∧ i < n ∧ (o = PBQ18.Op.move i (-1) ∨ o = PBQ18.Op.move i 1)

/-- The array after pressing the down arrow of the rows `idxs`, one after the
other. -/
def pressDown (xs : Arr) (idxs : List Nat) : Arr :=
  idxs.foldl (fun (a : Arr) (i : Nat) => moveArr a (i : Int) 1) xs

/-- The `options` passed to the Protocol drop-down of Rule 2; the drop-down
also has the empty option. -/
def PBQ2.rule2ProtoOptions : List Str := ["TCP".toList, "UDP".toList, "(any)".toList]

/-! ## Facts about strings and arrays -/

/-- The code of a character built from a number below the surrogate range. -/
theorem char_toNat_ofNat (n : Nat) (h : n < 0xd800) : (Char.ofNat n).toNat = n := by
  have hv : n.isValidChar := Or.inl h
  simp only [Char.ofNat, hv, dif_pos, Char.ofNatAux, Char.toNat]
  rfl

theorem char_toNat_toUpper (c : Char) :
    c.toUpper.toNat = if 97 ≤ c.toNat ∧ c.toNat ≤ 122 then c.toNat - 32 else c.toNat := by
  unfold Char.toUpper
  by_cases h : c.toNat ≥ 97 ∧ c.toNat ≤ 122
  · simp only [h, and_self, if_true]
    exact char_toNat_ofNat _ (by omega)
  · simp only [h, if_false]

theorem char_toNat_toLower (c : Char) :
    c.toLower.toNat = if 65 ≤ c.toNat ∧ c.toNat ≤ 90 then c.toNat + 32 else c.toNat := by
  unfold Char.toLower
  by_cases h : c.toNat ≥ 65 ∧ c.toNat ≤ 90
  · simp only [h, and_self, if_true]
    exact char_toNat_ofNat _ (by omega)
  · simp only [h, if_false]

theorem char_eq_of_toNat_eq {c d : Char} (h : c.toNat = d.toNat) : c = d := by
  have := congrArg Char.ofNat h
  simpa using this

/-- Two characters have the same upper-case form exactly when they have the
same lower-case form. -/
theorem char_toUpper_eq_iff (c d : Char) :
    c.toUpper = d.toUpper ↔ c.toLower = d.toLower := by
  constructor
  · intro h
    apply char_eq_of_toNat_eq
    have h2 := congrArg Char.toNat h
    rw [char_toNat_toUpper, char_toNat_toUpper] at h2
    rw [char_toNat_toLower, char_toNat_toLower]
    split_ifs at h2 ⊢ <;> omega
  · intro h
    apply char_eq_of_toNat_eq
    have h2 := congrArg Char.toNat h
    rw [char_toNat_toLower, char_toNat_toLower] at h2
    rw [char_toNat_toUpper, char_toNat_toUpper]
    split_ifs at h2 ⊢ <;> omega

/-- An entry found by `lookup` is in the table. -/
theorem lookup_mem {β : Type} : ∀ (l : List (Char × β)) (c : Char) (v : β),
    l.lookup c = some v → (c, v) ∈ l
  | [], _, _, h => by simp at h
  | (k, w) :: l, c, v, h => by
      rw [List.lookup_cons] at h
      by_cases e : c = k
      · subst e
        simp only [beq_self_eq_true, Option.some.injEq] at h
        subst h
        exact List.mem_cons_self _ _
      · have e2 : (c == k) = false := by simpa using e
        rw [e2] at h
        exact List.mem_cons_of_mem _ (lookup_mem l c v h)

/-- A key outside the table is not found. -/
theorem lookup_none {β : Type} (l : List (Char × β)) (c : Char) (h : ∀ p ∈ l, p.1 ≠ c) :
    l.lookup c = none := by
  cases e : l.lookup c with
  | none => rfl
  | some v => exact absurd rfl (h _ (lookup_mem l c v e))

/-- Characters with the same lower-case form and different from each other
are ASCII letters. -/
theorem char_ascii_of_toLower_eq {c d : Char} (h : c.toLower = d.toLower) (hd : d.toNat < 128) :
    c.toNat < 128 := by
  have h2 := congrArg Char.toNat h
  rw [char_toNat_toLower, char_toNat_toLower] at h2
  split_ifs at h2 <;> omega

/-- The upper-case form of an ASCII character is its own upper case. -/
theorem jsUpperChar_ascii (c : Char) (h : c.toNat < 128) : jsUpperChar c = [c.toUpper] := by
  have hall : ∀ p ∈ upperSpecial, 128 ≤ p.1.toNat := by decide
  have hn : upperSpecial.lookup c = none :=
    lookup_none _ _ (fun p hp e => by have := hall p hp; rw [e] at this; omega)
  simp only [jsUpperChar, hn]

/-- The lower-case form of an ASCII character is its own lower case. -/
theorem jsLowerChar_ascii (c : Char) (h : c.toNat < 128) : jsLowerChar c = [c.toLower] := by
  have hall : ∀ p ∈ lowerSpecial, 128 ≤ p.1.toNat := by decide
  have hn : lowerSpecial.lookup c = none :=
    lookup_none _ _ (fun p hp e => by have := hall p hp; rw [e] at this; omega)
  simp only [jsLowerChar, hn]

/-- The upper-case form of a character: the character's own upper case, the
letter I for the dotless ı, or a text with a non-ASCII character, an S or an F
in it. -/
theorem jsUpperChar_cases (c : Char) :
    jsUpperChar c = [c.toUpper] ∨ (c = Char.ofNat 0x0131 ∧ jsUpperChar c = ['I']) ∨
    ∃ e ∈ jsUpperChar c, 128 ≤ e.toNat ∨ e = 'S' ∨ e = 'F' := by
  have hall : ∀ p ∈ upperSpecial, p = (Char.ofNat 0x0131, ['I']) ∨
      ∃ e ∈ p.2, 128 ≤ e.toNat ∨ e = 'S' ∨ e = 'F' := by decide
  cases e : upperSpecial.lookup c with
  | none => left; simp only [jsUpperChar, e]
  | some v =>
    right
    have hv : jsUpperChar c = v := by simp only [jsUpperChar, e]
    rcases hall _ (lookup_mem _ _ _ e) with h | h
    · simp only [Prod.mk.injEq] at h
      exact Or.inl ⟨h.1, by rw [hv, h.2]⟩
    · exact Or.inr (by rw [hv]; exact h)

/-- The lower-case form of a character: the character's own lower case, the
letter k for the Kelvin sign, or i with a combining dot for the dotted İ. -/
theorem jsLowerChar_cases (c : Char) :
    jsLowerChar c = [c.toLower] ∨ (c = Char.ofNat 0x212A ∧ jsLowerChar c = ['k']) ∨
    (c = Char.ofNat 0x0130 ∧ jsLowerChar c = ['i', Char.ofNat 0x0307]) := by
  have hall : ∀ p ∈ lowerSpecial, p = (Char.ofNat 0x212A, ['k']) ∨
      p = (Char.ofNat 0x0130, ['i', Char.ofNat 0x0307]) := by decide
  cases e : lowerSpecial.lookup c with
  | none => left; simp only [jsLowerChar, e]
  | some v =>
    right
    have hv : jsLowerChar c = v := by simp only [jsLowerChar, e]
    rcases hall _ (lookup_mem _ _ _ e) with h | h
    · simp only [Prod.mk.injEq] at h
      exact Or.inl ⟨h.1, by rw [hv, h.2]⟩
    · simp only [Prod.mk.injEq] at h
      exact Or.inr ⟨h.1, by rw [hv, h.2]⟩

/-- The upper-case form of a text, character by character. -/
theorem toUpperCase_cons (c : Char) (s : Str) :
    toUpperCase (c :: s) = jsUpperChar c ++ toUpperCase s := by
  simp [toUpperCase, List.flatMap_cons]

/-- The lower-case form of a text, character by character. -/
theorem toLowerCase_cons (c : Char) (s : Str) :
    toLowerCase (c :: s) = jsLowerChar c ++ toLowerCase s := by
  simp [toLowerCase, List.flatMap_cons]

/-- Characters equal up to the case of a letter have the same upper-case form. -/
theorem jsUpperChar_congr {c d : Char} (h : c.toLower = d.toLower) :
    jsUpperChar c = jsUpperChar d := by
  by_cases e : c = d
  · rw [e]
  · have hc : c.toNat < 128 ∧ d.toNat < 128 := by
      have h2 := congrArg Char.toNat h
      rw [char_toNat_toLower, char_toNat_toLower] at h2
      have ne : c.toNat ≠ d.toNat := fun x => e (char_eq_of_toNat_eq x)
      split_ifs at h2 <;> omega
    rw [jsUpperChar_ascii c hc.1, jsUpperChar_ascii d hc.2, (char_toUpper_eq_iff c d).mpr h]

/-- Characters equal up to the case of a letter have the same lower-case form. -/
theorem jsLowerChar_congr {c d : Char} (h : c.toLower = d.toLower) :
    jsLowerChar c = jsLowerChar d := by
  by_cases e : c = d
  · rw [e]
  · have hc : c.toNat < 128 ∧ d.toNat < 128 := by
      have h2 := congrArg Char.toNat h
      rw [char_toNat_toLower, char_toNat_toLower] at h2
      have ne : c.toNat ≠ d.toNat := fun x => e (char_eq_of_toNat_eq x)
      split_ifs at h2 <;> omega
    rw [jsLowerChar_ascii c hc.1, jsLowerChar_ascii d hc.2, h]

/-- Strings equal ignoring case have the same upper-case form. -/
theorem toUpperCase_congr {a b : Str} (h : EqIgnoringCase a b) :
    toUpperCase a = toUpperCase b := by
  induction h with
  | nil => rfl
  | cons hcd _ ih => rw [toUpperCase_cons, toUpperCase_cons, jsUpperChar_congr hcd, ih]

/-- Strings equal ignoring case have the same lower-case form. -/
theorem toLowerCase_congr {a b : Str} (h : EqIgnoringCase a b) :
    toLowerCase a = toLowerCase b := by
  induction h with
  | nil => rfl
  | cons hcd _ ih => rw [toLowerCase_cons, toLowerCase_cons, jsLowerChar_congr hcd, ih]

/-- Comparing ASCII lower-case forms is comparing ignoring case. -/
theorem map_toLower_eq_iff : ∀ (a b : Str),
    a.map Char.toLower = b.map Char.toLower ↔ EqIgnoringCase a b
  | [], [] => by simp [EqIgnoringCase]
  | [], _ :: _ => by simp [EqIgnoringCase]
  | _ :: _, [] => by simp [EqIgnoringCase]
  | c :: a, d :: b => by
      have ih := map_toLower_eq_iff a b
      simp only [EqIgnoringCase, List.map_cons, List.cons.injEq,
        List.forall₂_cons] at ih ⊢
      rw [ih]

/-- Comparing the upper-case form with a constant made of upper-case ASCII
characters other than S and F: the strings are equal ignoring case, where a
dotless ı also stands for I. -/
theorem toUpperCase_eq_const_dotless : ∀ (a k : Str),
    (∀ d ∈ k, d.toNat < 128 ∧ d.toUpper = d ∧ d ≠ 'S' ∧ d ≠ 'F') →
    (toUpperCase a = k ↔ EqIgnoringCaseDotless a k)
  | [], [], _ => by simp [toUpperCase, EqIgnoringCaseDotless]
  | [], _ :: _, _ => by simp [toUpperCase, EqIgnoringCaseDotless]
  | c :: a, k, hk => by
      rw [toUpperCase_cons]
      constructor
      · intro h
        rcases jsUpperChar_cases c with hc | ⟨hc1, hc⟩ | ⟨e, he, hbad⟩
        · rw [hc] at h
          cases k with
          | nil => simp at h
          | cons d k =>
            simp only [List.singleton_append, List.cons.injEq] at h
            have hd := hk d (List.mem_cons_self _ _)
            have ih := (toUpperCase_eq_const_dotless a k
              (fun x hx => hk x (List.mem_cons_of_mem _ hx))).mp h.2
            refine List.Forall₂.cons (Or.inl ?_) ih
            rw [← char_toUpper_eq_iff, h.1, hd.2.1]
        · rw [hc] at h
          cases k with
          | nil => simp at h
          | cons d k =>
            simp only [List.singleton_append, List.cons.injEq] at h
            have ih := (toUpperCase_eq_const_dotless a k
              (fun x hx => hk x (List.mem_cons_of_mem _ hx))).mp h.2
            refine List.Forall₂.cons (Or.inr ⟨hc1, ?_⟩) ih
            rw [← h.1]; decide
        · have hmem : e ∈ k := by rw [← h]; exact List.mem_append_left _ he
          have hd := hk e hmem
          rcases hbad with hb | hb | hb
          · omega
          · exact absurd hb hd.2.2.1
          · exact absurd hb hd.2.2.2
      · intro h
        cases h with
        | cons hcd hrest =>
          rename_i d k
          have hd := hk d (List.mem_cons_self _ _)
          have ih := (toUpperCase_eq_const_dotless a k
            (fun x hx => hk x (List.mem_cons_of_mem _ hx))).mpr hrest
          rw [ih]
          rcases hcd with hcd | ⟨hc1, hd2⟩
          · have hc : c.toNat < 128 := char_ascii_of_toLower_eq hcd hd.1
            rw [jsUpperChar_ascii c hc, (char_toUpper_eq_iff c d).mpr hcd, hd.2.1]
            rfl
          · have hdI : d = 'I' := by
              have e1 : d.toUpper = ('i' : Char).toUpper :=
                (char_toUpper_eq_iff d 'i').mpr (by rw [hd2]; decide)
              rw [hd.2.1] at e1
              rw [e1]; decide
            rw [hc1, hdI]
            have e2 : jsUpperChar (Char.ofNat 0x0131) = ['I'] := by decide
            rw [e2]
            rfl

/-- Comparing the upper-case form with a constant made of upper-case ASCII
characters other than S, F and I is comparing ignoring case. -/
theorem toUpperCase_eq_const (a k : Str)
    (hk : ∀ d ∈ k, d.toNat < 128 ∧ d.toUpper = d ∧ d ≠ 'S' ∧ d ≠ 'F' ∧ d ≠ 'I') :
    toUpperCase a = k ↔ EqIgnoringCase a k := by
  rw [toUpperCase_eq_const_dotless a k (fun d hd => ⟨(hk d hd).1, (hk d hd).2.1,
    (hk d hd).2.2.1, (hk d hd).2.2.2.1⟩)]
  have gen : ∀ (a k : Str), (∀ d ∈ k, d.toUpper = d ∧ d ≠ 'I') →
      (EqIgnoringCaseDotless a k ↔ EqIgnoringCase a k) := by
    intro a
    induction a with
    | nil => intro k _; cases k <;> simp [EqIgnoringCaseDotless, EqIgnoringCase]
    | cons c a ih =>
      intro k hk
      cases k with
      | nil => simp [EqIgnoringCaseDotless, EqIgnoringCase]
      | cons d k =>
        have ih2 := ih k (fun x hx => hk x (List.mem_cons_of_mem _ hx))
        have hd := hk d (List.mem_cons_self _ _)
        simp only [EqIgnoringCaseDotless, EqIgnoringCase, List.forall₂_cons] at ih2 ⊢
        rw [ih2]
        have hno : ¬ d.toLower = 'i' := by
          intro h
          have e1 : d.toUpper = ('i' : Char).toUpper :=
            (char_toUpper_eq_iff d 'i').mpr (by rw [h]; decide)
          rw [hd.1] at e1
          exact hd.2 (by rw [e1]; decide)
        simp [hno]
  exact gen a k (fun d hd => ⟨(hk d hd).2.1, (hk d hd).2.2.2.2⟩)

/-- The upper-case form of a text is empty only for the empty text. -/
theorem toUpperCase_eq_nil_iff (s : Str) : toUpperCase s = [] ↔ s = [] := by
  cases s with
  | nil => simp [toUpperCase]
  | cons c s =>
    rw [toUpperCase_cons]
    simp only [List.append_eq_nil, reduceCtorEq, iff_false, not_and]
    intro h
    rcases jsUpperChar_cases c with hc | ⟨_, hc⟩ | ⟨e, he, _⟩
    · rw [hc] at h; simp at h
    · rw [hc] at h; simp at h
    · rw [h] at he; simp at he

/-- A character whose lower-case form is not ASCII is that form. -/
theorem char_eq_of_toLower_eq {d e : Char} (h : d.toLower = e) (he : 128 ≤ e.toNat) : d = e := by
  apply char_eq_of_toNat_eq
  have h2 := congrArg Char.toNat h
  rw [char_toNat_toLower] at h2
  split_ifs at h2 <;> omega

/-- The lower-case form of a text without Kelvin sign and dotted İ. -/
theorem toLowerCase_plain : ∀ (s : Str),
    (∀ d ∈ s, d ≠ Char.ofNat 0x212A ∧ d ≠ Char.ofNat 0x0130) →
    toLowerCase s = s.map Char.toLower
  | [], _ => rfl
  | c :: s, h => by
      have hc := h c (List.mem_cons_self _ _)
      rw [toLowerCase_cons, toLowerCase_plain s (fun d hd => h d (List.mem_cons_of_mem _ hd))]
      rcases jsLowerChar_cases c with e | ⟨e, _⟩ | ⟨e, _⟩
      · rw [e]; rfl
      · exact absurd e hc.1
      · exact absurd e hc.2

/-- The lower-case form of a query against that of a text without Kelvin sign,
dotted İ and combining dot: the two are equal ignoring case, where a Kelvin
sign in the query also stands for k. -/
theorem toLowerCase_eq_map_iff : ∀ (q m : Str),
    (∀ d ∈ m, d ≠ Char.ofNat 0x212A ∧ d ≠ Char.ofNat 0x0130 ∧ d ≠ Char.ofNat 0x0307) →
    (toLowerCase q = m.map Char.toLower ↔ EqIgnoringCaseKelvin q m)
  | [], [], _ => by simp [toLowerCase, EqIgnoringCaseKelvin]
  | [], _ :: _, _ => by simp [toLowerCase, EqIgnoringCaseKelvin]
  | c :: q, m, hm => by
      rw [toLowerCase_cons]
      constructor
      · intro h
        rcases jsLowerChar_cases c with hc | ⟨hc1, hc⟩ | ⟨hc1, hc⟩
        · rw [hc] at h
          cases m with
          | nil => simp at h
          | cons d m =>
            simp only [List.singleton_append, List.map_cons, List.cons.injEq] at h
            have ih := (toLowerCase_eq_map_iff q m
              (fun x hx => hm x (List.mem_cons_of_mem _ hx))).mp h.2
            exact List.Forall₂.cons (Or.inl h.1) ih
        · rw [hc] at h
          cases m with
          | nil => simp at h
          | cons d m =>
            simp only [List.singleton_append, List.map_cons, List.cons.injEq] at h
            have ih := (toLowerCase_eq_map_iff q m
              (fun x hx => hm x (List.mem_cons_of_mem _ hx))).mp h.2
            exact List.Forall₂.cons (Or.inr ⟨hc1, h.1.symm⟩) ih
        · rw [hc] at h
          cases m with
          | nil => simp at h
          | cons d m =>
            cases m with
            | nil => simp at h
            | cons d2 m =>
              simp only [List.cons_append, List.nil_append, List.map_cons, List.cons.injEq] at h
              have e : d2 = Char.ofNat 0x0307 := char_eq_of_toLower_eq h.2.1.symm (by decide)
              exact absurd e (hm d2 (by simp)).2.2
      · intro h
        cases h with
        | cons hcd hrest =>
          rename_i d m
          have hd := hm d (List.mem_cons_self _ _)
          have ih := (toLowerCase_eq_map_iff q m
            (fun x hx => hm x (List.mem_cons_of_mem _ hx))).mpr hrest
          rw [ih, List.map_cons]
          have hdl : jsLowerChar d = [d.toLower] := by
            rcases jsLowerChar_cases d with e | ⟨e, _⟩ | ⟨e, _⟩
            · exact e
            · exact absurd e hd.1
            · exact absurd e hd.2.1
          rcases hcd with hcd | ⟨hc1, hd2⟩
          · rw [jsLowerChar_congr hcd, hdl]; rfl
          · have e2 : jsLowerChar (Char.ofNat 0x212A) = ['k'] := by decide
            rw [hc1, e2, hd2]; rfl

/-- Two strings cut at the first occurrence of a separator: when the
separator is in neither head, equal wholes have equal heads and tails. -/
theorem split_at_sep {c : Char} : ∀ {a b r t : Str}, c ∉ a → c ∉ b →
    a ++ c :: r = b ++ c :: t → a = b ∧ r = t
  | [], [], _, _, _, _, h => by simpa using h
  | [], y :: b, _, _, _, hb, h => by
      simp only [List.nil_append, List.cons_append, List.cons.injEq] at h
      exact absurd h.1 (fun e => hb (by simp [e]))
  | x :: a, [], _, _, ha, _, h => by
      simp only [List.nil_append, List.cons_append, List.cons.injEq] at h
      exact absurd h.1.symm (fun e => ha (by simp [e]))
  | x :: a, y :: b, r, t, ha, hb, h => by
      simp only [List.cons_append, List.cons.injEq] at h
      have ha2 : c ∉ a := fun m => ha (List.mem_cons_of_mem _ m)
      have hb2 : c ∉ b := fun m => hb (List.mem_cons_of_mem _ m)
      obtain ⟨e1, e2⟩ := split_at_sep ha2 hb2 h.2
      exact ⟨by rw [h.1, e1], e2⟩

/-- A string without the separator is not a string that has it. -/
theorem ne_append_sep {c : Char} {a b t : Str} (ha : c ∉ a) : a ≠ b ++ c :: t := by
  intro h
  exact ha (by rw [h]; simp)

theorem Arr.join_cons_cons (x y : Option Str) (rest : Arr) (sep : Str) :
    Arr.join (x :: y :: rest) sep = Arr.text x ++ sep ++ Arr.join (y :: rest) sep := rfl

theorem Arr.join_singleton (x : Option Str) (sep : Str) :
    Arr.join [x] sep = Arr.text x := rfl

/-- On non-empty arrays whose elements do not contain the separator
character, `join` determines the text of every element. -/
theorem Arr.join_inj {c : Char} : ∀ (xs ys : Arr),
    (∀ x ∈ xs, c ∉ Arr.text x) → (∀ y ∈ ys, c ∉ Arr.text y) → xs ≠ [] → ys ≠ [] →
    Arr.join xs [c] = Arr.join ys [c] → xs.map Arr.text = ys.map Arr.text
  | [], _, _, _, hx, _, _ => absurd rfl hx
  | _ :: _, [], _, _, _, hy, _ => absurd rfl hy
  | [x], [y], _, _, _, _, h => by simpa [Arr.join_singleton] using h
  | [x], y :: y2 :: ys, hx, _, _, _, h => by
      rw [Arr.join_singleton, Arr.join_cons_cons, List.append_assoc] at h
      exact absurd h (ne_append_sep (hx x (by simp)))
  | x :: x2 :: xs, [y], _, hy, _, _, h => by
      rw [Arr.join_singleton, Arr.join_cons_cons, List.append_assoc] at h
      exact absurd h.symm (ne_append_sep (hy y (by simp)))
  | x :: x2 :: xs, y :: y2 :: ys, hx, hy, _, _, h => by
      rw [Arr.join_cons_cons, Arr.join_cons_cons, List.append_assoc, List.append_assoc] at h
      obtain ⟨e1, e2⟩ := split_at_sep (hx x (by simp)) (hy y (by simp)) h
      have ih := Arr.join_inj (x2 :: xs) (y2 :: ys)
        (fun z hz => hx z (List.mem_cons_of_mem _ hz))
        (fun z hz => hy z (List.mem_cons_of_mem _ hz)) (by simp) (by simp) e2
      simp only [List.map_cons, List.cons.injEq] at ih ⊢
      exact ⟨e1, ih⟩

/-- An array whose elements read as the non-empty strings of `tgt` is `tgt`. -/
theorem Arr.eq_of_map_text : ∀ (cur tgt : Arr),
    (∀ t ∈ tgt, ∃ s, t = some s ∧ s ≠ []) → cur.map Arr.text = tgt.map Arr.text → cur = tgt
  | [], [], _, _ => rfl
  | [], _ :: _, _, h => by simp at h
  | _ :: _, [], _, h => by simp at h
  | x :: cur, t :: tgt, ht, h => by
      simp only [List.map_cons, List.cons.injEq] at h
      obtain ⟨s, rfl, hs⟩ := ht t (by simp)
      have hx : x = some s := by
        cases x with
        | none => exact absurd h.1.symm (by simpa [Arr.text] using hs)
        | some u => simpa [Arr.text] using h.1
      rw [hx, Arr.eq_of_map_text cur tgt (fun t ht2 => ht t (List.mem_cons_of_mem _ ht2)) h.2]

/-- The exact-sequence test `cur.join("|") === tgt.join("|")` decides equality
of the arrays, for a target of non-empty strings without `|` and a current
array whose strings are without `|`. -/
theorem Arr.join_eq_iff (cur tgt : Arr) (hne : tgt ≠ [])
    (htgt : ∀ t ∈ tgt, ∃ s, t = some s ∧ s ≠ [] ∧ '|' ∉ s)
    (hcur : ∀ s, some s ∈ cur → '|' ∉ s) :
    Arr.join cur ['|'] = Arr.join tgt ['|'] ↔ cur = tgt := by
  constructor
  · intro h
    have hcur2 : ∀ x ∈ cur, '|' ∉ Arr.text x := by
      intro x hx
      cases x with
      | none => simp [Arr.text]
      | some s => simpa [Arr.text] using hcur s hx
    have htgt2 : ∀ y ∈ tgt, '|' ∉ Arr.text y := by
      intro y hy
      obtain ⟨s, rfl, _, hs⟩ := htgt y hy
      simpa [Arr.text] using hs
    have hcne : cur ≠ [] := by
      rintro rfl
      cases tgt with
      | nil => exact hne rfl
      | cons t tgt =>
        obtain ⟨s, rfl, hs, _⟩ := htgt t (by simp)
        cases tgt with
        | nil => exact hs (by simpa [Arr.join, Arr.text] using h.symm)
        | cons t2 tgt =>
          rw [Arr.join_cons_cons] at h
          simp [Arr.join] at h
    exact Arr.eq_of_map_text cur tgt
      (fun t ht => by obtain ⟨s, e, hs, _⟩ := htgt t ht; exact ⟨s, e, hs⟩)
      (Arr.join_inj cur tgt hcur2 htgt2 hcne hne h)
  · rintro rfl
    rfl

/-- Every element of an array literal of non-empty strings without `|` is such
a string. -/
theorem Arr.ofStrings_spec (xs : List String)
    (h : ∀ x ∈ xs, x.toList ≠ [] ∧ '|' ∉ x.toList) :
    ∀ t ∈ Arr.ofStrings xs, ∃ s, t = some s ∧ s ≠ [] ∧ '|' ∉ s := by
  intro t ht
  simp only [Arr.ofStrings, List.mem_map] at ht
  obtain ⟨x, hx, rfl⟩ := ht
  exact ⟨x.toList, rfl, h x hx⟩

/-- The strings of an array literal without `|` are without `|`. -/
theorem Arr.ofStrings_no_bar (xs : List String) (h : ∀ x ∈ xs, '|' ∉ x.toList) :
    ∀ s, some s ∈ Arr.ofStrings xs → '|' ∉ s := by
  intro s hs
  simp only [Arr.ofStrings, List.mem_map, Option.some.injEq] at hs
  obtain ⟨x, hx, rfl⟩ := hs
  exact h x hx

/-- A `reduce` that adds 1 for every element passing a test counts the
elements that pass. -/
theorem foldl_add_ite_eq_countP {α : Type} (p : α → Bool) (l : List α) (z : Int) :
    l.foldl (fun s x => s + (if p x then 1 else 0)) z = z + (l.countP p : Int) := by
  induction l generalizing z with
  | nil => simp
  | cons x l ih =>
    rw [List.foldl_cons, ih, List.countP_cons]
    by_cases hx : p x = true
    · simp only [hx, if_true]; push_cast; ring
    · simp only [hx, Bool.false_eq_true, if_false]; push_cast; ring

/-- Reading an array at an index inside it. -/
theorem Arr.get_natCast (xs : Arr) (n : Nat) (h : n < xs.length) :
    Arr.get xs (n : Int) = xs[n] := by
  simp [Arr.get, List.getElem?_eq_getElem h]

/-- Writing an array at an index inside it. -/
theorem Arr.set_natCast (xs : Arr) (n : Nat) (h : n < xs.length) (v : Option Str) :
    Arr.set xs (n : Int) v = List.set xs n v := by
  simp [Arr.set, h]

/-- The destructuring swap `[next[i], next[j]] = [next[j], next[i]]` with both
indices inside the array. -/
theorem Arr.swap_in_range (xs : Arr) (n m : Nat) (hn : n < xs.length) (hm : m < xs.length) :
    Arr.set (Arr.set xs (n : Int) (Arr.get xs (m : Int))) (m : Int) (Arr.get xs (n : Int))
      = List.set (List.set xs n xs[m]) m xs[n] := by
  rw [Arr.get_natCast xs m hm, Arr.get_natCast xs n hn, Arr.set_natCast xs n hn,
    Arr.set_natCast _ m (by simpa using hm)]

/-- Putting `x` at position `k` and the old element of position `k` in front
rearranges `x :: t`. -/
theorem set_cons_perm {α : Type} : ∀ (t : List α) (k : Nat) (h : k < t.length) (x : α),
    List.Perm (t[k] :: t.set k x) (x :: t)
  | y :: t, 0, _, x => by simpa using List.Perm.swap x y t
  | y :: t, k + 1, h, x => by
      have hk : k < t.length := by simpa using h
      have ih := set_cons_perm t k hk x
      have h1 : List.Perm (t[k] :: y :: t.set k x) (y :: t[k] :: t.set k x) :=
        List.Perm.swap _ _ _
      have h2 : List.Perm (y :: t[k] :: t.set k x) (y :: x :: t) := List.Perm.cons y ih
      have h3 : List.Perm (y :: x :: t) (x :: y :: t) := List.Perm.swap _ _ _
      simpa using (h1.trans h2).trans h3

/-- Exchanging the elements at two positions of a list rearranges it. -/
theorem set_set_perm {α : Type} : ∀ (xs : List α) (n m : Nat) (hn : n < xs.length)
    (hm : m < xs.length), List.Perm ((xs.set n xs[m]).set m xs[n]) xs
  | x :: t, 0, 0, _, _ => by simp
  | x :: t, 0, m + 1, _, hm => by
      simpa using set_cons_perm t m (by simpa using hm) x
  | x :: t, n + 1, 0, hn, _ => by
      simpa using set_cons_perm t n (by simpa using hn) x
  | x :: t, n + 1, m + 1, hn, hm => by
      simpa using set_set_perm t n m (by simpa using hn) (by simpa using hm)

theorem PBQ4.move_steps (xs : Arr) (b : Bool) (i d : Int) :
    (PBQ4.move ⟨xs, b⟩ i d).steps = moveArr xs i d := by
  unfold PBQ4.move moveArr
  by_cases h : i + d < 0 ∨ i + d ≥ xs.length <;> simp [h]

theorem PBQ6.move_rules (xs : Arr) (b : Bool) (i d : Int) :
    (PBQ6.move ⟨xs, b⟩ i d).rules = moveArr xs i d := by
  unfold PBQ6.move moveArr
  by_cases h : i + d < 0 ∨ i + d ≥ xs.length <;> simp [h]

theorem PBQ18.move_order (xs : Arr) (b : Bool) (i d : Int) :
    (PBQ18.move ⟨xs, b⟩ i d).order = moveArr xs i d := by
  unfold PBQ18.move moveArr
  by_cases h : i + d < 0 ∨ i + d ≥ xs.length <;> simp [h]

/-- With both indices inside the array, `move` exchanges the two elements. -/
theorem moveArr_in_range (xs : Arr) (n m : Nat) (hn : n < xs.length) (hm : m < xs.length) :
    moveArr xs (n : Int) ((m : Int) - (n : Int)) = List.set (List.set xs n xs[m]) m xs[n] := by
  have e : (n : Int) + ((m : Int) - (n : Int)) = (m : Int) := by ring
  unfold moveArr
  rw [e, if_neg (by simp; omega), Arr.swap_in_range xs n m hn hm]

/-! ### Numbers -/

/-- The spacing computed with enough fuel is the power of two 52 places below
the leading bit. -/
theorem ulpAux_eq : ∀ (fuel a : Nat), a ≤ fuel → ulpAux fuel a = 2 ^ (Nat.log 2 a - 52)
  | 0, a, h => by
      have e : a = 0 := by omega
      subst e
      simp [ulpAux]
  | fuel + 1, a, h => by
      rw [ulpAux]
      by_cases ha : a < 2 ^ 53
      · rw [if_pos ha]
        have hl : Nat.log 2 a ≤ 52 := by
          by_cases h0 : a = 0
          · subst h0; simp
          · exact Nat.lt_succ_iff.mp (Nat.log_lt_of_lt_pow h0 ha)
        rw [Nat.sub_eq_zero_of_le hl]
        rfl
      · rw [if_neg ha]
        have h2 : 2 ≤ a := by
          have : (2 : Nat) ≤ 2 ^ 53 := by norm_num
          omega
        rw [ulpAux_eq fuel (a / 2) (by omega), Nat.log_of_one_lt_of_le (by decide) h2]
        have hl : 52 ≤ Nat.log 2 (a / 2) := by
          apply Nat.le_log_of_pow_le (by decide)
          have : (2 : Nat) ^ 53 = 2 * 2 ^ 52 := by norm_num
          omega
        have e : Nat.log 2 (a / 2) + 1 - 52 = (Nat.log 2 (a / 2) - 52) + 1 := by omega
        rw [e, pow_succ, Nat.mul_comm]

/-- The spacing is the power of two 52 places below the leading bit. -/
theorem ulp_eq (a : Nat) : ulp a = 2 ^ (Nat.log 2 a - 52) := ulpAux_eq a a (Nat.le_refl a)

/-- The spacing is positive. -/
theorem ulp_pos (a : Nat) : 0 < ulp a := by
  rw [ulp_eq]
  exact Nat.pos_pow_of_pos _ (by decide)

/-- Rounding gives the multiple of the spacing below or the one above. -/
theorem roundNat_cases (a : Nat) :
    roundNat a = a / ulp a * ulp a ∨ roundNat a = (a / ulp a + 1) * ulp a := by
  unfold roundNat
  split_ifs <;> simp

/-- A multiple of the spacing at its magnitude is a double. -/
theorem roundNat_of_dvd (a : Nat) (h : ulp a ∣ a) : roundNat a = a := by
  have hr : a % ulp a = 0 := Nat.mod_eq_zero_of_dvd h
  unfold roundNat
  rw [hr, if_pos (by simpa using ulp_pos a)]
  exact Nat.div_mul_cancel h

/-- A rounded value is a multiple of the spacing. -/
theorem ulp_dvd_roundNat (a : Nat) : ulp a ∣ roundNat a := by
  rcases roundNat_cases a with h | h <;> rw [h] <;> exact Dvd.intro_left _ rfl

/-- Below 2^53 the spacing is 1. -/
theorem ulp_of_lt (a : Nat) (h : a < 2 ^ 53) : ulp a = 1 := by
  have hl : Nat.log 2 a ≤ 52 := by
    by_cases h0 : a = 0
    · subst h0; simp
    · exact Nat.lt_succ_iff.mp (Nat.log_lt_of_lt_pow h0 h)
  rw [ulp_eq, Nat.sub_eq_zero_of_le hl]
  rfl

/-- Every natural number up to 2^53 is a double. -/
theorem roundNat_of_le (a : Nat) (h : a ≤ 2 ^ 53) : roundNat a = a := by
  rcases Nat.lt_or_eq_of_le h with h | h
  · exact roundNat_of_dvd a (by rw [ulp_of_lt a h]; exact one_dvd _)
  · apply roundNat_of_dvd
    have hl : Nat.log 2 a = 53 := by rw [h]; exact Nat.log_pow (by decide) 53
    rw [ulp_eq, hl, h]
    exact pow_dvd_pow 2 (by decide)

/-- Zero is a double. -/
theorem roundNat_zero : roundNat 0 = 0 := roundNat_of_le 0 (Nat.zero_le _)

/-- The rounded value stays in the binade of `a`. -/
theorem roundNat_binade (a : Nat) (h : a ≠ 0) :
    2 ^ Nat.log 2 a ≤ roundNat a ∧ roundNat a ≤ 2 ^ (Nat.log 2 a + 1) := by
  have hu := ulp_pos a
  have hlo : 2 ^ Nat.log 2 a ≤ a := Nat.pow_log_le_self 2 h
  have hhi : a < 2 ^ (Nat.log 2 a + 1) := Nat.lt_pow_succ_log_self (by decide) a
  have d1 : ulp a ∣ 2 ^ Nat.log 2 a := by rw [ulp_eq]; exact pow_dvd_pow 2 (Nat.sub_le _ _)
  have d2 : ulp a ∣ 2 ^ (Nat.log 2 a + 1) := by rw [ulp_eq]; exact pow_dvd_pow 2 (by omega)
  have b1 : 2 ^ Nat.log 2 a ≤ a / ulp a * ulp a := by
    have := Nat.div_le_div_right (c := ulp a) hlo
    calc 2 ^ Nat.log 2 a = 2 ^ Nat.log 2 a / ulp a * ulp a := (Nat.div_mul_cancel d1).symm
      _ ≤ a / ulp a * ulp a := Nat.mul_le_mul_right _ this
  have b2 : (a / ulp a + 1) * ulp a ≤ 2 ^ (Nat.log 2 a + 1) := by
    obtain ⟨k, hk⟩ := d2
    have : a / ulp a < k := Nat.div_lt_of_lt_mul (by rw [← hk]; exact hhi)
    calc (a / ulp a + 1) * ulp a ≤ k * ulp a := Nat.mul_le_mul_right _ this
      _ = 2 ^ (Nat.log 2 a + 1) := by rw [hk, Nat.mul_comm]
  have b3 : a / ulp a * ulp a ≤ (a / ulp a + 1) * ulp a :=
    Nat.mul_le_mul_right _ (Nat.le_succ _)
  rcases roundNat_cases a with e | e <;> rw [e] <;> constructor <;> omega

/-- Rounding keeps the order of natural numbers. -/
theorem roundNat_mono {a b : Nat} (h : a ≤ b) : roundNat a ≤ roundNat b := by
  by_cases ha : a = 0
  · subst ha; rw [roundNat_zero]; exact Nat.zero_le _
  have hb : b ≠ 0 := fun e => ha (by omega)
  have hl : Nat.log 2 a ≤ Nat.log 2 b := Nat.log_mono_right h
  rcases Nat.lt_or_eq_of_le hl with hl | hl
  · have h1 := (roundNat_binade a ha).2
    have h2 := (roundNat_binade b hb).1
    have h3 : 2 ^ (Nat.log 2 a + 1) ≤ 2 ^ Nat.log 2 b :=
      Nat.pow_le_pow_right (by decide) hl
    omega
  · have hu : ulp a = ulp b := by rw [ulp_eq, ulp_eq, hl]
    have hq : a / ulp b ≤ b / ulp b := Nat.div_le_div_right h
    have hpos := ulp_pos b
    rcases Nat.lt_or_eq_of_le hq with hq | hq
    · have h1 : roundNat a ≤ (a / ulp b + 1) * ulp b := by
        have b3 : a / ulp b * ulp b ≤ (a / ulp b + 1) * ulp b :=
          Nat.mul_le_mul_right _ (Nat.le_succ _)
        rcases roundNat_cases a with e | e
        · rw [e, hu]; omega
        · rw [e, hu]
      have h2 : b / ulp b * ulp b ≤ roundNat b := by
        have b3 : b / ulp b * ulp b ≤ (b / ulp b + 1) * ulp b :=
          Nat.mul_le_mul_right _ (Nat.le_succ _)
        rcases roundNat_cases b with e | e
        · rw [e]
        · rw [e]; omega
      have h3 : (a / ulp b + 1) * ulp b ≤ b / ulp b * ulp b := Nat.mul_le_mul_right _ hq
      omega
    · have hr : a % ulp b ≤ b % ulp b := by
        have e1 := Nat.div_add_mod a (ulp b)
        have e2 := Nat.div_add_mod b (ulp b)
        rw [hq] at e1
        omega
      have b3 : b / ulp b * ulp b ≤ (b / ulp b + 1) * ulp b :=
        Nat.mul_le_mul_right _ (Nat.le_succ _)
      unfold roundNat
      rw [hu, hq]
      split_ifs <;> omega

/-- A rounded value is a double. -/
theorem roundNat_idem (a : Nat) : roundNat (roundNat a) = roundNat a := by
  by_cases ha : a = 0
  · subst ha; rw [roundNat_zero, roundNat_zero]
  obtain ⟨h1, h2⟩ := roundNat_binade a ha
  apply roundNat_of_dvd
  rcases Nat.lt_or_eq_of_le h2 with h2 | h2
  · have hl : Nat.log 2 (roundNat a) = Nat.log 2 a :=
      Nat.log_eq_of_pow_le_of_lt_pow h1 h2
    have hu : ulp (roundNat a) = ulp a := by rw [ulp_eq, ulp_eq, hl]
    rw [hu]
    exact ulp_dvd_roundNat a
  · rw [h2, ulp_eq, Nat.log_pow (by decide)]
    exact pow_dvd_pow 2 (by omega)

/-- Integers of magnitude up to 2^53 are doubles. -/
theorem roundDouble_of_le (x : Int) (h1 : -2 ^ 53 ≤ x) (h2 : x ≤ 2 ^ 53) : roundDouble x = x := by
  unfold roundDouble
  split_ifs with h
  · rw [roundNat_of_le _ (by omega)]; omega
  · rw [roundNat_of_le _ (by omega)]; omega

/-- Rounding keeps a number that is not negative so. -/
theorem roundDouble_nonneg (x : Int) (h : 0 ≤ x) : 0 ≤ roundDouble x := by
  unfold roundDouble
  rw [if_pos h]
  exact Int.natCast_nonneg _

/-- Rounding keeps the order of integers. -/
theorem roundDouble_mono {x y : Int} (h : x ≤ y) : roundDouble x ≤ roundDouble y := by
  unfold roundDouble
  split_ifs with hx hy hy
  · exact_mod_cast roundNat_mono (by omega : x.toNat ≤ y.toNat)
  · omega
  · have : (0 : Int) ≤ (roundNat y.toNat : Int) := Int.natCast_nonneg _
    have : (0 : Int) ≤ (roundNat (-x).toNat : Int) := Int.natCast_nonneg _
    omega
  · have := roundNat_mono (by omega : (-y).toNat ≤ (-x).toNat)
    omega

/-- A rounded value is a double. -/
theorem roundDouble_idem (x : Int) : roundDouble (roundDouble x) = roundDouble x := by
  by_cases h : 0 ≤ x
  · have e : roundDouble x = (roundNat x.toNat : Int) := by unfold roundDouble; rw [if_pos h]
    rw [e]
    unfold roundDouble
    rw [if_pos (Int.natCast_nonneg _), Int.toNat_ofNat, roundNat_idem]
  · have e : roundDouble x = -(roundNat (-x).toNat : Int) := by unfold roundDouble; rw [if_neg h]
    rw [e]
    by_cases hz : roundNat (-x).toNat = 0
    · rw [hz]; simp [roundDouble, roundNat_zero]
    · unfold roundDouble
      rw [if_neg (by omega)]
      simp only [neg_neg, Int.toNat_ofNat, roundNat_idem]

/-- The sum 2^53 + 1 is not a double: it rounds to 2^53. -/
theorem roundNat_two_pow_succ : roundNat (2 ^ 53 + 1) = 2 ^ 53 := by decide

/-- A sum of magnitude up to 2^53 is exact. -/
theorem jsAdd_exact (a b : Int) (h1 : -2 ^ 53 ≤ a + b) (h2 : a + b ≤ 2 ^ 53) :
    jsAdd a b = a + b := roundDouble_of_le _ h1 h2

/-- Adding 1 to 2^53 gives 2^53. -/
theorem jsAdd_stuck : jsAdd (2 ^ 53) 1 = 2 ^ 53 := by decide

/-- A run of `updateTotals` calls adds the recorded values to the totals, when
every running sum stays in the exact range. -/
theorem runCalls_updates : ∀ (post : List (Int × Int)) (t : Totals),
    (∀ k ≤ post.length, InExactRange (t.score + ((post.take k).map Prod.fst).sum) ∧
      InExactRange (t.max + ((post.take k).map Prod.snd).sum)) →
    runCalls t (post.map (fun p => Call.update p.1 p.2))
      = ⟨t.score + (post.map Prod.fst).sum, t.max + (post.map Prod.snd).sum⟩
  | [], t, _ => by simp [runCalls]
  | p :: post, t, h => by
      have h1 := h 1 (by simp)
      simp only [List.take_succ_cons, List.take_zero, List.map_cons, List.map_nil,
        List.sum_cons, List.sum_nil, add_zero, InExactRange] at h1
      have e : updateTotals t p.1 p.2 = ⟨t.score + p.1, t.max + p.2⟩ := by
        simp only [updateTotals, jsAdd_exact _ _ h1.1.1 h1.1.2, jsAdd_exact _ _ h1.2.1 h1.2.2]
      have ih := runCalls_updates post (updateTotals t p.1 p.2) (by
        intro k hk
        have hk2 := h (k + 1) (by simpa using hk)
        simp only [List.take_succ_cons, List.map_cons, List.sum_cons] at hk2
        rw [e]
        simp only [add_assoc]
        exact hk2)
      simp only [runCalls, List.map_cons, List.foldl_cons, Call.apply] at ih ⊢
      rw [ih, e]
      simp only [List.sum_cons, Totals.mk.injEq]
      constructor <;> ring

/-- Every widget reports a score between 0 and its maximum, and a maximum of
at least 1. -/
theorem Check.report_bounds (c : Check) :
    0 ≤ c.report.1 ∧ c.report.1 ≤ c.report.2 ∧ 1 ≤ c.report.2 := by
  have key : ∀ {α : Type} (p : α → Bool) (l : List α),
      0 ≤ l.foldl (fun (s : Int) x => s + (if p x then 1 else 0)) 0 ∧
      l.foldl (fun (s : Int) x => s + (if p x then 1 else 0)) 0 ≤ (l.length : Int) := by
    intro α p l
    rw [foldl_add_ite_eq_countP]
    have := List.countP_le_length p (l := l)
    constructor
    · positivity
    · simp only [zero_add]; exact_mod_cast this
  cases c with
  | pbq1 st =>
    have h := key (fun it : PBQ1.Item => decide (st.choices it.id = some it.answer)) PBQ1.items
    simp only [decide_eq_true_eq] at h
    exact ⟨h.1, h.2, (by decide : (1 : Int) ≤ (PBQ1.items.length : Int))⟩
  | pbq2 st => simp only [Check.report, PBQ2.check]; split_ifs <;> decide
  | pbq3 st => simp only [Check.report, PBQ3.check]; split_ifs <;> decide
  | pbq4 st => simp only [Check.report, PBQ4.check]; split_ifs <;> decide
  | pbq5 st => simp only [Check.report, PBQ5.check]; split_ifs <;> decide
  | pbq6 st => simp only [Check.report, PBQ6.check]; split_ifs <;> decide
  | pbq7 st => simp only [Check.report, PBQ7.check]; split_ifs <;> decide
  | pbq8 st =>
    have h := key (fun r : Row => decide (st.ans r.k = some r.v)) PBQ8.left
    simp only [decide_eq_true_eq] at h
    exact ⟨h.1, h.2, (by decide : (1 : Int) ≤ (PBQ8.left.length : Int))⟩
  | pbq9 st => simp only [Check.report, PBQ9.check]; split_ifs <;> decide
  | pbq10 st => simp only [Check.report, PBQ10.check]; split_ifs <;> decide
  | pbq11 st => simp only [Check.report, PBQ11.check]; split_ifs <;> decide
  | pbq12 st =>
    have h := key (fun r : Row => decide (st.ans r.k = some r.v)) PBQ12.rows
    simp only [decide_eq_true_eq] at h
    exact ⟨h.1, h.2, (by decide : (1 : Int) ≤ (PBQ12.rows.length : Int))⟩
  | pbq13 st =>
    have h := key (fun r : Row => decide (st.ans r.k = some r.v)) PBQ13.rows
    simp only [decide_eq_true_eq] at h
    exact ⟨h.1, h.2, (by decide : (1 : Int) ≤ (PBQ13.rows.length : Int))⟩
  | pbq14 st =>
    have h := key (fun r : Row => decide (st.ans r.k = some r.v)) PBQ14.rows
    simp only [decide_eq_true_eq] at h
    exact ⟨h.1, h.2, (by decide : (1 : Int) ≤ (PBQ14.rows.length : Int))⟩
  | pbq15 st =>
    have h := key (fun r : Row => decide (st.ans r.k = some r.v)) PBQ15.rows
    simp only [decide_eq_true_eq] at h
    exact ⟨h.1, h.2, (by decide : (1 : Int) ≤ (PBQ15.rows.length : Int))⟩
  | pbq16 st => simp only [Check.report, PBQ16.check]; split_ifs <;> simp
  | pbq17 st => simp only [Check.report, PBQ17.check]; split_ifs <;> simp
  | pbq18 st => simp only [Check.report, PBQ18.check]; split_ifs <;> decide

/-- A step from a total with `0 ≤ score ≤ max` leads to such a total. -/
theorem Totals.step_bounds (t : Totals) (a : AppEvent) (h : 0 ≤ t.score ∧ t.score ≤ t.max) :
    0 ≤ (t.step a).score ∧ (t.step a).score ≤ (t.step a).max := by
  cases a with
  | check c =>
    have hb := c.report_bounds
    simp only [Totals.step, updateTotals, jsAdd]
    exact ⟨roundDouble_nonneg _ (by omega), roundDouble_mono (by omega)⟩
  | reset => simp [Totals.step, resetTotals]

/-- A check does not change what the next check of the widget reports. -/
theorem Check.report_after (c : Check) : c.after.report = c.report := by
  cases c with
  | pbq16 st =>
    simp only [Check.after, Check.report]
    unfold PBQ16.check
    split_ifs with h <;> simp [h]
  | pbq17 st =>
    simp only [Check.after, Check.report]
    unfold PBQ17.check
    split_ifs with h <;> simp [h]
  | _ => rfl

/-- A step from a total whose max is a double that is not negative leads to
such a total. -/
theorem Totals.step_double (t : Totals) (a : AppEvent)
    (h : 0 ≤ t.max ∧ roundDouble t.max = t.max) :
    0 ≤ (t.step a).max ∧ roundDouble (t.step a).max = (t.step a).max := by
  cases a with
  | check c =>
    have hb := c.report_bounds
    simp only [Totals.step, updateTotals, jsAdd]
    exact ⟨roundDouble_nonneg _ (by omega), roundDouble_idem _⟩
  | reset =>
    simp only [Totals.step, resetTotals]
    exact ⟨le_refl _, by decide⟩

/-- In every state of the app the total max is a double that is not negative. -/
theorem Totals.run_double (acts : List AppEvent) :
    0 ≤ (Totals.run acts).max ∧ roundDouble (Totals.run acts).max = (Totals.run acts).max := by
  have gen : ∀ (acts : List AppEvent) (t : Totals), 0 ≤ t.max ∧ roundDouble t.max = t.max →
      0 ≤ (acts.foldl Totals.step t).max ∧
        roundDouble (acts.foldl Totals.step t).max = (acts.foldl Totals.step t).max := by
    intro acts
    induction acts with
    | nil => intro t h; simpa using h
    | cons a acts ih => intro t h; exact ih _ (Totals.step_double t a h)
  exact gen acts Totals.init ⟨le_refl _, by decide⟩

/-- Every widget reports a maximum of at most 7. -/
theorem Check.report_max_le (c : Check) : c.report.2 ≤ 7 := by
  cases c with
  | pbq1 st => simp only [Check.report, PBQ1.check]; decide
  | pbq2 st => simp only [Check.report, PBQ2.check]; decide
  | pbq3 st => simp only [Check.report, PBQ3.check]; decide
  | pbq4 st => simp only [Check.report, PBQ4.check]; decide
  | pbq5 st => simp only [Check.report, PBQ5.check]; decide
  | pbq6 st => simp only [Check.report, PBQ6.check]; decide
  | pbq7 st => simp only [Check.report, PBQ7.check]; decide
  | pbq8 st => simp only [Check.report, PBQ8.check]; decide
  | pbq9 st => simp only [Check.report, PBQ9.check]; decide
  | pbq10 st => simp only [Check.report, PBQ10.check]; decide
  | pbq11 st => simp only [Check.report, PBQ11.check]; decide
  | pbq12 st => simp only [Check.report, PBQ12.check]; decide
  | pbq13 st => simp only [Check.report, PBQ13.check]; decide
  | pbq14 st => simp only [Check.report, PBQ14.check]; decide
  | pbq15 st => simp only [Check.report, PBQ15.check]; decide
  | pbq16 st => simp only [Check.report, PBQ16.check]; split_ifs <;> simp
  | pbq17 st => simp only [Check.report, PBQ17.check]; split_ifs <;> simp
  | pbq18 st => simp only [Check.report, PBQ18.check]; decide

/-- In every state of the app the total max is at most 2^56: from there on the
sum with a widget's maximum is rounded back to 2^56.  So no total of the app
comes near the largest double. -/
theorem Totals.run_max_le (acts : List AppEvent) : (Totals.run acts).max ≤ 2 ^ 56 := by
  have gen : ∀ (acts : List AppEvent) (t : Totals), t.max ≤ 2 ^ 56 →
      (acts.foldl Totals.step t).max ≤ 2 ^ 56 := by
    intro acts
    induction acts with
    | nil => intro t h; simpa using h
    | cons a acts ih =>
      intro t h
      apply ih
      cases a with
      | check c =>
        have hb := c.report_max_le
        have e : roundDouble (2 ^ 56 + 7) = 2 ^ 56 := by decide
        simp only [Totals.step, updateTotals, jsAdd]
        calc roundDouble (t.max + c.report.2) ≤ roundDouble (2 ^ 56 + 7) :=
              roundDouble_mono (by omega)
          _ = 2 ^ 56 := e
      | reset => simp [Totals.step, resetTotals]
  exact gen acts Totals.init (by decide)

/-- Pressing one widget's Check button `n` times adds `n` times its pair, when
the total before and the sum are in the exact range. -/
theorem Totals.repeated_checks : ∀ (n : Nat) (c : Check) (t : Totals),
    InExactRange t.score → InExactRange (t.score + n * c.report.1) →
    InExactRange t.max → InExactRange (t.max + n * c.report.2) →
    (c.repeated n).foldl Totals.step t
      = ⟨t.score + n * c.report.1, t.max + n * c.report.2⟩
  | 0, _, t, _, _, _, _ => by simp [Check.repeated, List.iterate]
  | n + 1, c, t, hs, hs2, hm, hm2 => by
      have hb := c.report_bounds
      have hn : (0 : Int) ≤ (n : Int) := Int.natCast_nonneg n
      have p1 : 0 ≤ (n : Int) * c.report.1 := mul_nonneg hn hb.1
      have p2 : 0 ≤ (n : Int) * c.report.2 := mul_nonneg hn (by omega)
      simp only [InExactRange] at hs hs2 hm hm2
      have q1 : ((n + 1 : Nat) : Int) * c.report.1 = n * c.report.1 + c.report.1 := by
        push_cast; ring
      have q2 : ((n + 1 : Nat) : Int) * c.report.2 = n * c.report.2 + c.report.2 := by
        push_cast; ring
      rw [q1] at hs2
      rw [q2] at hm2
      have e : Totals.step t (AppEvent.check c)
          = ⟨t.score + c.report.1, t.max + c.report.2⟩ := by
        simp only [Totals.step, updateTotals]
        rw [jsAdd_exact _ _ (by omega) (by omega), jsAdd_exact _ _ (by omega) (by omega)]
      have ih := Totals.repeated_checks n c.after (Totals.step t (AppEvent.check c))
        (by rw [e]; exact ⟨by simp only; omega, by simp only; omega⟩)
        (by rw [e, Check.report_after]; exact ⟨by simp only; omega, by simp only; omega⟩)
        (by rw [e]; exact ⟨by simp only; omega, by simp only; omega⟩)
        (by rw [e, Check.report_after]; exact ⟨by simp only; omega, by simp only; omega⟩)
      simp only [Check.repeated, List.iterate, List.map_cons, List.foldl_cons] at ih ⊢
      rw [ih, Check.report_after, e, q1, q2]
      simp only [Totals.mk.injEq]
      constructor <;> ring

/-- A literal pattern matches exactly its own text. -/
theorem RegExp.lit_rmatch_iff : ∀ (s x : Str), (RegExp.lit s).rmatch x = true ↔ x = s
  | [], x => by
      rw [RegExp.lit]
      exact RegularExpression.one_rmatch_iff x
  | c :: s, x => by
      have ih := fun u => RegExp.lit_rmatch_iff s u
      simp only [RegExp.lit, RegularExpression.mul_rmatch_iff,
        RegularExpression.char_rmatch_iff, ih]
      constructor
      · rintro ⟨t, u, rfl, rfl, rfl⟩; rfl
      · rintro rfl; exact ⟨[c], s, rfl, rfl, rfl⟩

/-! ## Properties of the specification -/

/-- C1. For each ordering widget (PBQ4, PBQ6, PBQ18) and every current order
whose strings contain no `|`, `check` reports (1, 1) if the current order is
the target order element for element and (0, 1) otherwise; the TLS order
ServerHello, ClientHello, Server Certificate, Key Exchange, Finished reports
(0, 1). -/
theorem C1_exact_sequence_check (cur : Arr) (b : Bool) (h : ∀ s, some s ∈ cur → '|' ∉ s) :
    (PBQ4.check ⟨cur, b⟩).2 = (if cur = PBQ4.correct then (1, 1) else (0, 1)) ∧
    (PBQ6.check ⟨cur, b⟩).2 = (if cur = PBQ6.target then (1, 1) else (0, 1)) ∧
    (PBQ18.check ⟨cur, b⟩).2 = (if cur = PBQ18.correctOrder then (1, 1) else (0, 1)) := by
  have h4 := Arr.join_eq_iff cur PBQ4.correct (by decide)
    (Arr.ofStrings_spec _ (by decide)) h
  have h6 := Arr.join_eq_iff cur PBQ6.target (by decide)
    (Arr.ofStrings_spec _ (by decide)) h
  have h18 := Arr.join_eq_iff cur PBQ18.correctOrder (by decide)
    (Arr.ofStrings_spec _ (by decide)) h
  have e : "|".toList = ['|'] := rfl
  refine ⟨?_, ?_, ?_⟩
  · by_cases hc : cur = PBQ4.correct
    · simp [PBQ4.check, PBQ4.isCorrect, e, hc]
    · simp [PBQ4.check, PBQ4.isCorrect, e, hc, h4]
  · by_cases hc : cur = PBQ6.target
    · simp [PBQ6.check, PBQ6.isCorrect, e, hc]
    · simp [PBQ6.check, PBQ6.isCorrect, e, hc, h6]
  · by_cases hc : cur = PBQ18.correctOrder
    · simp [PBQ18.check, PBQ18.isCorrect, e, hc]
    · simp [PBQ18.check, PBQ18.isCorrect, e, hc, h18]

/-- C1 at the TLS order of the scenario. -/
theorem C1_exact_sequence_check_witness :
    (PBQ18.check ⟨Arr.ofStrings ["ServerHello", "ClientHello", "Server Certificate",
      "Key Exchange", "Finished"], false⟩).2 = (0, 1) := by
  have h := (C1_exact_sequence_check (Arr.ofStrings ["ServerHello", "ClientHello",
    "Server Certificate", "Key Exchange", "Finished"]) false
    (Arr.ofStrings_no_bar _ (by decide))).2.2
  rw [h]
  decide

/-- C2. For each map-valued widget (PBQ1, PBQ8, PBQ12, PBQ13, PBQ14, PBQ15) and
every assignment of selected values to keys, `check` reports the number of
keys whose selected value is that key's correct value, out of the number of
keys: 5, 4, 4, 4, 4 and 7. -/
theorem C2_map_valued_score (choices : Nat → Option Str) (ans : Answers) (b : Bool) :
    (PBQ1.check ⟨choices, b⟩).2 =
      (((PBQ1.items.countP (fun it => decide (choices it.id = some it.answer)) : Nat) : Int), 5) ∧
    (PBQ8.check ⟨ans, b⟩).2 =
      (((PBQ8.left.countP (fun r => decide (ans r.k = some r.v)) : Nat) : Int), 4) ∧
    (PBQ12.check ⟨ans, b⟩).2 =
      (((PBQ12.rows.countP (fun r => decide (ans r.k = some r.v)) : Nat) : Int), 4) ∧
    (PBQ13.check ⟨ans, b⟩).2 =
      (((PBQ13.rows.countP (fun r => decide (ans r.k = some r.v)) : Nat) : Int), 4) ∧
    (PBQ14.check ⟨ans, b⟩).2 =
      (((PBQ14.rows.countP (fun r => decide (ans r.k = some r.v)) : Nat) : Int), 4) ∧
    (PBQ15.check ⟨ans, b⟩).2 =
      (((PBQ15.rows.countP (fun r => decide (ans r.k = some r.v)) : Nat) : Int), 7) := by
  have key : ∀ {α : Type} (p : α → Prop) [DecidablePred p] (l : List α),
      l.foldl (fun (s : Int) x => s + (if p x then 1 else 0)) 0
        = ((l.countP (fun x => decide (p x)) : Nat) : Int) := by
    intro α p _ l
    have := foldl_add_ite_eq_countP (fun x => decide (p x)) l 0
    simpa using this
  refine ⟨?_, ?_, ?_, ?_, ?_, ?_⟩
  · simp only [PBQ1.check, PBQ1.score]
    rw [key (fun it : PBQ1.Item => choices it.id = some it.answer)]; rfl
  · simp only [PBQ8.check, PBQ8.score]
    rw [key (fun r : Row => ans r.k = some r.v)]; rfl
  · simp only [PBQ12.check, PBQ12.score]
    rw [key (fun r : Row => ans r.k = some r.v)]; rfl
  · simp only [PBQ13.check, PBQ13.score]
    rw [key (fun r : Row => ans r.k = some r.v)]; rfl
  · simp only [PBQ14.check, PBQ14.score]
    rw [key (fun r : Row => ans r.k = some r.v)]; rfl
  · simp only [PBQ15.check, PBQ15.score]
    rw [key (fun r : Row => ans r.k = some r.v)]; rfl

/-- C3. In PBQ4, PBQ6 and PBQ18, for every array and all integers `i` and `d`
with `i + d` negative or at least the length, `move i d` leaves the widget
state, and with it the stored order, exactly as it was. -/
theorem C3_move_out_of_bounds (xs : Arr) (b : Bool) (i d : Int)
    (h : i + d < 0 ∨ i + d ≥ xs.length) :
    PBQ4.move ⟨xs, b⟩ i d = ⟨xs, b⟩ ∧ PBQ6.move ⟨xs, b⟩ i d = ⟨xs, b⟩ ∧
      PBQ18.move ⟨xs, b⟩ i d = ⟨xs, b⟩ := by
  refine ⟨?_, ?_, ?_⟩
  · simp only [PBQ4.move]; rw [if_pos h]
  · simp only [PBQ6.move]; rw [if_pos h]
  · simp only [PBQ18.move]; rw [if_pos h]

/-- C3 at the initial incident-response order, moving the first step up and
the last step down. -/
theorem C3_move_out_of_bounds_witness :
    PBQ4.move PBQ4.init 0 (-1) = PBQ4.init ∧ PBQ4.move PBQ4.init 4 1 = PBQ4.init :=
  ⟨(C3_move_out_of_bounds PBQ4.init.steps false 0 (-1) (by decide)).1,
   (C3_move_out_of_bounds PBQ4.init.steps false 4 1 (by decide)).1⟩

/-- C4. For every array `xs`, every index `i` inside it and every `d` with
`i + d` inside it, `move i d` (in PBQ4, PBQ6 and PBQ18) gives an array of the
same length in which position `i` holds the old `xs[i + d]`, position `i + d`
holds the old `xs[i]`, and every other position is unchanged. -/
theorem C4_move_swaps (xs : Arr) (b : Bool) (i d : Int)
    (hi0 : 0 ≤ i) (hi : i < xs.length) (hj0 : 0 ≤ i + d) (hj : i + d < xs.length) :
    ∀ r ∈ [(PBQ4.move ⟨xs, b⟩ i d).steps, (PBQ6.move ⟨xs, b⟩ i d).rules,
        (PBQ18.move ⟨xs, b⟩ i d).order],
      r.length = xs.length ∧ r[i.toNat]? = xs[(i + d).toNat]? ∧
      r[(i + d).toNat]? = xs[i.toNat]? ∧
      ∀ k : Nat, (k : Int) ≠ i → (k : Int) ≠ i + d → r[k]? = xs[k]? := by
  lift i to ℕ using hi0 with n
  obtain ⟨m, hm⟩ : ∃ m : ℕ, (n : Int) + d = (m : Int) := ⟨((n : Int) + d).toNat, by omega⟩
  have hd : d = (m : Int) - (n : Int) := by omega
  have hn : n < xs.length := by exact_mod_cast hi
  have hm2 : m < xs.length := by rw [hm] at hj; exact_mod_cast hj
  have key : moveArr xs (n : Int) d = List.set (List.set xs n xs[m]) m xs[n] := by
    rw [hd]; exact moveArr_in_range xs n m hn hm2
  intro r hr
  have hr2 : r = List.set (List.set xs n xs[m]) m xs[n] := by
    simp only [List.mem_cons, List.mem_singleton, List.not_mem_nil, or_false] at hr
    rcases hr with rfl | rfl | rfl
    · rw [PBQ4.move_steps, key]
    · rw [PBQ6.move_rules, key]
    · rw [PBQ18.move_order, key]
  subst hr2
  rw [hm]
  simp only [Int.toNat_ofNat]
  refine ⟨by simp, ?_, ?_, ?_⟩
  · by_cases e : m = n
    · subst e; simp [List.getElem?_set, hn]
    · simp [List.getElem?_set, hn, hm2, e, List.getElem?_eq_getElem]
  · simp [List.getElem?_set, hn, hm2, List.getElem?_eq_getElem]
  · intro k hk1 hk2
    have h1 : n ≠ k := fun e => hk1 (by rw [e])
    have h2 : m ≠ k := fun e => hk2 (by rw [e])
    simp [List.getElem?_set, h1, h2]

/-- C4 at the initial incident-response order: moving the first step down. -/
theorem C4_move_swaps_witness :
    (PBQ4.move PBQ4.init 0 1).steps.length = PBQ4.init.steps.length ∧
    (PBQ4.move PBQ4.init 0 1).steps[0]? = PBQ4.init.steps[1]? ∧
    (PBQ4.move PBQ4.init 0 1).steps[1]? = PBQ4.init.steps[0]? := by
  have h := C4_move_swaps PBQ4.init.steps false 0 1 (by decide) (by decide) (by decide)
    (by decide) (PBQ4.move PBQ4.init 0 1).steps (by simp [PBQ4.init])
  exact ⟨h.1, h.2.1, h.2.2.1⟩

/-- C5, as stated, fails when `i` itself is outside the array.  From the
initial incident-response order, `move 7 (-6)` has its neighbour index 1 inside
the array, yet the write to position 7 grows the array to length 8; and
`move (-1) 1`, with neighbour index 0, overwrites position 0 with `undefined`,
so the result is not a rearrangement of the input. -/
theorem C5_move_perm_counterexample :
    (0 ≤ (7 : Int) + (-6) ∧ (7 : Int) + (-6) < PBQ4.init.steps.length ∧
      (PBQ4.move PBQ4.init 7 (-6)).steps.length = 8 ∧ PBQ4.init.steps.length = 5) ∧
    (0 ≤ (-1 : Int) + 1 ∧ (-1 : Int) + 1 < PBQ4.init.steps.length ∧
      ¬ List.Perm (PBQ4.move PBQ4.init (-1) 1).steps PBQ4.init.steps) := by
  refine ⟨by decide, by decide, by decide, ?_⟩
  intro h
  have hmem : (none : Option Str) ∈ (PBQ4.move PBQ4.init (-1) 1).steps := by decide
  exact absurd (h.mem_iff.mp hmem) (by decide)

/-- C5, amended. For every array and all integers `i` and `d` with both `i` and
`i + d` inside the array, `move i d` (in PBQ4, PBQ6 and PBQ18) keeps the length
and the multiset of elements: the result is a permutation of the input. -/
theorem C5_move_perm (xs : Arr) (b : Bool) (i d : Int)
    (hi0 : 0 ≤ i) (hi : i < xs.length) (hj0 : 0 ≤ i + d) (hj : i + d < xs.length) :
    ∀ r ∈ [(PBQ4.move ⟨xs, b⟩ i d).steps, (PBQ6.move ⟨xs, b⟩ i d).rules,
        (PBQ18.move ⟨xs, b⟩ i d).order],
      r.length = xs.length ∧ List.Perm r xs := by
  lift i to ℕ using hi0 with n
  obtain ⟨m, hm⟩ : ∃ m : ℕ, (n : Int) + d = (m : Int) := ⟨((n : Int) + d).toNat, by omega⟩
  have hd : d = (m : Int) - (n : Int) := by omega
  have hn : n < xs.length := by exact_mod_cast hi
  have hm2 : m < xs.length := by rw [hm] at hj; exact_mod_cast hj
  have key : moveArr xs (n : Int) d = List.set (List.set xs n xs[m]) m xs[n] := by
    rw [hd]; exact moveArr_in_range xs n m hn hm2
  intro r hr
  have hr2 : r = List.set (List.set xs n xs[m]) m xs[n] := by
    simp only [List.mem_cons, List.mem_singleton, List.not_mem_nil, or_false] at hr
    rcases hr with rfl | rfl | rfl
    · rw [PBQ4.move_steps, key]
    · rw [PBQ6.move_rules, key]
    · rw [PBQ18.move_order, key]
  subst hr2
  exact ⟨by simp, set_set_perm xs n m hn hm2⟩

/-- C5, amended, at the initial ACL order: moving the last rule up. -/
theorem C5_move_perm_witness :
    (PBQ6.move PBQ6.init 3 (-1)).rules.length = PBQ6.init.rules.length ∧
    List.Perm (PBQ6.move PBQ6.init 3 (-1)).rules PBQ6.init.rules :=
  C5_move_perm PBQ6.init.rules false 3 (-1) (by decide) (by decide) (by decide)
    (by decide) (PBQ6.move PBQ6.init 3 (-1)).rules (by simp [PBQ6.init])

/-- C6, as stated, fails for large values.  After `updateTotals(2^53, 2^53)`
and `updateTotals(1, 1)` from (0, 0) the total is (2^53, 2^53), which is not
the pair of the sums, (2^53 + 1, 2^53 + 1): the integer 2^53 + 1 is not a
Number, and the addition rounds it to 2^53. -/
theorem C6_aggregator_counterexample :
    runCalls Totals.init [Call.update (2 ^ 53) (2 ^ 53), Call.update 1 1]
      = ⟨2 ^ 53, 2 ^ 53⟩ ∧
    (([(2 ^ 53, 2 ^ 53), (1, 1)] : List (Int × Int)).map Prod.fst).sum = 2 ^ 53 + 1 ∧
    (([(2 ^ 53, 2 ^ 53), (1, 1)] : List (Int × Int)).map Prod.snd).sum = 2 ^ 53 + 1 ∧
    runCalls Totals.init [Call.update (2 ^ 53) (2 ^ 53), Call.update 1 1]
      ≠ ⟨2 ^ 53 + 1, 2 ^ 53 + 1⟩ := by
  refine ⟨by decide, by decide, by decide, by decide⟩

/-- C6, amended. Starting from totals (0, 0), after any sequence of
`updateTotals` and `resetTotals` calls with integer values in which every
running sum of the scores and of the maxima recorded since the most recent
reset, or since the start if there was none, stays within 2^53 in magnitude,
the total score is the sum of those scores and the total max the sum of those
maxima, whatever the recorded values are otherwise; and `resetTotals` gives
(0, 0) from every state. -/
theorem C6_aggregator_sums (post : List (Int × Int))
    (hs : SumsInExactRange (post.map Prod.fst)) (hm : SumsInExactRange (post.map Prod.snd)) :
    runCalls Totals.init (post.map (fun p => Call.update p.1 p.2))
        = ⟨(post.map Prod.fst).sum, (post.map Prod.snd).sum⟩ ∧
    (∀ pre : List Call,
      runCalls Totals.init (pre ++ Call.reset :: post.map (fun p => Call.update p.1 p.2))
        = ⟨(post.map Prod.fst).sum, (post.map Prod.snd).sum⟩) ∧
    (∀ t : Totals, resetTotals t = ⟨0, 0⟩) := by
  have key : ∀ t : Totals, t = ⟨0, 0⟩ →
      runCalls t (post.map (fun p => Call.update p.1 p.2))
        = ⟨(post.map Prod.fst).sum, (post.map Prod.snd).sum⟩ := by
    intro t ht
    subst ht
    have h := runCalls_updates post ⟨0, 0⟩ (by
      intro k hk
      have a := hs k (by simpa using hk)
      have b := hm k (by simpa using hk)
      rw [← List.map_take] at a b
      simpa using And.intro a b)
    simpa using h
  refine ⟨key _ rfl, ?_, fun _ => rfl⟩
  intro pre
  have h := key (Call.apply (runCalls Totals.init pre) Call.reset) rfl
  simp only [runCalls, List.foldl_append, List.foldl_cons] at h ⊢
  exact h

/-- C6, amended, at the calls (1, 2), (0, 1), (3, 5), and at the same calls
made after an update and a reset. -/
theorem C6_aggregator_sums_witness :
    runCalls Totals.init [Call.update 1 2, Call.update 0 1, Call.update 3 5] = ⟨4, 8⟩ ∧
    runCalls Totals.init [Call.update 7 7, Call.reset, Call.update 1 2, Call.update 0 1,
      Call.update 3 5] = ⟨4, 8⟩ := by
  have h := C6_aggregator_sums [(1, 2), (0, 1), (3, 5)]
    (by unfold SumsInExactRange InExactRange; decide)
    (by unfold SumsInExactRange InExactRange; decide)
  exact ⟨h.1, h.2.1 [Call.update 7 7]⟩

/-- C7. Every widget's `check` reports a pair with `0 ≤ score ≤ max` in every
answer state, and in every state of the app reached from totals (0, 0) by
widget checks and resets the running total satisfies `0 ≤ score ≤ max`. -/
theorem C7_score_le_max :
    (∀ c : Check, 0 ≤ c.report.1 ∧ c.report.1 ≤ c.report.2) ∧
    (∀ acts : List AppEvent,
      0 ≤ (Totals.run acts).score ∧ (Totals.run acts).score ≤ (Totals.run acts).max) := by
  refine ⟨fun c => ⟨c.report_bounds.1, c.report_bounds.2.1⟩, ?_⟩
  have gen : ∀ (acts : List AppEvent) (t : Totals), 0 ≤ t.score ∧ t.score ≤ t.max →
      0 ≤ (acts.foldl Totals.step t).score ∧
        (acts.foldl Totals.step t).score ≤ (acts.foldl Totals.step t).max := by
    intro acts
    induction acts with
    | nil => intro t h; simpa using h
    | cons a acts ih => intro t h; exact ih _ (Totals.step_bounds t a h)
  intro acts
  exact gen acts Totals.init (by decide)

/-- C8, as stated, fails once the total max has reached 2^53.  Pressing the
Check button of PBQ4, whose max is 1, 2^53 times from the start brings the
total max to 2^53, and one more check leaves it at 2^53: the sum 2^53 + 1 is
not a Number and is rounded back, so that check does not increase the total
max. -/
theorem C8_max_stuck_counterexample :
    (Totals.run ((Check.pbq4 PBQ4.init).repeated (2 ^ 53))).max = 2 ^ 53 ∧
    (Check.pbq4 PBQ4.init).report.2 = 1 ∧
    ((Totals.run ((Check.pbq4 PBQ4.init).repeated (2 ^ 53))).step
      (AppEvent.check (Check.pbq4 PBQ4.init))).max = 2 ^ 53 := by
  have hr : (Check.pbq4 PBQ4.init).report = (0, 1) := by decide
  have h : Totals.run ((Check.pbq4 PBQ4.init).repeated (2 ^ 53)) = ⟨0, 2 ^ 53⟩ := by
    rw [Totals.run, Totals.repeated_checks _ _ _ (by unfold InExactRange; decide)
      (by rw [hr]; unfold InExactRange; norm_num [Totals.init])
      (by unfold InExactRange; decide)
      (by rw [hr]; unfold InExactRange; norm_num [Totals.init]), hr]
    norm_num [Totals.init]
  rw [h]
  refine ⟨rfl, by decide, ?_⟩
  simp only [Totals.step, updateTotals, hr]
  exact jsAdd_stuck

/-- C8, amended. Every widget reports a max of at least 1, and in every state
of the app reached from totals (0, 0) by widget checks and resets a check
never lowers the total max: it sets it to the sum of the total max and the
widget's max, rounded to the nearest Number.  As long as that sum is at most
2^53 it is exact, and the check strictly increases the total max.  The only
other step, the reset, sets it to 0. -/
theorem C8_max_monotone (acts : List AppEvent) (c : Check) :
    1 ≤ c.report.2 ∧
    (Totals.run acts).max ≤ ((Totals.run acts).step (AppEvent.check c)).max ∧
    ((Totals.run acts).step (AppEvent.check c)).max
      = roundDouble ((Totals.run acts).max + c.report.2) ∧
    ((Totals.run acts).max + c.report.2 ≤ 2 ^ 53 →
      ((Totals.run acts).step (AppEvent.check c)).max = (Totals.run acts).max + c.report.2 ∧
      (Totals.run acts).max < ((Totals.run acts).step (AppEvent.check c)).max) ∧
    ((Totals.run acts).step AppEvent.reset).max = 0 := by
  have hb := c.report_bounds
  obtain ⟨h0, hd⟩ := Totals.run_double acts
  have hle : (Totals.run acts).max ≤ roundDouble ((Totals.run acts).max + c.report.2) := by
    calc (Totals.run acts).max = roundDouble (Totals.run acts).max := hd.symm
      _ ≤ roundDouble ((Totals.run acts).max + c.report.2) := roundDouble_mono (by omega)
  refine ⟨hb.2.2, hle, rfl, ?_, rfl⟩
  intro h
  have e : ((Totals.run acts).step (AppEvent.check c)).max
      = (Totals.run acts).max + c.report.2 := by
    simp only [Totals.step, updateTotals]
    exact jsAdd_exact _ _ (by omega) h
  exact ⟨e, by rw [e]; omega⟩

/-- C8, amended, at the first check of PBQ4 after the start. -/
theorem C8_max_monotone_witness :
    ((Totals.run []).step (AppEvent.check (Check.pbq4 PBQ4.init))).max = 1 ∧
    (Totals.run []).max < ((Totals.run []).step (AppEvent.check (Check.pbq4 PBQ4.init))).max := by
  have h := (C8_max_monotone [] (Check.pbq4 PBQ4.init)).2.2.2.1 (by decide)
  exact ⟨by rw [h.1]; decide, h.2⟩

/-- C9, as stated, fails.  With the source `ınternet`, whose first character is
the dotless ı (U+0131), the rules allow/tcp/443/ınternet/10.10.5.25 and
deny/empty/empty/ınternet/any are both judged correct and the widget reports
(2, 2), although that source is none of ANY, *, INTERNET, 0.0.0.0/0 ignoring
case: upper-casing turns the dotless ı into I. -/
theorem C9_dotless_counterexample :
    (PBQ2.check ⟨⟨"allow".toList, "tcp".toList, "443".toList,
        Char.ofNat 0x0131 :: "nternet".toList, "10.10.5.25".toList⟩,
      ⟨"deny".toList, "".toList, "".toList, Char.ofNat 0x0131 :: "nternet".toList,
        "any".toList⟩, false⟩).2 = (2, 2) ∧
    ¬ PBQ2.Rule1Spec ⟨"allow".toList, "tcp".toList, "443".toList,
        Char.ofNat 0x0131 :: "nternet".toList, "10.10.5.25".toList⟩ ∧
    ¬ PBQ2.Rule2Spec ⟨"deny".toList, "".toList, "".toList,
        Char.ofNat 0x0131 :: "nternet".toList, "any".toList⟩ := by
  refine ⟨by decide, ?_, ?_⟩
  · simp only [PBQ2.Rule1Spec, ← map_toLower_eq_iff]
    decide
  · simp only [PBQ2.Rule2Spec, ← map_toLower_eq_iff]
    decide

/-- C9, amended. For every pair of rules the firewall widget reports
(c1 + c2, 2), where c1 is 1 exactly when Rule 1 has action ALLOW and protocol
TCP ignoring case, port exactly 443, source (trimmed, ignoring case, a dotless
ı also counting as I) one of ANY, *, INTERNET and destination (trimmed)
10.10.5.25, and c2 is 1 exactly when Rule 2 has action DENY ignoring case,
protocol empty, TCP or UDP ignoring case, port empty after trimming, source
(trimmed, ignoring case, a dotless ı also counting as I) one of ANY, *,
INTERNET, 0.0.0.0/0 and destination (trimmed, ignoring case) one of ANY, *,
10.10.5.25, 0.0.0.0/0; otherwise c1, c2 are 0.  The rules
allow/tcp/443/any/10.10.5.25 and deny/empty/empty/any/any report (2, 2). -/
theorem C9_firewall_check :
    (∀ (rule1 rule2 : PBQ2.Rule) (b : Bool), ∃ c1 c2 : Int,
      (PBQ2.check ⟨rule1, rule2, b⟩).2 = (c1 + c2, 2) ∧
      (c1 = 1 ∨ c1 = 0) ∧ (c1 = 1 ↔ PBQ2.Rule1SpecDotless rule1) ∧
      (c2 = 1 ∨ c2 = 0) ∧ (c2 = 1 ↔ PBQ2.Rule2SpecDotless rule2)) ∧
    (PBQ2.check ⟨⟨"allow".toList, "tcp".toList, "443".toList, "any".toList,
        "10.10.5.25".toList⟩,
      ⟨"deny".toList, "".toList, "".toList, "any".toList, "any".toList⟩, false⟩).2 = (2, 2) := by
  have pl : ∀ k ∈ ["ALLOW", "TCP", "UDP", "DENY", "ANY", "*", "0.0.0.0/0", "10.10.5.25"],
      ∀ d ∈ k.toList, d.toNat < 128 ∧ d.toUpper = d ∧ d ≠ 'S' ∧ d ≠ 'F' ∧ d ≠ 'I' := by
    decide
  have dl : ∀ k ∈ ["ANY", "*", "INTERNET", "0.0.0.0/0"],
      ∀ d ∈ k.toList, d.toNat < 128 ∧ d.toUpper = d ∧ d ≠ 'S' ∧ d ≠ 'F' := by
    decide
  have hsrc1 : ∀ x : Str, toUpperCase x ∈ ["ANY".toList, "*".toList, "INTERNET".toList] ↔
      ∃ t ∈ ["ANY", "*", "INTERNET"], EqIgnoringCaseDotless x t.toList := by
    intro x
    simp only [List.mem_cons, List.mem_singleton, List.not_mem_nil, or_false,
      exists_eq_or_imp, exists_eq_left,
      toUpperCase_eq_const_dotless x _ (dl "ANY" (by decide)),
      toUpperCase_eq_const_dotless x _ (dl "*" (by decide)),
      toUpperCase_eq_const_dotless x _ (dl "INTERNET" (by decide))]
  have hsrc2 : ∀ x : Str,
      toUpperCase x ∈ ["ANY".toList, "*".toList, "INTERNET".toList, "0.0.0.0/0".toList] ↔
      ∃ t ∈ ["ANY", "*", "INTERNET", "0.0.0.0/0"], EqIgnoringCaseDotless x t.toList := by
    intro x
    simp only [List.mem_cons, List.mem_singleton, List.not_mem_nil, or_false,
      exists_eq_or_imp, exists_eq_left,
      toUpperCase_eq_const_dotless x _ (dl "ANY" (by decide)),
      toUpperCase_eq_const_dotless x _ (dl "*" (by decide)),
      toUpperCase_eq_const_dotless x _ (dl "INTERNET" (by decide)),
      toUpperCase_eq_const_dotless x _ (dl "0.0.0.0/0" (by decide))]
  have hdst2 : ∀ x : Str,
      toUpperCase x ∈ ["ANY".toList, "*".toList, "10.10.5.25".toList, "0.0.0.0/0".toList] ↔
      ∃ t ∈ ["ANY", "*", "10.10.5.25", "0.0.0.0/0"], EqIgnoringCase x t.toList := by
    intro x
    simp only [List.mem_cons, List.mem_singleton, List.not_mem_nil, or_false,
      exists_eq_or_imp, exists_eq_left,
      toUpperCase_eq_const x _ (pl "ANY" (by decide)),
      toUpperCase_eq_const x _ (pl "*" (by decide)),
      toUpperCase_eq_const x _ (pl "10.10.5.25" (by decide)),
      toUpperCase_eq_const x _ (pl "0.0.0.0/0" (by decide))]
  have hproto2 : ∀ x : Str, toUpperCase x ∈ ["".toList, "TCP".toList, "UDP".toList] ↔
      (x = [] ∨ EqIgnoringCase x "TCP".toList ∨ EqIgnoringCase x "UDP".toList) := by
    intro x
    have hempty : toUpperCase x = "".toList ↔ x = [] := toUpperCase_eq_nil_iff x
    simp only [List.mem_cons, List.mem_singleton, List.not_mem_nil, or_false, hempty,
      toUpperCase_eq_const x _ (pl "TCP" (by decide)),
      toUpperCase_eq_const x _ (pl "UDP" (by decide))]
  have e1 : ∀ rule1, PBQ2.isRule1Correct rule1 = true ↔ PBQ2.Rule1SpecDotless rule1 := by
    intro r
    simp only [PBQ2.isRule1Correct, PBQ2.Rule1SpecDotless, Bool.and_eq_true,
      decide_eq_true_eq, and_assoc, hsrc1,
      toUpperCase_eq_const _ _ (pl "ALLOW" (by decide)),
      toUpperCase_eq_const _ _ (pl "TCP" (by decide))]
  have e2 : ∀ rule2, PBQ2.isRule2Correct rule2 = true ↔ PBQ2.Rule2SpecDotless rule2 := by
    intro r
    simp only [PBQ2.isRule2Correct, PBQ2.Rule2SpecDotless, Bool.and_eq_true,
      decide_eq_true_eq, and_assoc, hsrc2, hdst2, hproto2,
      toUpperCase_eq_const _ _ (pl "DENY" (by decide))]
    rfl
  refine ⟨?_, by decide⟩
  intro rule1 rule2 b
  refine ⟨if PBQ2.isRule1Correct rule1 then 1 else 0,
    if PBQ2.isRule2Correct rule2 then 1 else 0, rfl, ?_, ?_, ?_, ?_⟩
  · split_ifs <;> simp
  · rw [← e1]; split_ifs with h <;> simp [h]
  · split_ifs <;> simp
  · rw [← e2]; split_ifs with h <;> simp [h]

/-- C10. For every pair of field values the subnetting widget reports
(h + b, 2), where h is 1 exactly when the hosts field, trimmed, is 62 and b is
1 exactly when the broadcast field is judged correct; the verdict on the
broadcast field does not depend on the hosts field, nor the other way round.
Hosts 62 with broadcast 192.168.50.63 reports (2, 2); hosts 63 with the same
broadcast reports (1, 2). -/
theorem C10_subnet_check :
    (∀ (cidr hosts bcast : Str) (b : Bool),
      (PBQ9.check ⟨cidr, hosts, bcast, b⟩).2 =
        ((if trim hosts = "62".toList then 1 else 0) +
          (if PBQ9.okBcast ⟨cidr, hosts, bcast, b⟩ = true then 1 else 0), 2) ∧
      (∀ (cidr2 hosts2 : Str) (b2 : Bool),
        PBQ9.okBcast ⟨cidr2, hosts2, bcast, b2⟩ = PBQ9.okBcast ⟨cidr, hosts, bcast, b⟩) ∧
      (∀ (cidr2 bcast2 : Str) (b2 : Bool),
        PBQ9.okHosts ⟨cidr2, hosts, bcast2, b2⟩ = PBQ9.okHosts ⟨cidr, hosts, bcast, b⟩)) ∧
    (PBQ9.check ⟨"192.168.50.0/26".toList, "62".toList, "192.168.50.63".toList, false⟩).2
      = (2, 2) ∧
    (PBQ9.check ⟨"192.168.50.0/26".toList, "63".toList, "192.168.50.63".toList, false⟩).2
      = (1, 2) := by
  refine ⟨?_, by decide, by decide⟩
  intro cidr hosts bcast b
  refine ⟨?_, fun _ _ _ => rfl, fun _ _ _ => rfl⟩
  have h : PBQ9.okHosts ⟨cidr, hosts, bcast, b⟩ = true ↔ trim hosts = "62".toList := by
    simp only [PBQ9.okHosts, RegExp.testWhole]
    exact RegExp.lit_rmatch_iff _ _
  simp only [PBQ9.check]
  by_cases hh : trim hosts = "62".toList
  · rw [if_pos hh, if_pos (h.mpr hh)]
  · have : PBQ9.okHosts ⟨cidr, hosts, bcast, b⟩ = false := by
      cases e : PBQ9.okHosts ⟨cidr, hosts, bcast, b⟩
      · rfl
      · exact absurd (h.mp e) hh
    rw [if_neg hh, this]
    simp

/-! ### Flashcard filter -/

/-- The method `includes` tests for a substring. -/
theorem includes_iff (s q : Str) : includes s q = true ↔ q <:+: s := by
  simp only [includes, List.any_eq_true, List.mem_tails, List.isPrefixOf_iff_prefix]
  rw [ List.infix_iff_prefix_suffix]
  constructor <;> rintro ⟨t, h1, h2⟩ <;> exact ⟨t, h2, h1⟩

/-- The filter's comparison on a text without Kelvin sign, dotted İ and
combining dot: `includes` on lower-case forms is containment ignoring case,
where a Kelvin sign in the query also stands for k. -/
theorem includes_lower_iff (s q : Str)
    (hs : ∀ d ∈ s, d ≠ Char.ofNat 0x212A ∧ d ≠ Char.ofNat 0x0130 ∧ d ≠ Char.ofNat 0x0307) :
    includes (toLowerCase s) (toLowerCase q) = true ↔ ContainsIgnoringCaseKelvin s q := by
  rw [includes_iff, toLowerCase_plain s (fun d hd => ⟨(hs d hd).1, (hs d hd).2.1⟩)]
  constructor
  · rintro ⟨a, b, h⟩
    have h2 : List.map Char.toLower s = a ++ (toLowerCase q ++ b) := by
      rw [← List.append_assoc]; exact h.symm
    obtain ⟨x, rest, rfl, hx, hrest⟩ := List.map_eq_append_iff.mp h2
    obtain ⟨m, y, rfl, hm, hy⟩ := List.map_eq_append_iff.mp hrest
    refine ⟨m, ⟨x, y, by simp⟩, ?_⟩
    exact (toLowerCase_eq_map_iff q m (fun d hd => hs d (by simp [hd]))).mp hm.symm
  · rintro ⟨m, ⟨x, y, rfl⟩, hm⟩
    refine ⟨x.map Char.toLower, y.map Char.toLower, ?_⟩
    rw [(toLowerCase_eq_map_iff q m (fun d hd => hs d (by simp [hd]))).mpr hm]
    simp

/-- Containment ignoring case, computed on ASCII lower-case forms. -/
theorem containsIgnoringCase_iff (s q : Str) :
    ContainsIgnoringCase s q ↔ includes (s.map Char.toLower) (q.map Char.toLower) = true := by
  rw [includes_iff]
  constructor
  · rintro ⟨m, ⟨x, y, rfl⟩, hm⟩
    refine ⟨x.map Char.toLower, y.map Char.toLower, ?_⟩
    rw [(map_toLower_eq_iff q m).mpr hm]
    simp
  · rintro ⟨a, b, h⟩
    have h2 : List.map Char.toLower s = a ++ (q.map Char.toLower ++ b) := by
      rw [← List.append_assoc]; exact h.symm
    obtain ⟨x, rest, rfl, hx, hrest⟩ := List.map_eq_append_iff.mp h2
    obtain ⟨m, y, rfl, hm, hy⟩ := List.map_eq_append_iff.mp hrest
    refine ⟨m, ⟨x, y, by simp⟩, ?_⟩
    exact (map_toLower_eq_iff q m).mp hm.symm

/-- Containment ignoring case is containment in the filter's sense. -/
theorem ContainsIgnoringCase.kelvin {s q : Str} (h : ContainsIgnoringCase s q) :
    ContainsIgnoringCaseKelvin s q := by
  obtain ⟨m, hm, he⟩ := h
  exact ⟨m, hm, List.Forall₂.imp (fun _ _ h => Or.inl h) he⟩

/-- A substring of the term or of the definition is a substring of the text
the filter searches. -/
theorem contains_term_or_definition (t d q : Str)
    (h : ContainsIgnoringCase t q ∨ ContainsIgnoringCase d q) :
    ContainsIgnoringCase (t ++ " ".toList ++ d) q := by
  rcases h with ⟨m, ⟨x, y, rfl⟩, hm⟩ | ⟨m, ⟨x, y, rfl⟩, hm⟩
  · exact ⟨m, ⟨x, y ++ " ".toList ++ (d : Str), by simp⟩, hm⟩
  · exact ⟨m, ⟨(t : Str) ++ " ".toList ++ x, y, by simp⟩, hm⟩

/-- The cards the query RADIUS selects. -/
theorem FLASH_Acronyms.computeFiltered_radius :
    FLASH_Acronyms.computeFiltered "RADIUS".toList =
      [FLASH_Acronyms.card "RADIUS" "Remote Authentication Dial-In User Service (UDP 1812/1813)",
       FLASH_Acronyms.card "802.1X" "Port-based NAC (supplicant/authenticator/RADIUS)"] := by
  decide

/-- C11, as stated, fails: the query RADIUS does not yield a list of length 1. -/
theorem C11_radius_counterexample :
    (FLASH_Acronyms.computeFiltered "RADIUS".toList).length ≠ 1 := by
  rw [FLASH_Acronyms.computeFiltered_radius]
  decide

/-- C11, amended. For the built-in card list the query RADIUS yields exactly
two entries, the RADIUS card and the 802.1X card, whose definition mentions
RADIUS: the filtered list has length 2. -/
theorem C11_radius_two_entries :
    FLASH_Acronyms.computeFiltered "RADIUS".toList =
      [FLASH_Acronyms.card "RADIUS" "Remote Authentication Dial-In User Service (UDP 1812/1813)",
       FLASH_Acronyms.card "802.1X" "Port-based NAC (supplicant/authenticator/RADIUS)"] ∧
    (FLASH_Acronyms.computeFiltered "RADIUS".toList).length = 2 := by
  rw [FLASH_Acronyms.computeFiltered_radius]
  exact ⟨rfl, rfl⟩

/-- The card texts hold no Kelvin sign, no dotted capital İ and no combining
dot above. -/
theorem FLASH_Acronyms.data_plain : ∀ x ∈ FLASH_Acronyms.DATA,
    ∀ d ∈ x.t ++ " ".toList ++ x.d,
      d ≠ Char.ofNat 0x212A ∧ d ≠ Char.ofNat 0x0130 ∧ d ≠ Char.ofNat 0x0307 := by
  decide

/-- C12, as stated, fails: for the query of one space the filter returns the
WPA2 card, although neither its term nor its definition contains a space. -/
theorem C12_filter_counterexample :
    FLASH_Acronyms.card "WPA2" "AES-CCMP" ∈ FLASH_Acronyms.computeFiltered " ".toList ∧
    ¬ (ContainsIgnoringCase "WPA2".toList " ".toList ∨
        ContainsIgnoringCase "AES-CCMP".toList " ".toList) := by
  constructor
  · rw [FLASH_Acronyms.computeFiltered, List.mem_filter]
    exact ⟨by decide, by decide⟩
  · rw [containsIgnoringCase_iff, containsIgnoringCase_iff]
    decide

/-- C12, amended. For every query `q` the filter returns, in their original
order, exactly those entries for which the term, a space and the definition,
joined, contain `q` ignoring case, a Kelvin sign (U+212A) in the query also
counting as the letter k, which is its lower-case form; so it returns every
entry whose term or whose definition contains `q` ignoring case, and the empty
query returns every entry.  The query of one Kelvin sign returns the PKI
card. -/
theorem C12_filter_spec (q : Str) :
    (∀ x, x ∈ FLASH_Acronyms.computeFiltered q ↔
      x ∈ FLASH_Acronyms.DATA ∧ ContainsIgnoringCaseKelvin (x.t ++ " ".toList ++ x.d) q) ∧
    List.Sublist (FLASH_Acronyms.computeFiltered q) FLASH_Acronyms.DATA ∧
    (∀ x ∈ FLASH_Acronyms.DATA, ContainsIgnoringCase x.t q ∨ ContainsIgnoringCase x.d q →
      x ∈ FLASH_Acronyms.computeFiltered q) ∧
    FLASH_Acronyms.computeFiltered [] = FLASH_Acronyms.DATA ∧
    FLASH_Acronyms.card "PKI" "Public Key Infrastructure" ∈
      FLASH_Acronyms.computeFiltered [Char.ofNat 0x212A] := by
  have hmem : ∀ x, x ∈ FLASH_Acronyms.computeFiltered q ↔
      x ∈ FLASH_Acronyms.DATA ∧ ContainsIgnoringCaseKelvin (x.t ++ " ".toList ++ x.d) q := by
    intro x
    rw [FLASH_Acronyms.computeFiltered, List.mem_filter]
    constructor
    · rintro ⟨hx, h⟩
      exact ⟨hx, (includes_lower_iff _ _ (FLASH_Acronyms.data_plain x hx)).mp h⟩
    · rintro ⟨hx, h⟩
      exact ⟨hx, (includes_lower_iff _ _ (FLASH_Acronyms.data_plain x hx)).mpr h⟩
  refine ⟨hmem, List.filter_sublist _, ?_, ?_, ?_⟩
  · intro x hx h
    exact (hmem x).mpr ⟨hx, (contains_term_or_definition x.t x.d q h).kelvin⟩
  · rw [FLASH_Acronyms.computeFiltered, List.filter_eq_self]
    intro x _
    rw [includes_iff]
    exact ⟨[], _, rfl⟩
  · rw [FLASH_Acronyms.computeFiltered, List.mem_filter]
    exact ⟨by decide, by decide⟩

/-! ### Flashcard navigation and shuffle -/

/-- The displayed list is never empty. -/
theorem FLASH_Acronyms.list_length_pos (st : FLASH_Acronyms.State) :
    1 ≤ (FLASH_Acronyms.list st).length := by
  unfold FLASH_Acronyms.list
  split_ifs with h
  · omega
  · simp

/-- Stepping forward inside `0 … n - 1` with the remainder operator. -/
theorem jsRem_succ (i n : Int) (h0 : 0 ≤ i) (h : i < n) :
    jsRem (i + 1) n = (i + 1) % n ∧
    (i + 1 < n → jsRem (i + 1) n = i + 1) ∧ (i = n - 1 → jsRem (i + 1) n = 0) := by
  have e : jsRem (i + 1) n = (i + 1) % n := Int.tmod_eq_emod (by omega) (by omega)
  refine ⟨e, ?_, ?_⟩
  · intro hlt
    rw [e]; exact Int.emod_eq_of_lt (by omega) hlt
  · intro hn
    rw [e, hn]; simp

/-- Stepping backward inside `0 … n - 1` with the remainder operator. -/
theorem jsRem_pred (i n : Int) (h0 : 0 ≤ i) (h : i < n) :
    jsRem (i - 1 + n) n = (i - 1 + n) % n ∧
    (0 < i → jsRem (i - 1 + n) n = i - 1) ∧ (i = 0 → jsRem (i - 1 + n) n = n - 1) := by
  have e : jsRem (i - 1 + n) n = (i - 1 + n) % n := Int.tmod_eq_emod (by omega) (by omega)
  refine ⟨e, ?_, ?_⟩
  · intro hpos
    rw [e, Int.add_emod_self]; exact Int.emod_eq_of_lt (by omega) (by omega)
  · intro hz
    have e2 : i - 1 + n = n - 1 := by omega
    rw [e, e2]
    exact Int.emod_eq_of_lt (by omega) (by omega)

/-- Reading an array of cards at an index inside it. -/
theorem FLASH_Acronyms.Cards.get_card_natCast (xs : FLASH_Acronyms.Cards) (n : Nat)
    (h : n < xs.length) : FLASH_Acronyms.Cards.get xs (n : Int) = xs[n] := by
  simp [FLASH_Acronyms.Cards.get, List.getElem?_eq_getElem h]

/-- Writing an array of cards at an index inside it. -/
theorem FLASH_Acronyms.Cards.set_card_natCast (xs : FLASH_Acronyms.Cards) (n : Nat)
    (h : n < xs.length) (v : Option FLASH_Acronyms.Card) :
    FLASH_Acronyms.Cards.set xs (n : Int) v = List.set xs n v := by
  simp [FLASH_Acronyms.Cards.set, h]

/-- The loop of `shuffle` rearranges the array when every draw `k` for the
step `j` satisfies `0 ≤ k ≤ j`. -/
theorem FLASH_Acronyms.shuffleLoop_perm (draw : Nat → Int)
    (hd : ∀ j, 0 ≤ draw j ∧ draw j ≤ j) : ∀ (j : Nat) (l : FLASH_Acronyms.Cards),
    j < l.length → List.Perm (FLASH_Acronyms.shuffleLoop draw j l) l
  | 0, l, _ => by simp [FLASH_Acronyms.shuffleLoop]
  | j + 1, l, hj => by
      obtain ⟨hk0, hk⟩ := hd (j + 1)
      obtain ⟨k, hkk⟩ : ∃ k : ℕ, draw (j + 1) = (k : Int) := ⟨(draw (j + 1)).toNat, by omega⟩
      have hk2 : k < l.length := by
        rw [hkk] at hk
        have : k ≤ j + 1 := by exact_mod_cast hk
        omega
      have hstep : FLASH_Acronyms.Cards.set
          (FLASH_Acronyms.Cards.set l ((j + 1 : Nat) : Int) (FLASH_Acronyms.Cards.get l (k : Int)))
          (k : Int) (FLASH_Acronyms.Cards.get l ((j + 1 : Nat) : Int))
            = List.set (List.set l (j + 1) l[k]) k l[j + 1] := by
        rw [FLASH_Acronyms.Cards.get_card_natCast l k hk2,
          FLASH_Acronyms.Cards.get_card_natCast l (j + 1) hj,
          FLASH_Acronyms.Cards.set_card_natCast l (j + 1) hj,
          FLASH_Acronyms.Cards.set_card_natCast _ k (by simpa using hk2)]
      have hperm := set_set_perm l (j + 1) k hj hk2
      have ih := FLASH_Acronyms.shuffleLoop_perm draw hd j
        (List.set (List.set l (j + 1) l[k]) k l[j + 1]) (by simp; omega)
      simp only [FLASH_Acronyms.shuffleLoop]
      rw [hkk, hstep]
      exact ih.trans hperm

/-- C13. The displayed list has length `n ≥ 1`, and for every index `i` with
`0 ≤ i < n`, Next gives `(i + 1) mod n` and Prev gives `(i - 1 + n) mod n`, both
again in `0 … n - 1`; Next from `n - 1` gives 0, Prev from 0 gives `n - 1`, and
Prev after Next, as well as Next after Prev, returns to `i`. -/
theorem C13_navigation_wraps (st : FLASH_Acronyms.State)
    (hi0 : 0 ≤ st.i) (hi : st.i < (FLASH_Acronyms.list st).length) :
    1 ≤ (FLASH_Acronyms.list st).length ∧
    (FLASH_Acronyms.next st).i = (st.i + 1) % ((FLASH_Acronyms.list st).length : Int) ∧
    (FLASH_Acronyms.prev st).i
      = (st.i - 1 + (FLASH_Acronyms.list st).length) % ((FLASH_Acronyms.list st).length : Int) ∧
    (0 ≤ (FLASH_Acronyms.next st).i ∧
      (FLASH_Acronyms.next st).i < (FLASH_Acronyms.list st).length) ∧
    (0 ≤ (FLASH_Acronyms.prev st).i ∧
      (FLASH_Acronyms.prev st).i < (FLASH_Acronyms.list st).length) ∧
    (st.i = (FLASH_Acronyms.list st).length - 1 → (FLASH_Acronyms.next st).i = 0) ∧
    (st.i = 0 → (FLASH_Acronyms.prev st).i = (FLASH_Acronyms.list st).length - 1) ∧
    (FLASH_Acronyms.prev (FLASH_Acronyms.next st)).i = st.i ∧
    (FLASH_Acronyms.next (FLASH_Acronyms.prev st)).i = st.i := by
  have hn := FLASH_Acronyms.list_length_pos st
  have hln : FLASH_Acronyms.list (FLASH_Acronyms.next st) = FLASH_Acronyms.list st := rfl
  have hlp : FLASH_Acronyms.list (FLASH_Acronyms.prev st) = FLASH_Acronyms.list st := rfl
  have en : (FLASH_Acronyms.next st).i
      = jsRem (st.i + 1) ((FLASH_Acronyms.list st).length : Int) := rfl
  have ep : (FLASH_Acronyms.prev st).i
      = jsRem (st.i - 1 + (FLASH_Acronyms.list st).length)
          ((FLASH_Acronyms.list st).length : Int) := rfl
  have epn : (FLASH_Acronyms.prev (FLASH_Acronyms.next st)).i
      = jsRem ((FLASH_Acronyms.next st).i - 1 + (FLASH_Acronyms.list st).length)
          ((FLASH_Acronyms.list st).length : Int) := rfl
  have enp : (FLASH_Acronyms.next (FLASH_Acronyms.prev st)).i
      = jsRem ((FLASH_Acronyms.prev st).i + 1) ((FLASH_Acronyms.list st).length : Int) := rfl
  generalize ((FLASH_Acronyms.list st).length : Int) = n at *
  generalize st.i = i at *
  obtain ⟨s1, s2, s3⟩ := jsRem_succ i n hi0 hi
  obtain ⟨p1, p2, p3⟩ := jsRem_pred i n hi0 hi
  have hnext : 0 ≤ (FLASH_Acronyms.next st).i ∧ (FLASH_Acronyms.next st).i < n := by
    rw [en]
    by_cases c : i + 1 < n
    · rw [s2 c]; omega
    · rw [s3 (by omega)]; omega
  have hprev : 0 ≤ (FLASH_Acronyms.prev st).i ∧ (FLASH_Acronyms.prev st).i < n := by
    rw [ep]
    by_cases c : 0 < i
    · rw [p2 c]; omega
    · rw [p3 (by omega)]; omega
  refine ⟨by omega, by rw [en, s1], by rw [ep, p1], hnext, hprev, ?_, ?_, ?_, ?_⟩
  · intro h; rw [en]; exact s3 h
  · intro h; rw [ep]; exact p3 h
  · rw [epn]
    obtain ⟨_, q2, q3⟩ := jsRem_pred _ n hnext.1 hnext.2
    rw [en] at q2 q3 ⊢
    by_cases c : i + 1 < n
    · rw [s2 c] at q2 ⊢
      rw [q2 (by omega)]; omega
    · rw [s3 (by omega)] at q3 ⊢
      rw [q3 rfl]; omega
  · rw [enp]
    obtain ⟨_, q2, q3⟩ := jsRem_succ _ n hprev.1 hprev.2
    rw [ep] at q2 q3 ⊢
    by_cases c : 0 < i
    · rw [p2 c] at q2 q3 ⊢
      rw [q2 (by omega)]; omega
    · rw [p3 (by omega)] at q2 q3 ⊢
      have hz : i = 0 := by omega
      by_cases c2 : n - 1 + 1 < n
      · omega
      · rw [q3 rfl]; omega

/-- C13 at the initial state of the browser, which shows all the cards. -/
theorem C13_navigation_wraps_witness :
    (FLASH_Acronyms.prev (FLASH_Acronyms.next FLASH_Acronyms.init)).i = FLASH_Acronyms.init.i ∧
    (FLASH_Acronyms.prev FLASH_Acronyms.init).i
      = (FLASH_Acronyms.list FLASH_Acronyms.init).length - 1 :=
  have h := C13_navigation_wraps FLASH_Acronyms.init (by decide) (by decide)
  ⟨h.2.2.2.2.2.2.2.1, h.2.2.2.2.2.2.1 rfl⟩

/-- C14. For every state of the browser and every sequence of draws `k` with
`0 ≤ k ≤ j` for the loop step `j`, `shuffle` leaves a displayed list that is a
permutation of the one before it, of the same length, sets the viewing index
to 0 and hides the definition. -/
theorem C14_shuffle_permutes (st : FLASH_Acronyms.State) (draw : Nat → Int)
    (hd : ∀ j, 0 ≤ draw j ∧ draw j ≤ j) :
    List.Perm (FLASH_Acronyms.list (FLASH_Acronyms.shuffle st draw)) (FLASH_Acronyms.list st) ∧
    (FLASH_Acronyms.list (FLASH_Acronyms.shuffle st draw)).length
      = (FLASH_Acronyms.list st).length ∧
    (FLASH_Acronyms.shuffle st draw).i = 0 ∧
    (FLASH_Acronyms.shuffle st draw).showDef = false := by
  have hn := FLASH_Acronyms.list_length_pos st
  have hperm : List.Perm (FLASH_Acronyms.shuffleLoop draw ((FLASH_Acronyms.list st).length - 1)
      (FLASH_Acronyms.list st)) (FLASH_Acronyms.list st) :=
    FLASH_Acronyms.shuffleLoop_perm draw hd _ _ (by omega)
  have key : List.Perm (FLASH_Acronyms.list (FLASH_Acronyms.shuffle st draw))
      (FLASH_Acronyms.list st) := by
    by_cases h : st.filtered.length ≠ 0
    · have hl : FLASH_Acronyms.list st = st.filtered := by
        simp only [FLASH_Acronyms.list, if_pos h]
      have hlen := hperm.length_eq
      rw [hl] at hperm hlen
      have h2 : (FLASH_Acronyms.shuffleLoop draw (st.filtered.length - 1) st.filtered).length ≠ 0 := by
        rw [hlen]; exact h
      have hl2 : FLASH_Acronyms.list (FLASH_Acronyms.shuffle st draw)
          = FLASH_Acronyms.shuffleLoop draw (st.filtered.length - 1) st.filtered := by
        simp only [FLASH_Acronyms.list, FLASH_Acronyms.shuffle, if_pos h, if_pos h2]
      rw [hl2, hl]
      exact hperm
    · have hl2 : FLASH_Acronyms.list (FLASH_Acronyms.shuffle st draw) = FLASH_Acronyms.list st := by
        simp only [FLASH_Acronyms.list, FLASH_Acronyms.shuffle, if_neg h]
      rw [hl2]
  exact ⟨key, key.length_eq, rfl, rfl⟩

/-- C14 at the initial state of the browser, every draw being 0. -/
theorem C14_shuffle_permutes_witness :
    List.Perm (FLASH_Acronyms.list (FLASH_Acronyms.shuffle FLASH_Acronyms.init (fun _ => 0)))
      (FLASH_Acronyms.list FLASH_Acronyms.init) ∧
    (FLASH_Acronyms.shuffle FLASH_Acronyms.init (fun _ => 0)).i = 0 :=
  have h := C14_shuffle_permutes FLASH_Acronyms.init (fun _ => 0)
    (fun j => ⟨le_refl 0, Int.ofNat_nonneg j⟩)
  ⟨h.1, h.2.2.1⟩

/-- C15. For every form widget (PBQ1, 2, 3, 5, 7 to 17), `check` with every
field empty or unselected reports (0, max) with the widget's max; and each
scored item whose fields are all empty is judged incorrect, whatever the other
items hold. -/
theorem C15_empty_fields_score_zero :
    ((PBQ1.check PBQ1.init).2 = (0, 5) ∧ (PBQ2.check PBQ2.init).2 = (0, 2) ∧
      (PBQ3.check PBQ3.init).2 = (0, 2) ∧ (PBQ5.check PBQ5.init).2 = (0, 3) ∧
      (PBQ7.check PBQ7.init).2 = (0, 2) ∧ (PBQ8.check PBQ8.init).2 = (0, 4) ∧
      (PBQ9.check PBQ9.init).2 = (0, 2) ∧ (PBQ10.check PBQ10.init).2 = (0, 1) ∧
      (PBQ11.check PBQ11.init).2 = (0, 2) ∧ (PBQ12.check PBQ12.init).2 = (0, 4) ∧
      (PBQ13.check PBQ13.init).2 = (0, 4) ∧ (PBQ14.check PBQ14.init).2 = (0, 4) ∧
      (PBQ15.check PBQ15.init).2 = (0, 7) ∧ (PBQ16.check PBQ16.init).2 = (0, 1) ∧
      (PBQ17.check PBQ17.init).2 = (0, 1)) ∧
    (∀ b : Bool,
      (PBQ8.check ⟨fun _ => some [], b⟩).2 = (0, 4) ∧
      (PBQ12.check ⟨fun _ => some [], b⟩).2 = (0, 4) ∧
      (PBQ13.check ⟨fun _ => some [], b⟩).2 = (0, 4) ∧
      (PBQ14.check ⟨fun _ => some [], b⟩).2 = (0, 4) ∧
      (PBQ15.check ⟨fun _ => some [], b⟩).2 = (0, 7)) ∧
    (PBQ2.isRule1Correct ⟨[], [], [], [], []⟩ = false ∧
      PBQ2.isRule2Correct ⟨[], [], [], [], []⟩ = false) ∧
    (∀ (x : Str) (b : Bool),
      PBQ3.correctDevice ⟨[], x, b⟩ = false ∧ PBQ3.correctRule ⟨x, [], b⟩ = false ∧
      PBQ7.okAuth ⟨[], x, b⟩ = false ∧ PBQ7.okEnc ⟨x, [], b⟩ = false ∧
      PBQ11.okMode ⟨[], x, b⟩ = false ∧ PBQ11.okVlan ⟨x, [], b⟩ = false ∧
      (PBQ16.check ⟨[], x⟩).2 = (0, 1) ∧ (PBQ17.check ⟨[], x⟩).2 = (0, 1)) ∧
    (∀ (x y : Str) (b : Bool),
      PBQ5.ok1 ⟨[], x, y, b⟩ = false ∧ PBQ5.ok2 ⟨x, [], y, b⟩ = false ∧
      PBQ5.ok3 ⟨x, y, [], b⟩ = false ∧
      PBQ9.okHosts ⟨x, [], y, b⟩ = false ∧ PBQ9.okBcast ⟨x, y, [], b⟩ = false ∧
      (PBQ9.check ⟨x, [], [], b⟩).2 = (0, 2) ∧
      PBQ10.ok ⟨[], x, y, b⟩ = false ∧ PBQ10.ok ⟨x, [], y, b⟩ = false ∧
      PBQ10.ok ⟨x, y, [], b⟩ = false) := by
  refine ⟨by decide, ?_, by decide, ?_, ?_⟩
  · intro b
    exact ⟨rfl, rfl, rfl, rfl, rfl⟩
  · intro x b
    refine ⟨rfl, ?_, rfl, ?_, rfl, rfl, rfl, rfl⟩
    · simp only [PBQ3.correctRule]
      have : RegExp.test PBQ3.rulePattern2 [] = false := by decide
      rw [this, Bool.and_false]
    · rfl
  · intro x y b
    have hb : RegExp.test (RegExp.lit "192.168.50.63".toList) (trim []) = false := by decide
    have hi : RegExp.test (RegExp.lit "10.0.20.50:443".toList) [] = false := by decide
    have hh : RegExp.testWhole (RegExp.lit "62".toList) (trim []) = false := by decide
    have h1 : RegExp.test PBQ5.pattern1 [] = false := by decide
    have h2 : RegExp.test PBQ5.pattern2 [] = false := by decide
    have h3 : RegExp.test PBQ5.pattern3 [] = false := by decide
    refine ⟨h1, h2, h3, hh, hb, ?_, ?_, ?_, ?_⟩
    · simp only [PBQ9.check, PBQ9.okHosts, PBQ9.okBcast, hh, hb]
      decide
    · simp [PBQ10.ok]
    · simp only [PBQ10.ok, hi, Bool.and_false, Bool.false_and]
    · simp only [PBQ10.ok]
      have : decide (toUpperCase ([] : Str) = "TCP".toList) = false := by decide
      rw [this, Bool.and_false]

/-- C16, as stated, fails: the action and protocol values are not trimmed.
Rule 1 with action ALLOW and protocol TCP is judged correct, and so is Rule 2
with action DENY and protocol TCP, but not with a blank before the action or
after the protocol. -/
theorem C16_no_trim_counterexample :
    PBQ2.isRule1Correct ⟨"ALLOW".toList, "TCP".toList, "443".toList, "ANY".toList,
      "10.10.5.25".toList⟩ = true ∧
    PBQ2.isRule1Correct ⟨" ALLOW".toList, "TCP".toList, "443".toList, "ANY".toList,
      "10.10.5.25".toList⟩ = false ∧
    PBQ2.isRule1Correct ⟨"ALLOW".toList, "TCP ".toList, "443".toList, "ANY".toList,
      "10.10.5.25".toList⟩ = false ∧
    PBQ2.isRule2Correct ⟨"DENY".toList, "TCP".toList, "".toList, "ANY".toList,
      "ANY".toList⟩ = true ∧
    PBQ2.isRule2Correct ⟨" DENY".toList, "TCP".toList, "".toList, "ANY".toList,
      "ANY".toList⟩ = false ∧
    PBQ2.isRule2Correct ⟨"DENY".toList, "TCP ".toList, "".toList, "ANY".toList,
      "ANY".toList⟩ = false := by
  decide

/-- C16, amended. In the firewall widget the action and protocol values are
upper-cased, and not trimmed, before they are compared with the accepted
values: replacing the action and the protocol of a rule by values that differ
from them only in letter case does not change the verdict on the rule, so a
rule judged correct stays judged correct. -/
theorem C16_case_insensitive_action_proto (r : PBQ2.Rule) (a p : Str)
    (ha : EqIgnoringCase a r.action) (hp : EqIgnoringCase p r.proto) :
    PBQ2.isRule1Correct ⟨a, p, r.port, r.src, r.dst⟩ = PBQ2.isRule1Correct r ∧
    PBQ2.isRule2Correct ⟨a, p, r.port, r.src, r.dst⟩ = PBQ2.isRule2Correct r ∧
    (PBQ2.isRule1Correct r = true → PBQ2.isRule1Correct ⟨a, p, r.port, r.src, r.dst⟩ = true) ∧
    (PBQ2.isRule2Correct r = true → PBQ2.isRule2Correct ⟨a, p, r.port, r.src, r.dst⟩ = true) := by
  have ea : toUpperCase a = toUpperCase r.action := toUpperCase_congr ha
  have ep : toUpperCase p = toUpperCase r.proto := toUpperCase_congr hp
  have h1 : PBQ2.isRule1Correct ⟨a, p, r.port, r.src, r.dst⟩ = PBQ2.isRule1Correct r := by
    simp only [PBQ2.isRule1Correct, ea, ep]
  have h2 : PBQ2.isRule2Correct ⟨a, p, r.port, r.src, r.dst⟩ = PBQ2.isRule2Correct r := by
    simp only [PBQ2.isRule2Correct, ea, ep]
  exact ⟨h1, h2, fun h => h1.trans h, fun h => h2.trans h⟩

/-- C16, amended, at Rule 1 of the hint written in mixed case. -/
theorem C16_case_insensitive_action_proto_witness :
    PBQ2.isRule1Correct ⟨"aLLow".toList, "tcp".toList, "443".toList, "ANY".toList,
      "10.10.5.25".toList⟩ = true :=
  (C16_case_insensitive_action_proto
    ⟨"ALLOW".toList, "TCP".toList, "443".toList, "ANY".toList, "10.10.5.25".toList⟩
    "aLLow".toList "tcp".toList
    ((map_toLower_eq_iff _ _).mp (by decide)) ((map_toLower_eq_iff _ _).mp (by decide))).2.2.1
    (by decide)

/-- C17, as stated, fails: with all three fields right the NAT widget reports
a score of 1, not 3, and with two fields right it reports 0, not 2. -/
theorem C17_nat_score_counterexample :
    (PBQ10.check ⟨"8443".toList, "10.0.20.50:443".toList, "TCP".toList, false⟩).2 = (1, 1) ∧
    PBQ10.correctFields ⟨"8443".toList, "10.0.20.50:443".toList, "TCP".toList, false⟩ = 3 ∧
    (PBQ10.check ⟨"8443".toList, "10.0.20.50:443".toList, "UDP".toList, false⟩).2 = (0, 1) ∧
    PBQ10.correctFields ⟨"8443".toList, "10.0.20.50:443".toList, "UDP".toList, false⟩ = 2 := by
  decide

/-- C17, amended. For every triple of field values of the NAT widget each
field is validated by its own test, which reads that field alone, and the
widget reports 1 out of 1 when all three fields are individually correct and
0 out of 1 otherwise. -/
theorem C17_nat_all_or_nothing (extPort intIP proto : Str) (b : Bool) :
    PBQ10.ok ⟨extPort, intIP, proto, b⟩
      = (PBQ10.okExtPort extPort && PBQ10.okIntIP intIP && PBQ10.okProto proto) ∧
    (PBQ10.check ⟨extPort, intIP, proto, b⟩).2
      = (if PBQ10.okProto proto = true ∧ PBQ10.okExtPort extPort = true ∧
            PBQ10.okIntIP intIP = true then 1 else 0, 1) ∧
    ((PBQ10.check ⟨extPort, intIP, proto, b⟩).2.1 = 1 ↔
      PBQ10.correctFields ⟨extPort, intIP, proto, b⟩ = 3) := by
  have h1 : PBQ10.ok ⟨extPort, intIP, proto, b⟩
      = (PBQ10.okExtPort extPort && PBQ10.okIntIP intIP && PBQ10.okProto proto) := rfl
  simp only [PBQ10.check, PBQ10.correctFields, h1]
  cases PBQ10.okExtPort extPort <;> cases PBQ10.okIntIP intIP <;>
    cases PBQ10.okProto proto <;> simp

/-! ### Repeated checks and the checked flag -/

/-- A property kept by every step is kept by every sequence of steps. -/
theorem foldl_keeps {σ ο : Type} (step : σ → ο → σ) (P : σ → Prop)
    (h : ∀ s o, P s → P (step s o)) : ∀ (ops : List ο) (s : σ), P s → P (ops.foldl step s)
  | [], _, hs => hs
  | o :: ops, s, hs => foldl_keeps step P h ops (step s o) (h s o hs)

theorem PBQ4.move_steps_checked (st : PBQ4.State) (i d : Int) :
    (PBQ4.move st i d).checked = st.checked := by
  simp only [PBQ4.move]; split_ifs <;> rfl

theorem PBQ6.move_rules_checked (st : PBQ6.State) (i d : Int) :
    (PBQ6.move st i d).checked = st.checked := by
  simp only [PBQ6.move]; split_ifs <;> rfl

theorem PBQ18.move_order_checked (st : PBQ18.State) (i d : Int) :
    (PBQ18.move st i d).checked = st.checked := by
  simp only [PBQ18.move]; split_ifs <;> rfl

/-- C19. For every widget and every state, a check leaves the answers as they
were, and a second check in a row leaves the widget in the state it had after
the first and reports the same pair. -/
theorem C19_check_idempotent :
    (∀ st : PBQ1.State, (PBQ1.check st).1.choices = st.choices ∧
      PBQ1.check (PBQ1.check st).1 = PBQ1.check st) ∧
    (∀ st : PBQ2.State, (PBQ2.check st).1.rule1 = st.rule1 ∧
      (PBQ2.check st).1.rule2 = st.rule2 ∧
      PBQ2.check (PBQ2.check st).1 = PBQ2.check st) ∧
    (∀ st : PBQ3.State, (PBQ3.check st).1.device = st.device ∧
      (PBQ3.check st).1.rule = st.rule ∧
      PBQ3.check (PBQ3.check st).1 = PBQ3.check st) ∧
    (∀ st : PBQ4.State, (PBQ4.check st).1.steps = st.steps ∧
      PBQ4.check (PBQ4.check st).1 = PBQ4.check st) ∧
    (∀ st : PBQ5.State, (PBQ5.check st).1.a1 = st.a1 ∧
      (PBQ5.check st).1.a2 = st.a2 ∧
      (PBQ5.check st).1.a3 = st.a3 ∧
      PBQ5.check (PBQ5.check st).1 = PBQ5.check st) ∧
    (∀ st : PBQ6.State, (PBQ6.check st).1.rules = st.rules ∧
      PBQ6.check (PBQ6.check st).1 = PBQ6.check st) ∧
    (∀ st : PBQ7.State, (PBQ7.check st).1.auth = st.auth ∧
      (PBQ7.check st).1.enc = st.enc ∧
      PBQ7.check (PBQ7.check st).1 = PBQ7.check st) ∧
    (∀ st : PBQ8.State, (PBQ8.check st).1.ans = st.ans ∧
      PBQ8.check (PBQ8.check st).1 = PBQ8.check st) ∧
    (∀ st : PBQ9.State, (PBQ9.check st).1.cidr = st.cidr ∧
      (PBQ9.check st).1.hosts = st.hosts ∧
      (PBQ9.check st).1.bcast = st.bcast ∧
      PBQ9.check (PBQ9.check st).1 = PBQ9.check st) ∧
    (∀ st : PBQ10.State, (PBQ10.check st).1.extPort = st.extPort ∧
      (PBQ10.check st).1.intIP = st.intIP ∧
      (PBQ10.check st).1.proto = st.proto ∧
      PBQ10.check (PBQ10.check st).1 = PBQ10.check st) ∧
    (∀ st : PBQ11.State, (PBQ11.check st).1.portMode = st.portMode ∧
      (PBQ11.check st).1.vlan = st.vlan ∧
      PBQ11.check (PBQ11.check st).1 = PBQ11.check st) ∧
    (∀ st : PBQ12.State, (PBQ12.check st).1.ans = st.ans ∧
      PBQ12.check (PBQ12.check st).1 = PBQ12.check st) ∧
    (∀ st : PBQ13.State, (PBQ13.check st).1.ans = st.ans ∧
      PBQ13.check (PBQ13.check st).1 = PBQ13.check st) ∧
    (∀ st : PBQ14.State, (PBQ14.check st).1.ans = st.ans ∧
      PBQ14.check (PBQ14.check st).1 = PBQ14.check st) ∧
    (∀ st : PBQ15.State, (PBQ15.check st).1.ans = st.ans ∧
      PBQ15.check (PBQ15.check st).1 = PBQ15.check st) ∧
    (∀ st : PBQ16.State, (PBQ16.check st).1.query = st.query ∧
      PBQ16.check (PBQ16.check st).1 = PBQ16.check st) ∧
    (∀ st : PBQ17.State, (PBQ17.check st).1.choice = st.choice ∧
      PBQ17.check (PBQ17.check st).1 = PBQ17.check st) ∧
    (∀ st : PBQ18.State, (PBQ18.check st).1.order = st.order ∧
      PBQ18.check (PBQ18.check st).1 = PBQ18.check st) := by
  refine ⟨?_, ?_, ?_, ?_, ?_, ?_, ?_, ?_, ?_, ?_, ?_, ?_, ?_, ?_, ?_, ?_, ?_, ?_⟩
  · intro st
    exact ⟨rfl, rfl⟩
  · intro st
    exact ⟨rfl, rfl, rfl⟩
  · intro st
    exact ⟨rfl, rfl, rfl⟩
  · intro st
    exact ⟨rfl, rfl⟩
  · intro st
    exact ⟨rfl, rfl, rfl, rfl⟩
  · intro st
    exact ⟨rfl, rfl⟩
  · intro st
    exact ⟨rfl, rfl, rfl⟩
  · intro st
    exact ⟨rfl, rfl⟩
  · intro st
    exact ⟨rfl, rfl, rfl, rfl⟩
  · intro st
    exact ⟨rfl, rfl, rfl, rfl⟩
  · intro st
    exact ⟨rfl, rfl, rfl⟩
  · intro st
    exact ⟨rfl, rfl⟩
  · intro st
    exact ⟨rfl, rfl⟩
  · intro st
    exact ⟨rfl, rfl⟩
  · intro st
    exact ⟨rfl, rfl⟩
  · intro st
    unfold PBQ16.check
    split_ifs with h <;> simp [h]
  · intro st
    unfold PBQ17.check
    split_ifs with h <;> simp [h]
  · intro st
    exact ⟨rfl, rfl⟩

/-- C20. In every widget with a checked flag (PBQ1 to PBQ15 and PBQ18) the
flag is false initially and true after a check, and once true it stays true
after every sequence of later operations on the widget: field edits, moves
and further checks. -/
theorem C20_checked_flag_sticks :
    (PBQ1.init.checked = false ∧ (∀ st : PBQ1.State, (PBQ1.check st).1.checked = true) ∧
      (∀ (st : PBQ1.State) (ops : List PBQ1.Op), st.checked = true →
        (ops.foldl PBQ1.Op.apply st).checked = true)) ∧
    (PBQ2.init.checked = false ∧ (∀ st : PBQ2.State, (PBQ2.check st).1.checked = true) ∧
      (∀ (st : PBQ2.State) (ops : List PBQ2.Op), st.checked = true →
        (ops.foldl PBQ2.Op.apply st).checked = true)) ∧
    (PBQ3.init.checked = false ∧ (∀ st : PBQ3.State, (PBQ3.check st).1.checked = true) ∧
      (∀ (st : PBQ3.State) (ops : List PBQ3.Op), st.checked = true →
        (ops.foldl PBQ3.Op.apply st).checked = true)) ∧
    (PBQ4.init.checked = false ∧ (∀ st : PBQ4.State, (PBQ4.check st).1.checked = true) ∧
      (∀ (st : PBQ4.State) (ops : List PBQ4.Op), st.checked = true →
        (ops.foldl PBQ4.Op.apply st).checked = true)) ∧
    (PBQ5.init.checked = false ∧ (∀ st : PBQ5.State, (PBQ5.check st).1.checked = true) ∧
      (∀ (st : PBQ5.State) (ops : List PBQ5.Op), st.checked = true →
        (ops.foldl PBQ5.Op.apply st).checked = true)) ∧
    (PBQ6.init.checked = false ∧ (∀ st : PBQ6.State, (PBQ6.check st).1.checked = true) ∧
      (∀ (st : PBQ6.State) (ops : List PBQ6.Op), st.checked = true →
        (ops.foldl PBQ6.Op.apply st).checked = true)) ∧
    (PBQ7.init.checked = false ∧ (∀ st : PBQ7.State, (PBQ7.check st).1.checked = true) ∧
      (∀ (st : PBQ7.State) (ops : List PBQ7.Op), st.checked = true →
        (ops.foldl PBQ7.Op.apply st).checked = true)) ∧
    (PBQ8.init.checked = false ∧ (∀ st : PBQ8.State, (PBQ8.check st).1.checked = true) ∧
      (∀ (st : PBQ8.State) (ops : List PBQ8.Op), st.checked = true →
        (ops.foldl PBQ8.Op.apply st).checked = true)) ∧
    (PBQ9.init.checked = false ∧ (∀ st : PBQ9.State, (PBQ9.check st).1.checked = true) ∧
      (∀ (st : PBQ9.State) (ops : List PBQ9.Op), st.checked = true →
        (ops.foldl PBQ9.Op.apply st).checked = true)) ∧
    (PBQ10.init.checked = false ∧ (∀ st : PBQ10.State, (PBQ10.check st).1.checked = true) ∧
      (∀ (st : PBQ10.State) (ops : List PBQ10.Op), st.checked = true →
        (ops.foldl PBQ10.Op.apply st).checked = true)) ∧
    (PBQ11.init.checked = false ∧ (∀ st : PBQ11.State, (PBQ11.check st).1.checked = true) ∧
      (∀ (st : PBQ11.State) (ops : List PBQ11.Op), st.checked = true →
        (ops.foldl PBQ11.Op.apply st).checked = true)) ∧
    (PBQ12.init.checked = false ∧ (∀ st : PBQ12.State, (PBQ12.check st).1.checked = true) ∧
      (∀ (st : PBQ12.State) (ops : List PBQ12.Op), st.checked = true →
        (ops.foldl PBQ12.Op.apply st).checked = true)) ∧
    (PBQ13.init.checked = false ∧ (∀ st : PBQ13.State, (PBQ13.check st).1.checked = true) ∧
      (∀ (st : PBQ13.State) (ops : List PBQ13.Op), st.checked = true →
        (ops.foldl PBQ13.Op.apply st).checked = true)) ∧
    (PBQ14.init.checked = false ∧ (∀ st : PBQ14.State, (PBQ14.check st).1.checked = true) ∧
      (∀ (st : PBQ14.State) (ops : List PBQ14.Op), st.checked = true →
        (ops.foldl PBQ14.Op.apply st).checked = true)) ∧
    (PBQ15.init.checked = false ∧ (∀ st : PBQ15.State, (PBQ15.check st).1.checked = true) ∧
      (∀ (st : PBQ15.State) (ops : List PBQ15.Op), st.checked = true →
        (ops.foldl PBQ15.Op.apply st).checked = true)) ∧
    ((∀ shuffled, (PBQ18.init shuffled).checked = false) ∧
      (∀ st : PBQ18.State, (PBQ18.check st).1.checked = true) ∧
      (∀ (st : PBQ18.State) (ops : List PBQ18.Op), st.checked = true →
        (ops.foldl PBQ18.Op.apply st).checked = true)) := by
  refine ⟨?_, ?_, ?_, ?_, ?_, ?_, ?_, ?_, ?_, ?_, ?_, ?_, ?_, ?_, ?_, ?_⟩
  · refine ⟨rfl, fun _ => rfl, fun st ops h => ?_⟩
    refine foldl_keeps PBQ1.Op.apply (fun s => s.checked = true) ?_ ops st h
    intro s o hs
    cases o <;> first | exact hs | rfl
  · refine ⟨rfl, fun _ => rfl, fun st ops h => ?_⟩
    refine foldl_keeps PBQ2.Op.apply (fun s => s.checked = true) ?_ ops st h
    intro s o hs
    cases o <;> first | exact hs | rfl
  · refine ⟨rfl, fun _ => rfl, fun st ops h => ?_⟩
    refine foldl_keeps PBQ3.Op.apply (fun s => s.checked = true) ?_ ops st h
    intro s o hs
    cases o <;> first | exact hs | rfl
  · refine ⟨rfl, fun _ => rfl, fun st ops h => ?_⟩
    refine foldl_keeps PBQ4.Op.apply (fun s => s.checked = true) ?_ ops st h
    intro s o hs
    cases o with
    | move i d => simp only [PBQ4.Op.apply, PBQ4.move_steps_checked]; exact hs
    | check => rfl
  · refine ⟨rfl, fun _ => rfl, fun st ops h => ?_⟩
    refine foldl_keeps PBQ5.Op.apply (fun s => s.checked = true) ?_ ops st h
    intro s o hs
    cases o <;> first | exact hs | rfl
  · refine ⟨rfl, fun _ => rfl, fun st ops h => ?_⟩
    refine foldl_keeps PBQ6.Op.apply (fun s => s.checked = true) ?_ ops st h
    intro s o hs
    cases o with
    | move i d => simp only [PBQ6.Op.apply, PBQ6.move_rules_checked]; exact hs
    | check => rfl
  · refine ⟨rfl, fun _ => rfl, fun st ops h => ?_⟩
    refine foldl_keeps PBQ7.Op.apply (fun s => s.checked = true) ?_ ops st h
    intro s o hs
    cases o <;> first | exact hs | rfl
  · refine ⟨rfl, fun _ => rfl, fun st ops h => ?_⟩
    refine foldl_keeps PBQ8.Op.apply (fun s => s.checked = true) ?_ ops st h
    intro s o hs
    cases o <;> first | exact hs | rfl
  · refine ⟨rfl, fun _ => rfl, fun st ops h => ?_⟩
    refine foldl_keeps PBQ9.Op.apply (fun s => s.checked = true) ?_ ops st h
    intro s o hs
    cases o <;> first | exact hs | rfl
  · refine ⟨rfl, fun _ => rfl, fun st ops h => ?_⟩
    refine foldl_keeps PBQ10.Op.apply (fun s => s.checked = true) ?_ ops st h
    intro s o hs
    cases o <;> first | exact hs | rfl
  · refine ⟨rfl, fun _ => rfl, fun st ops h => ?_⟩
    refine foldl_keeps PBQ11.Op.apply (fun s => s.checked = true) ?_ ops st h
    intro s o hs
    cases o <;> first | exact hs | rfl
  · refine ⟨rfl, fun _ => rfl, fun st ops h => ?_⟩
    refine foldl_keeps PBQ12.Op.apply (fun s => s.checked = true) ?_ ops st h
    intro s o hs
    cases o <;> first | exact hs | rfl
  · refine ⟨rfl, fun _ => rfl, fun st ops h => ?_⟩
    refine foldl_keeps PBQ13.Op.apply (fun s => s.checked = true) ?_ ops st h
    intro s o hs
    cases o <;> first | exact hs | rfl
  · refine ⟨rfl, fun _ => rfl, fun st ops h => ?_⟩
    refine foldl_keeps PBQ14.Op.apply (fun s => s.checked = true) ?_ ops st h
    intro s o hs
    cases o <;> first | exact hs | rfl
  · refine ⟨rfl, fun _ => rfl, fun st ops h => ?_⟩
    refine foldl_keeps PBQ15.Op.apply (fun s => s.checked = true) ?_ ops st h
    intro s o hs
    cases o <;> first | exact hs | rfl
  · refine ⟨fun _ => rfl, fun _ => rfl, fun st ops h => ?_⟩
    refine foldl_keeps PBQ18.Op.apply (fun s => s.checked = true) ?_ ops st h
    intro s o hs
    cases o with
    | move i d => simp only [PBQ18.Op.apply, PBQ18.move_order_checked]; exact hs
    | check => rfl

/-- C20 at the incident-response widget: after a check, a move and a further
check leave the flag set. -/
theorem C20_checked_flag_sticks_witness :
    ([PBQ4.Op.move 0 1, PBQ4.Op.check].foldl PBQ4.Op.apply (PBQ4.check PBQ4.init).1).checked
      = true :=
  C20_checked_flag_sticks.2.2.2.1.2.2 (PBQ4.check PBQ4.init).1
    [PBQ4.Op.move 0 1, PBQ4.Op.check] rfl

/-! ### Pattern search -/

/-- The search `test` succeeds exactly when some substring is in the language
of the pattern. -/
theorem RegExp.test_iff (r : RegularExpression Char) (s : Str) :
    RegExp.test r s = true ↔ ∃ m, m <:+: s ∧ m ∈ r.matches' := by
  simp only [RegExp.test, List.any_eq_true, List.mem_tails, List.mem_inits,
    RegularExpression.rmatch_iff_matches']
  constructor
  · rintro ⟨u, ⟨a, rfl⟩, m, ⟨b, rfl⟩, hm⟩
    exact ⟨m, ⟨a, b, by simp⟩, hm⟩
  · rintro ⟨m, ⟨a, b, rfl⟩, hm⟩
    exact ⟨m ++ b, ⟨a, by simp⟩, m, ⟨b, rfl⟩, hm⟩

/-- A search that succeeds on a string succeeds on every string around it. -/
theorem RegExp.test_append (r : RegularExpression Char) (s x y : Str)
    (h : RegExp.test r s = true) : RegExp.test r (x ++ s ++ y) = true := by
  rw [RegExp.test_iff] at h ⊢
  obtain ⟨m, ⟨a, b, rfl⟩, hm⟩ := h
  exact ⟨m, ⟨x ++ a, b ++ y, by simp⟩, hm⟩

/-- Equality ignoring case is symmetric. -/
theorem EqIgnoringCase.symm {a b : Str} (h : EqIgnoringCase a b) : EqIgnoringCase b a := by
  rw [← map_toLower_eq_iff] at h ⊢
  exact h.symm

/-- A string equal to `a ++ b` ignoring case splits into strings equal to `a`
and to `b` ignoring case. -/
theorem EqIgnoringCase.split {a b t : Str} (h : EqIgnoringCase (a ++ b) t) :
    ∃ a2 b2, t = a2 ++ b2 ∧ EqIgnoringCase a a2 ∧ EqIgnoringCase b b2 := by
  rw [← map_toLower_eq_iff] at h
  have h2 : List.map Char.toLower t = a.map Char.toLower ++ b.map Char.toLower := by
    simp only [List.map_append] at h
    exact h.symm
  obtain ⟨a2, b2, rfl, ha, hb⟩ := List.map_eq_append_iff.mp h2
  exact ⟨a2, b2, rfl, (map_toLower_eq_iff _ _).mp ha.symm, (map_toLower_eq_iff _ _).mp hb.symm⟩

/-- A character that agrees, up to case, with one of the two case forms of
`c` is one of the two case forms of `c`. -/
theorem char_case_forms (c e d : Char) (he : e = c.toLower ∨ e = c.toUpper)
    (h : e.toLower = d.toLower) : d = c.toLower ∨ d = c.toUpper := by
  have h2 := congrArg Char.toNat h
  have hl := char_toNat_toLower c
  have hu := char_toNat_toUpper c
  rw [char_toNat_toLower, char_toNat_toLower] at h2
  have he2 : e.toNat = c.toLower.toNat ∨ e.toNat = c.toUpper.toNat := by
    rcases he with rfl | rfl
    · exact Or.inl rfl
    · exact Or.inr rfl
  have goal : d.toNat = c.toLower.toNat ∨ d.toNat = c.toUpper.toNat := by
    rw [hl, hu] at *
    split_ifs at h2 he2 ⊢ <;> omega
  rcases goal with g | g
  · exact Or.inl (char_eq_of_toNat_eq g)
  · exact Or.inr (char_eq_of_toNat_eq g)

/-- A character whose two case forms coincide is its own lower-case form. -/
theorem char_caseless (c : Char) (h : c.toLower = c.toUpper) : c.toLower = c := by
  apply char_eq_of_toNat_eq
  have h2 := congrArg Char.toNat h
  rw [char_toNat_toLower, char_toNat_toUpper] at h2
  rw [char_toNat_toLower]
  split_ifs at h2 ⊢ <;> omega

theorem RegExp.caseClosed_zero : RegExp.CaseClosed 0 := fun _ _ _ h => h

theorem RegExp.caseClosed_one : RegExp.CaseClosed 1 := by
  intro s t hst hs
  rw [RegularExpression.matches'_epsilon, Language.mem_one] at hs ⊢
  subst hs
  cases hst
  rfl

theorem RegExp.caseClosed_add {p q : RegularExpression Char} (hp : RegExp.CaseClosed p)
    (hq : RegExp.CaseClosed q) : RegExp.CaseClosed (p + q) := by
  intro s t hst hs
  rw [RegularExpression.matches'_add, Language.mem_add] at hs ⊢
  exact hs.imp (hp s t hst) (hq s t hst)

theorem RegExp.caseClosed_mul {p q : RegularExpression Char} (hp : RegExp.CaseClosed p)
    (hq : RegExp.CaseClosed q) : RegExp.CaseClosed (p * q) := by
  intro s t hst hs
  rw [RegularExpression.matches'_mul, Language.mem_mul] at hs ⊢
  obtain ⟨a, ha, b, hb, rfl⟩ := hs
  obtain ⟨a2, b2, rfl, h1, h2⟩ := EqIgnoringCase.split hst
  exact ⟨a2, hp a a2 h1 ha, b2, hq b b2 h2 hb, rfl⟩

theorem RegExp.caseClosed_star {p : RegularExpression Char} (hp : RegExp.CaseClosed p) :
    RegExp.CaseClosed (RegularExpression.star p) := by
  intro s t hst hs
  rw [RegularExpression.matches'_star, Language.mem_kstar] at hs ⊢
  obtain ⟨L, rfl, hL⟩ := hs
  revert hL hst
  induction L generalizing t with
  | nil =>
    intro _ hst
    cases hst
    exact ⟨[], rfl, fun _ h => absurd h (List.not_mem_nil _)⟩
  | cons y L ih =>
    intro hL hst
    rw [List.flatten_cons] at hst
    obtain ⟨a2, b2, rfl, h1, h2⟩ := EqIgnoringCase.split hst
    obtain ⟨L2, rfl, hL2⟩ := ih b2 (fun z hz => hL z (List.mem_cons_of_mem _ hz)) h2
    refine ⟨a2 :: L2, by simp, ?_⟩
    intro z hz
    rcases List.mem_cons.mp hz with rfl | hz
    · exact hp y _ h1 (hL y (List.mem_cons_self _ _))
    · exact hL2 z hz

/-- A pattern character under the `i` flag matches exactly the two case forms
of the character. -/
theorem RegExp.ciChar_matches (c : Char) (s : Str) :
    s ∈ (RegExp.ciChar c).matches' ↔ ∃ e, s = [e] ∧ (e = c.toLower ∨ e = c.toUpper) := by
  unfold RegExp.ciChar
  split_ifs with h
  · rw [RegularExpression.matches'_char]
    constructor
    · intro hs
      exact ⟨c, hs, Or.inl (char_caseless c h).symm⟩
    · rintro ⟨e, rfl, he | he⟩
      · rw [he, char_caseless c h]; rfl
      · rw [he, ← h, char_caseless c h]; rfl
  · rw [RegularExpression.matches'_add, Language.mem_add, RegularExpression.matches'_char,
      RegularExpression.matches'_char]
    constructor
    · rintro (hs | hs)
      · exact ⟨_, hs, Or.inl rfl⟩
      · exact ⟨_, hs, Or.inr rfl⟩
    · rintro ⟨e, rfl, he | he⟩
      · left; rw [he]; rfl
      · right; rw [he]; rfl

theorem RegExp.caseClosed_ciChar (c : Char) : RegExp.CaseClosed (RegExp.ciChar c) := by
  intro s t hst hs
  rw [RegExp.ciChar_matches] at hs ⊢
  obtain ⟨e, rfl, he⟩ := hs
  cases hst with
  | cons hd htl =>
    cases htl
    exact ⟨_, rfl, char_case_forms c e _ he hd⟩

theorem RegExp.caseClosed_ciLit : ∀ s : Str, RegExp.CaseClosed (RegExp.ciLit s)
  | [] => RegExp.caseClosed_one
  | c :: s => RegExp.caseClosed_mul (RegExp.caseClosed_ciChar c) (RegExp.caseClosed_ciLit s)

/-- The class of white space is closed under change of case: no white-space
character is a letter. -/
theorem RegExp.caseClosed_ws : RegExp.CaseClosed RegExp.ws := by
  have hchars : ∀ c ∈ jsWhiteSpace, c.toLower = c.toUpper := by decide
  have key : ∀ l : List Char, (∀ c ∈ l, c.toLower = c.toUpper) →
      RegExp.CaseClosed (l.foldr (fun c r => RegularExpression.char c + r) 0) := by
    intro l
    induction l with
    | nil => intro _; exact RegExp.caseClosed_zero
    | cons c l ih =>
      intro hl
      have hc : RegExp.ciChar c = RegularExpression.char c := by
        unfold RegExp.ciChar
        rw [if_pos (hl c (List.mem_cons_self _ _))]
      have h1 := RegExp.caseClosed_ciChar c
      rw [hc] at h1
      exact RegExp.caseClosed_add h1 (ih (fun d hd => hl d (List.mem_cons_of_mem _ hd)))
  exact key jsWhiteSpace hchars

/-- The search for a pattern closed under change of case gives the same
verdict on strings equal ignoring case. -/
theorem RegExp.test_ignores_case (r : RegularExpression Char) (hr : RegExp.CaseClosed r)
    (s t : Str) (hst : EqIgnoringCase s t) : RegExp.test r s = RegExp.test r t := by
  have one : ∀ s t : Str, EqIgnoringCase s t → RegExp.test r s = true →
      RegExp.test r t = true := by
    intro s t hst h
    rw [RegExp.test_iff] at h ⊢
    obtain ⟨m, ⟨a, b, rfl⟩, hm⟩ := h
    rw [List.append_assoc] at hst
    obtain ⟨a2, rest, rfl, _, hrest⟩ := EqIgnoringCase.split hst
    obtain ⟨m2, b2, rfl, hm2, _⟩ := EqIgnoringCase.split hrest
    exact ⟨m2, ⟨a2, b2, by simp⟩, hr m m2 hm2 hm⟩
  cases h1 : RegExp.test r s
  · cases h2 : RegExp.test r t
    · rfl
    · rw [one t s hst.symm h2] at h1
      exact absurd h1 (by simp)
  · exact (one s t hst h1).symm

theorem RegExp.caseClosed_oneOrMore {p : RegularExpression Char} (hp : RegExp.CaseClosed p) :
    RegExp.CaseClosed (RegExp.oneOrMore p) :=
  RegExp.caseClosed_mul hp (RegExp.caseClosed_star hp)

theorem RegExp.caseClosed_optional {p : RegularExpression Char} (hp : RegExp.CaseClosed p) :
    RegExp.CaseClosed (RegExp.optional p) :=
  RegExp.caseClosed_add hp RegExp.caseClosed_one

theorem PBQ3.rulePattern1_caseClosed : RegExp.CaseClosed PBQ3.rulePattern1 :=
  RegExp.caseClosed_add
    (RegExp.caseClosed_add
      (RegExp.caseClosed_mul
        (RegExp.caseClosed_mul (RegExp.caseClosed_ciLit _)
          (RegExp.caseClosed_oneOrMore RegExp.caseClosed_ws))
        (RegExp.caseClosed_ciLit _))
      (RegExp.caseClosed_mul
        (RegExp.caseClosed_mul (RegExp.caseClosed_ciLit _)
          (RegExp.caseClosed_optional (RegExp.caseClosed_ciChar _)))
        (RegExp.caseClosed_ciLit _)))
    (RegExp.caseClosed_ciLit _)

theorem PBQ3.rulePattern2_caseClosed : RegExp.CaseClosed PBQ3.rulePattern2 :=
  RegExp.caseClosed_add
    (RegExp.caseClosed_mul
      (RegExp.caseClosed_mul (RegExp.caseClosed_ciLit _)
        (RegExp.caseClosed_oneOrMore RegExp.caseClosed_ws))
      (RegExp.caseClosed_ciLit _))
    (RegExp.caseClosed_ciLit _)

theorem PBQ5.pattern1_caseClosed : RegExp.CaseClosed PBQ5.pattern1 :=
  RegExp.caseClosed_add
    (RegExp.caseClosed_mul
      (RegExp.caseClosed_mul (RegExp.caseClosed_ciLit _)
        (RegExp.caseClosed_star RegExp.caseClosed_ws))
      (RegExp.caseClosed_ciLit _))
    (RegExp.caseClosed_ciLit _)

theorem PBQ5.pattern2_caseClosed : RegExp.CaseClosed PBQ5.pattern2 :=
  RegExp.caseClosed_add (RegExp.caseClosed_ciLit _)
    (RegExp.caseClosed_mul
      (RegExp.caseClosed_mul
        (RegExp.caseClosed_mul
          (RegExp.caseClosed_mul (RegExp.caseClosed_ciLit _)
            (RegExp.caseClosed_star RegExp.caseClosed_ws))
          (RegExp.caseClosed_ciLit _))
        (RegExp.caseClosed_star RegExp.caseClosed_ws))
      (RegExp.caseClosed_ciLit _))

theorem PBQ5.pattern3_caseClosed : RegExp.CaseClosed PBQ5.pattern3 :=
  RegExp.caseClosed_ciLit _

/-- C18. For the three log-analysis answers of PBQ5 and the rule description
of PBQ3, an answer judged correct stays judged correct with any text before
and after it, and two answers that differ only in the case of letters get the
same verdict. -/
theorem C18_pattern_search :
    (∀ (s x y o1 o2 : Str) (b : Bool),
      (PBQ5.ok1 ⟨s, o1, o2, b⟩ = true → PBQ5.ok1 ⟨x ++ s ++ y, o1, o2, b⟩ = true) ∧
      (PBQ5.ok2 ⟨o1, s, o2, b⟩ = true → PBQ5.ok2 ⟨o1, x ++ s ++ y, o2, b⟩ = true) ∧
      (PBQ5.ok3 ⟨o1, o2, s, b⟩ = true → PBQ5.ok3 ⟨o1, o2, x ++ s ++ y, b⟩ = true) ∧
      (PBQ3.correctRule ⟨o1, s, b⟩ = true → PBQ3.correctRule ⟨o1, x ++ s ++ y, b⟩ = true)) ∧
    (∀ (s t o1 o2 : Str) (b : Bool), EqIgnoringCase s t →
      PBQ5.ok1 ⟨s, o1, o2, b⟩ = PBQ5.ok1 ⟨t, o1, o2, b⟩ ∧
      PBQ5.ok2 ⟨o1, s, o2, b⟩ = PBQ5.ok2 ⟨o1, t, o2, b⟩ ∧
      PBQ5.ok3 ⟨o1, o2, s, b⟩ = PBQ5.ok3 ⟨o1, o2, t, b⟩ ∧
      PBQ3.correctRule ⟨o1, s, b⟩ = PBQ3.correctRule ⟨o1, t, b⟩) := by
  constructor
  · intro s x y o1 o2 b
    refine ⟨RegExp.test_append _ s x y, RegExp.test_append _ s x y,
      RegExp.test_append _ s x y, ?_⟩
    intro h
    simp only [PBQ3.correctRule, Bool.and_eq_true] at h ⊢
    exact ⟨RegExp.test_append _ s x y h.1, RegExp.test_append _ s x y h.2⟩
  · intro s t o1 o2 b hst
    refine ⟨RegExp.test_ignores_case _ PBQ5.pattern1_caseClosed s t hst,
      RegExp.test_ignores_case _ PBQ5.pattern2_caseClosed s t hst,
      RegExp.test_ignores_case _ PBQ5.pattern3_caseClosed s t hst, ?_⟩
    simp only [PBQ3.correctRule]
    rw [RegExp.test_ignores_case _ PBQ3.rulePattern1_caseClosed s t hst,
      RegExp.test_ignores_case _ PBQ3.rulePattern2_caseClosed s t hst]

/-- C18 at the answer sqli: it is accepted inside a sentence, and in capitals
it gets the verdict it gets in lower case. -/
theorem C18_pattern_search_witness :
    PBQ5.ok1 ⟨"it was ".toList ++ "sqli".toList ++ "!".toList, [], [], false⟩ = true ∧
    PBQ5.ok1 ⟨"sqli".toList, [], [], false⟩ = PBQ5.ok1 ⟨"SQLI".toList, [], [], false⟩ :=
  ⟨(C18_pattern_search.1 "sqli".toList "it was ".toList "!".toList [] [] false).1 (by decide),
   (C18_pattern_search.2 "sqli".toList "SQLI".toList [] [] false
      ((map_toLower_eq_iff _ _).mp (by decide))).1⟩

/-! ### Sorting with the arrow buttons -/

/-- The down arrow of a row that has a row below it exchanges the two. -/
theorem moveArr_down (xs : Arr) (n : Nat) (h : n + 1 < xs.length) :
    moveArr xs (n : Int) 1 = List.set (List.set xs n xs[n + 1]) (n + 1) xs[n] := by
  have e : ((n + 1 : Nat) : Int) - (n : Int) = 1 := by push_cast; ring
  have key := moveArr_in_range xs n (n + 1) (by omega) h
  rw [e] at key
  exact key

theorem moveArr_down_length (xs : Arr) (n : Nat) (h : n + 1 < xs.length) :
    (moveArr xs (n : Int) 1).length = xs.length := by
  rw [moveArr_down xs n h]; simp

/-- The down arrow of a row below the first leaves the first row alone. -/
theorem moveArr_down_cons (x : Option Str) (xs : Arr) (n : Nat) (h : n + 1 < xs.length) :
    moveArr (x :: xs) ((n + 1 : Nat) : Int) 1 = x :: moveArr xs (n : Int) 1 := by
  rw [moveArr_down (x :: xs) (n + 1) (by simpa using h), moveArr_down xs n h]
  simp

theorem pressDown_length : ∀ (idxs : List Nat) (xs : Arr),
    (∀ i ∈ idxs, i + 1 < xs.length) → (pressDown xs idxs).length = xs.length
  | [], _, _ => rfl
  | i :: idxs, xs, h => by
      have hi := h i (List.mem_cons_self _ _)
      have hl := moveArr_down_length xs i hi
      have ih := pressDown_length idxs (moveArr xs (i : Int) 1)
        (fun j hj => by rw [hl]; exact h j (List.mem_cons_of_mem _ hj))
      simp only [pressDown, List.foldl_cons] at ih ⊢
      rw [ih, hl]

theorem pressDown_cons (x : Option Str) : ∀ (idxs : List Nat) (xs : Arr),
    (∀ i ∈ idxs, i + 1 < xs.length) →
    pressDown (x :: xs) (idxs.map (fun i => i + 1)) = x :: pressDown xs idxs
  | [], _, _ => rfl
  | i :: idxs, xs, h => by
      have hi := h i (List.mem_cons_self _ _)
      have hl := moveArr_down_length xs i hi
      have ih := pressDown_cons x idxs (moveArr xs (i : Int) 1)
        (fun j hj => by rw [hl]; exact h j (List.mem_cons_of_mem _ hj))
      simp only [pressDown, List.map_cons, List.foldl_cons] at ih ⊢
      rw [moveArr_down_cons x xs i hi, ih]

theorem pressDown_append (xs : Arr) (a b : List Nat) :
    pressDown xs (a ++ b) = pressDown (pressDown xs a) b := by
  simp [pressDown, List.foldl_append]

/-- Every rearrangement of an array is reached by pressing down arrows of rows
that have a row below them. -/
theorem pressDown_of_perm {xs ys : Arr} (h : List.Perm xs ys) :
    ∃ idxs : List Nat, (∀ i ∈ idxs, i + 1 < xs.length) ∧ pressDown xs idxs = ys := by
  induction h with
  | nil => exact ⟨[], by simp, rfl⟩
  | cons x _ ih =>
    obtain ⟨idxs, hr, he⟩ := ih
    refine ⟨idxs.map (fun i => i + 1), ?_, ?_⟩
    · intro i hi
      obtain ⟨j, hj, rfl⟩ := List.mem_map.mp hi
      have := hr j hj
      simp only [List.length_cons]
      omega
    · rw [pressDown_cons x idxs _ hr, he]
  | swap x y l =>
    refine ⟨[0], by simp, ?_⟩
    simp only [pressDown, List.foldl_cons, List.foldl_nil]
    rw [moveArr_down (y :: x :: l) 0 (by simp)]
    simp
  | trans h1 _ ih1 ih2 =>
    obtain ⟨a, ha, ea⟩ := ih1
    obtain ⟨b, hb, eb⟩ := ih2
    refine ⟨a ++ b, ?_, ?_⟩
    · intro i hi
      rcases List.mem_append.mp hi with hi | hi
      · exact ha i hi
      · have := hb i hi
        rw [← h1.length_eq] at this
        exact this
    · rw [pressDown_append, ea, eb]

theorem PBQ4.move_eq (xs : Arr) (b : Bool) (i d : Int) :
    PBQ4.move ⟨xs, b⟩ i d = ⟨moveArr xs i d, b⟩ := by
  unfold PBQ4.move moveArr
  by_cases h : i + d < 0 ∨ i + d ≥ xs.length <;> simp [h]

theorem PBQ6.move_eq_rules (xs : Arr) (b : Bool) (i d : Int) :
    PBQ6.move ⟨xs, b⟩ i d = ⟨moveArr xs i d, b⟩ := by
  unfold PBQ6.move moveArr
  by_cases h : i + d < 0 ∨ i + d ≥ xs.length <;> simp [h]

theorem PBQ18.move_eq_order (xs : Arr) (b : Bool) (i d : Int) :
    PBQ18.move ⟨xs, b⟩ i d = ⟨moveArr xs i d, b⟩ := by
  unfold PBQ18.move moveArr
  by_cases h : i + d < 0 ∨ i + d ≥ xs.length <;> simp [h]

theorem PBQ4.pressDown_run (b : Bool) : ∀ (idxs : List Nat) (xs : Arr),
    (idxs.map (fun (i : Nat) => PBQ4.Op.move (i : Int) 1)).foldl PBQ4.Op.apply ⟨xs, b⟩
      = ⟨pressDown xs idxs, b⟩
  | [], _ => rfl
  | i :: idxs, xs => by
      have ih := PBQ4.pressDown_run b idxs (moveArr xs (i : Int) 1)
      simp only [List.map_cons, List.foldl_cons, PBQ4.Op.apply, PBQ4.move_eq, pressDown] at ih ⊢
      exact ih

theorem PBQ6.pressDown_run_rules (b : Bool) : ∀ (idxs : List Nat) (xs : Arr),
    (idxs.map (fun (i : Nat) => PBQ6.Op.move (i : Int) 1)).foldl PBQ6.Op.apply ⟨xs, b⟩
      = ⟨pressDown xs idxs, b⟩
  | [], _ => rfl
  | i :: idxs, xs => by
      have ih := PBQ6.pressDown_run_rules b idxs (moveArr xs (i : Int) 1)
      simp only [List.map_cons, List.foldl_cons, PBQ6.Op.apply, PBQ6.move_eq_rules,
        pressDown] at ih ⊢
      exact ih

theorem PBQ18.pressDown_run_order (b : Bool) : ∀ (idxs : List Nat) (xs : Arr),
    (idxs.map (fun (i : Nat) => PBQ18.Op.move (i : Int) 1)).foldl PBQ18.Op.apply ⟨xs, b⟩
      = ⟨pressDown xs idxs, b⟩
  | [], _ => rfl
  | i :: idxs, xs => by
      have ih := PBQ18.pressDown_run_order b idxs (moveArr xs (i : Int) 1)
      simp only [List.map_cons, List.foldl_cons, PBQ18.Op.apply, PBQ18.move_eq_order,
        pressDown] at ih ⊢
      exact ih

/-- From every rearrangement of the target, PBQ4 is brought to the target by
arrow presses, and then checks as correct. -/
theorem PBQ4.solvable (xs : Arr) (b : Bool) (h : List.Perm xs PBQ4.correct) :
    ∃ ops : List PBQ4.Op, (∀ o ∈ ops, PBQ4.IsArrow xs.length o) ∧
      (ops.foldl PBQ4.Op.apply ⟨xs, b⟩).steps = PBQ4.correct ∧
      (PBQ4.check (ops.foldl PBQ4.Op.apply ⟨xs, b⟩)).2 = (1, 1) := by
  obtain ⟨idxs, hr, he⟩ := pressDown_of_perm h
  refine ⟨idxs.map (fun (i : Nat) => PBQ4.Op.move (i : Int) 1), ?_, ?_, ?_⟩
  · intro o ho
    obtain ⟨i, hi, rfl⟩ := List.mem_map.mp ho
    have := hr i hi
    exact ⟨(i : Int), by omega, by omega, Or.inr rfl⟩
  · rw [PBQ4.pressDown_run, he]
  · rw [PBQ4.pressDown_run, he]
    simp [PBQ4.check, PBQ4.isCorrect]

/-- From every rearrangement of the target, PBQ6 is brought to the target by
arrow presses, and then checks as correct. -/
theorem PBQ6.solvable_rules (xs : Arr) (b : Bool) (h : List.Perm xs PBQ6.target) :
    ∃ ops : List PBQ6.Op, (∀ o ∈ ops, PBQ6.IsArrow xs.length o) ∧
      (ops.foldl PBQ6.Op.apply ⟨xs, b⟩).rules = PBQ6.target ∧
      (PBQ6.check (ops.foldl PBQ6.Op.apply ⟨xs, b⟩)).2 = (1, 1) := by
  obtain ⟨idxs, hr, he⟩ := pressDown_of_perm h
  refine ⟨idxs.map (fun (i : Nat) => PBQ6.Op.move (i : Int) 1), ?_, ?_, ?_⟩
  · intro o ho
    obtain ⟨i, hi, rfl⟩ := List.mem_map.mp ho
    have := hr i hi
    exact ⟨(i : Int), by omega, by omega, Or.inr rfl⟩
  · rw [PBQ6.pressDown_run_rules, he]
  · rw [PBQ6.pressDown_run_rules, he]
    simp [PBQ6.check, PBQ6.isCorrect]

/-- From every rearrangement of the target, PBQ18 is brought to the target by
arrow presses, and then checks as correct. -/
theorem PBQ18.solvable_order (xs : Arr) (b : Bool) (h : List.Perm xs PBQ18.correctOrder) :
    ∃ ops : List PBQ18.Op, (∀ o ∈ ops, PBQ18.IsArrow xs.length o) ∧
      (ops.foldl PBQ18.Op.apply ⟨xs, b⟩).order = PBQ18.correctOrder ∧
      (PBQ18.check (ops.foldl PBQ18.Op.apply ⟨xs, b⟩)).2 = (1, 1) := by
  obtain ⟨idxs, hr, he⟩ := pressDown_of_perm h
  refine ⟨idxs.map (fun (i : Nat) => PBQ18.Op.move (i : Int) 1), ?_, ?_, ?_⟩
  · intro o ho
    obtain ⟨i, hi, rfl⟩ := List.mem_map.mp ho
    have := hr i hi
    exact ⟨(i : Int), by omega, by omega, Or.inr rfl⟩
  · rw [PBQ18.pressDown_run_order, he]
  · rw [PBQ18.pressDown_run_order, he]
    simp [PBQ18.check, PBQ18.isCorrect]

/-- C21. Every ordering widget is solvable with the arrows alone: from the
initial order of PBQ4 and of PBQ6, and from every permutation of the five TLS
steps as the initial order of PBQ18, some finite sequence of `move i (-1)` /
`move i 1` calls with `i` the index of a row brings the list to the target
order, after which `check` reports (1, 1). -/
theorem C21_orderings_solvable :
    (∃ ops : List PBQ4.Op, (∀ o ∈ ops, PBQ4.IsArrow 5 o) ∧
      (ops.foldl PBQ4.Op.apply PBQ4.init).steps = PBQ4.correct ∧
      (PBQ4.check (ops.foldl PBQ4.Op.apply PBQ4.init)).2 = (1, 1)) ∧
    (∃ ops : List PBQ6.Op, (∀ o ∈ ops, PBQ6.IsArrow 4 o) ∧
      (ops.foldl PBQ6.Op.apply PBQ6.init).rules = PBQ6.target ∧
      (PBQ6.check (ops.foldl PBQ6.Op.apply PBQ6.init)).2 = (1, 1)) ∧
    (∀ shuffled : Arr, List.Perm shuffled PBQ18.correctOrder →
      ∃ ops : List PBQ18.Op, (∀ o ∈ ops, PBQ18.IsArrow 5 o) ∧
        (ops.foldl PBQ18.Op.apply (PBQ18.init shuffled)).order = PBQ18.correctOrder ∧
        (PBQ18.check (ops.foldl PBQ18.Op.apply (PBQ18.init shuffled))).2 = (1, 1)) := by
  refine ⟨?_, ?_, ?_⟩
  · exact PBQ4.solvable PBQ4.init.steps false (by decide)
  · exact PBQ6.solvable_rules PBQ6.init.rules false (by decide)
  · intro shuffled h
    have hl : shuffled.length = 5 := h.length_eq
    have key := PBQ18.solvable_order shuffled false h
    rw [hl] at key
    exact key

/-- C21 at the TLS order that starts with ServerHello, ClientHello. -/
theorem C21_orderings_solvable_witness :
    ∃ ops : List PBQ18.Op, (∀ o ∈ ops, PBQ18.IsArrow 5 o) ∧
      (ops.foldl PBQ18.Op.apply (PBQ18.init (Arr.ofStrings ["ServerHello", "ClientHello",
        "Server Certificate", "Key Exchange", "Finished"]))).order = PBQ18.correctOrder ∧
      (PBQ18.check (ops.foldl PBQ18.Op.apply (PBQ18.init (Arr.ofStrings ["ServerHello",
        "ClientHello", "Server Certificate", "Key Exchange", "Finished"])))).2 = (1, 1) :=
  C21_orderings_solvable.2.2 _ (by decide)

/-! ### Repeated checks and the running total -/

/-- C22, as stated, fails once the total max has reached 2^53.  Pressing the
Check button of PBQ4, which reports (0, 1), 2^53 times from the start brings
the total to (0, 2^53); one more press leaves the total at (0, 2^53) and not at
(0, 2^53 + 1). -/
theorem C22_repeated_checks_counterexample :
    Totals.run ((Check.pbq4 PBQ4.init).repeated (2 ^ 53)) = ⟨0, 2 ^ 53⟩ ∧
    (Check.pbq4 PBQ4.init).report = (0, 1) ∧
    ((Check.pbq4 PBQ4.init).repeated 1).foldl Totals.step ⟨0, 2 ^ 53⟩ = ⟨0, 2 ^ 53⟩ ∧
    ((Check.pbq4 PBQ4.init).repeated 1).foldl Totals.step ⟨0, 2 ^ 53⟩
      ≠ ⟨0 + ((1 : Nat) : Int) * 0, 2 ^ 53 + ((1 : Nat) : Int) * 1⟩ := by
  have hr : (Check.pbq4 PBQ4.init).report = (0, 1) := by decide
  refine ⟨?_, hr, by decide, by decide⟩
  rw [Totals.run, Totals.repeated_checks _ _ _ (by unfold InExactRange; decide)
    (by rw [hr]; unfold InExactRange; norm_num [Totals.init])
    (by unfold InExactRange; decide)
    (by rw [hr]; unfold InExactRange; norm_num [Totals.init]), hr]
  norm_num [Totals.init]

/-- C22, amended. For every widget, every state of it with reported pair
`(s, m)`, every `n` and every running total `(S, M)` such that `S`, `M`,
`S + n * s` and `M + n * m` are within 2^53 in magnitude, pressing the
widget's Check button `n` times in a row changes the running total from
`(S, M)` to `(S + n * s, M + n * m)`; so, when `n` is at least 2, a second
check changes the total again; and the total max exceeds the sum of the
widgets' maxima, 47, after 48 checks of PBQ4. -/
theorem C22_repeated_checks_accumulate (c : Check) (t : Totals) (n : Nat)
    (hs : InExactRange t.score) (hs2 : InExactRange (t.score + n * c.report.1))
    (hm : InExactRange t.max) (hm2 : InExactRange (t.max + n * c.report.2)) :
    (c.repeated n).foldl Totals.step t
      = ⟨t.score + n * c.report.1, t.max + n * c.report.2⟩ ∧
    (2 ≤ n →
      Totals.step (Totals.step t (AppEvent.check c)) (AppEvent.check c.after)
        ≠ Totals.step t (AppEvent.check c)) ∧
    nominalMax = 47 ∧
    nominalMax < (Totals.run ((Check.pbq4 PBQ4.init).repeated 48)).max := by
  have h48 : Totals.run ((Check.pbq4 PBQ4.init).repeated 48) = ⟨0, 48⟩ := by
    rw [Totals.run, Totals.repeated_checks _ _ _ (by unfold InExactRange; decide)
      (by unfold InExactRange; decide) (by unfold InExactRange; decide)
      (by unfold InExactRange; decide)]
    decide
  refine ⟨Totals.repeated_checks n c t hs hs2 hm hm2, ?_, by decide, by rw [h48]; decide⟩
  intro hn h
  have hm3 := congrArg Totals.max h
  have hb := c.report_bounds
  have hn2 : (2 : Int) ≤ (n : Int) := by exact_mod_cast hn
  have p : 2 * c.report.2 ≤ (n : Int) * c.report.2 :=
    mul_le_mul_of_nonneg_right hn2 (by omega)
  simp only [InExactRange] at hm hm2
  simp only [Totals.step, updateTotals, Check.report_after] at hm3
  rw [jsAdd_exact t.max _ (by omega) (by omega)] at hm3
  rw [jsAdd_exact _ _ (by omega) (by omega)] at hm3
  omega

/-- C22, amended, at 48 checks of PBQ4 from the start. -/
theorem C22_repeated_checks_accumulate_witness :
    ((Check.pbq4 PBQ4.init).repeated 48).foldl Totals.step Totals.init = ⟨0, 48⟩ ∧
    Totals.step (Totals.step Totals.init (AppEvent.check (Check.pbq4 PBQ4.init)))
        (AppEvent.check (Check.pbq4 PBQ4.init).after)
      ≠ Totals.step Totals.init (AppEvent.check (Check.pbq4 PBQ4.init)) := by
  have h := C22_repeated_checks_accumulate (Check.pbq4 PBQ4.init) Totals.init 48
    (by unfold InExactRange; decide) (by unfold InExactRange; decide)
    (by unfold InExactRange; decide) (by unfold InExactRange; decide)
  exact ⟨by rw [h.1]; decide, h.2.1 (by decide)⟩

/-! ### Rule 2 protocol and the address fields -/

/-- A rule that Rule 2 judges correct has an accepted protocol value. -/
theorem PBQ2.isRule2Correct_proto (r : PBQ2.Rule) (h : PBQ2.isRule2Correct r = true) :
    r.proto = [] ∨ EqIgnoringCase r.proto "TCP".toList ∨ EqIgnoringCase r.proto "UDP".toList := by
  simp only [PBQ2.isRule2Correct, Bool.and_eq_true, decide_eq_true_eq, List.mem_cons,
    List.mem_singleton, List.not_mem_nil, or_false] at h
  rcases h.1.1.1.2 with hp | hp | hp
  · exact Or.inl ((toUpperCase_eq_nil_iff _).mp hp)
  · exact Or.inr (Or.inl ((toUpperCase_eq_const _ _ (by decide)).mp hp))
  · exact Or.inr (Or.inr ((toUpperCase_eq_const _ _ (by decide)).mp hp))

/-- C23. In the firewall widget, Rule 2 is judged incorrect whenever its
protocol value is `(any)`, whatever the other fields, although `(any)` is one
of the three options of the Rule 2 protocol drop-down; a rule that Rule 2
judges correct has the empty protocol, TCP or UDP ignoring case, and with the
other fields right each of these is accepted. -/
theorem C23_rule2_rejects_any :
    ("(any)".toList ∈ PBQ2.rule2ProtoOptions ∧ PBQ2.rule2ProtoOptions.length = 3) ∧
    (∀ action port src dst : Str,
      PBQ2.isRule2Correct ⟨action, "(any)".toList, port, src, dst⟩ = false) ∧
    (∀ r : PBQ2.Rule, PBQ2.isRule2Correct r = true →
      r.proto = [] ∨ EqIgnoringCase r.proto "TCP".toList ∨
        EqIgnoringCase r.proto "UDP".toList) ∧
    (∀ p : Str, p = [] ∨ EqIgnoringCase p "TCP".toList ∨ EqIgnoringCase p "UDP".toList →
      PBQ2.isRule2Correct ⟨"DENY".toList, p, [], "ANY".toList, "ANY".toList⟩ = true) := by
  refine ⟨by decide, ?_, PBQ2.isRule2Correct_proto, ?_⟩
  · intro action port src dst
    have hp : decide (toUpperCase "(any)".toList ∈
        ["".toList, "TCP".toList, "UDP".toList]) = false := by decide
    simp only [PBQ2.isRule2Correct, hp, Bool.and_false, Bool.false_and]
  · intro p hp
    have hproto : decide (toUpperCase p ∈ ["".toList, "TCP".toList, "UDP".toList]) = true := by
      rw [decide_eq_true_eq]
      rcases hp with rfl | hp | hp
      · decide
      · rw [(toUpperCase_eq_const p _ (by decide)).mpr hp]; decide
      · rw [(toUpperCase_eq_const p _ (by decide)).mpr hp]; decide
    have h1 : decide (toUpperCase "DENY".toList = "DENY".toList) = true := by decide
    have h2 : decide (trim ([] : Str) = "".toList) = true := by decide
    have h3 : decide (toUpperCase (trim "ANY".toList) ∈
        ["ANY".toList, "*".toList, "INTERNET".toList, "0.0.0.0/0".toList]) = true := by decide
    have h4 : decide (toUpperCase (trim "ANY".toList) ∈
        ["ANY".toList, "*".toList, "10.10.5.25".toList, "0.0.0.0/0".toList]) = true := by decide
    simp only [PBQ2.isRule2Correct, hproto, h1, h2, h3, h4, Bool.and_self]

/-- C23 at a deny rule with protocol tcp. -/
theorem C23_rule2_rejects_any_witness :
    ("tcp".toList : Str) = [] ∨ EqIgnoringCase "tcp".toList "TCP".toList ∨
      EqIgnoringCase "tcp".toList "UDP".toList :=
  C23_rule2_rejects_any.2.2.1
    ⟨"DENY".toList, "tcp".toList, [], "ANY".toList, "ANY".toList⟩ (by decide)

/-- Dropping from the left stops at the first element that fails the test. -/
theorem dropWhile_append_cons {α : Type} (p : α → Bool) (x : α) (r : List α)
    (hx : p x = false) : ∀ a : List α, (a ++ x :: r).dropWhile p = a.dropWhile p ++ x :: r
  | [] => by simp [List.dropWhile, hx]
  | y :: a => by
      have ih := dropWhile_append_cons p x r hx a
      cases hy : p y
      · simp [List.dropWhile, hy]
      · simp [List.dropWhile, hy, ih]

/-- Dropping from the right stops at the last element that fails the test. -/
theorem rdropWhile_append_cons {α : Type} (p : α → Bool) (x : α) (a r : List α)
    (hx : p x = false) : (a ++ x :: r).rdropWhile p = a ++ x :: r.rdropWhile p := by
  have h := dropWhile_append_cons p x a.reverse hx r.reverse
  simp only [List.rdropWhile, List.reverse_append, List.reverse_cons, List.append_assoc,
    List.singleton_append] at h ⊢
  rw [h]
  simp

/-- Trimming keeps a substring that begins and ends with characters other
than white space. -/
theorem trim_keeps (a b mid : Str) (f l : Char) (hf : isWhiteSpace f = false)
    (hl : isWhiteSpace l = false) :
    trim (a ++ (f :: (mid ++ [l])) ++ b)
      = a.dropWhile isWhiteSpace ++ (f :: (mid ++ [l])) ++ b.rdropWhile isWhiteSpace := by
  unfold trim
  have e1 : a ++ (f :: (mid ++ [l])) ++ b = a ++ f :: (mid ++ [l] ++ b) := by simp
  rw [e1, dropWhile_append_cons isWhiteSpace f _ hf a]
  have e2 : a.dropWhile isWhiteSpace ++ f :: (mid ++ [l] ++ b)
      = (a.dropWhile isWhiteSpace ++ f :: mid) ++ l :: b := by simp
  rw [e2, rdropWhile_append_cons isWhiteSpace l _ b hl]
  simp

/-- The trimmed string is a substring of the string. -/
theorem trim_infix (s : Str) : trim s <:+: s := by
  obtain ⟨t, ht⟩ := List.dropWhile_suffix (l := s) isWhiteSpace
  obtain ⟨u, hu⟩ := ( List.rdropWhile_prefix isWhiteSpace (s.dropWhile isWhiteSpace))
  refine ⟨t, u, ?_⟩
  unfold trim
  rw [List.append_assoc, hu, ht]

/-- The search for a literal pattern is the search for a substring. -/
theorem RegExp.test_lit_iff (k s : Str) : RegExp.test (RegExp.lit k) s = true ↔ k <:+: s := by
  rw [RegExp.test_iff]
  constructor
  · rintro ⟨m, hm, hk⟩
    rw [← RegularExpression.rmatch_iff_matches', RegExp.lit_rmatch_iff] at hk
    rw [← hk]; exact hm
  · intro h
    refine ⟨k, h, ?_⟩
    rw [← RegularExpression.rmatch_iff_matches', RegExp.lit_rmatch_iff]

/-- C24. The address fields are matched without anchors: the broadcast field of
PBQ9 is judged correct exactly for the inputs that contain 192.168.50.63 as a
substring, and the internal host:port field of PBQ10 exactly for the inputs
that contain 10.0.20.50:443, an input with another character for a dot not
being accepted; so 192.168.50.630 and 10.0.20.50:4430 are accepted, while the
hosts field of PBQ9 is judged correct exactly for the inputs equal to 62 after
trimming. -/
theorem C24_unanchored_address_fields :
    (∀ (cidr hosts bcast : Str) (b : Bool),
      PBQ9.okBcast ⟨cidr, hosts, bcast, b⟩ = true ↔ "192.168.50.63".toList <:+: bcast) ∧
    (∀ intIP : Str, PBQ10.okIntIP intIP = true ↔ "10.0.20.50:443".toList <:+: intIP) ∧
    (∀ (extPort intIP proto : Str) (b : Bool),
      PBQ10.ok ⟨extPort, intIP, proto, b⟩ = true ↔
        extPort = "8443".toList ∧ "10.0.20.50:443".toList <:+: intIP ∧
          toUpperCase proto = "TCP".toList) ∧
    (PBQ9.okBcast ⟨[], [], "192.168.50.630".toList, false⟩ = true ∧
      PBQ9.okBcast ⟨[], [], "192x168.50.63".toList, false⟩ = false ∧
      PBQ10.ok ⟨"8443".toList, "10.0.20.50:4430".toList, "TCP".toList, false⟩ = true ∧
      PBQ10.ok ⟨"8443".toList, "10x0.20.50:443".toList, "TCP".toList, false⟩ = false) ∧
    (∀ (cidr hosts bcast : Str) (b : Bool),
      PBQ9.okHosts ⟨cidr, hosts, bcast, b⟩ = true ↔ trim hosts = "62".toList) := by
  have hint : ∀ intIP : Str,
      PBQ10.okIntIP intIP = true ↔ "10.0.20.50:443".toList <:+: intIP :=
    fun intIP => RegExp.test_lit_iff _ _
  refine ⟨?_, hint, ?_, by decide, ?_⟩
  · intro cidr hosts bcast b
    simp only [PBQ9.okBcast]
    rw [RegExp.test_lit_iff]
    constructor
    · rintro ⟨x, y, h⟩
      obtain ⟨t, u, htu⟩ := trim_infix bcast
      refine ⟨t ++ x, y ++ u, ?_⟩
      rw [← htu, ← h]
      simp
    · rintro ⟨x, y, rfl⟩
      have hk : "192.168.50.63".toList = '1' :: ("92.168.50.6".toList ++ ['3']) := by decide
      rw [hk, trim_keeps x y _ '1' '3' (by decide) (by decide)]
      exact ⟨_, _, rfl⟩
  · intro extPort intIP proto b
    have e : PBQ10.ok ⟨extPort, intIP, proto, b⟩
        = (decide (extPort = "8443".toList) && PBQ10.okIntIP intIP &&
            decide (toUpperCase proto = "TCP".toList)) := rfl
    rw [e]
    simp only [Bool.and_eq_true, decide_eq_true_eq, hint, and_assoc]
  · intro cidr hosts bcast b
    simp only [PBQ9.okHosts, RegExp.testWhole]
    exact RegExp.lit_rmatch_iff _ _
